import Mathlib

/-!
# LDP speaker (Network/LDP/LDP.cc): embedding and verified properties

The C++ module `LDP` is embedded as pure functions on an explicit `State`.
Every entry point returns `Except Abort State`: `Except.error` stands for a
failed `ASSERT` or a call to `error(...)`, both of which stop the simulation.
Messages handed to the transports are appended to the log `State.sent`.

Collaborators whose code is outside `LDP.cc` (address arithmetic, the routing
lookup, the interface table lookup, the library routine `std::sort`, numeric
constants) are the fields of `Ext`; every theorem holds for every `Ext`. Of
`std::sort` only what the C++ standard promises is used: the range is permuted
and ordered by the comparator, and entries that the comparator does not tell
apart come in any order. The counter `maxFecid` is a C++ `int`: `++maxFecid` is
the successor in 32 bit two's complement.
-/

set_option linter.unusedVariables false

namespace LDP

/-! ## Data model -/

/-- An IPv4 address, by its 32 bit integer value (`IPAddress::getInt`). -/
abbrev IPAddress := Nat

/-- Embeds `IPAddress::isUnspecified`: the address 0.0.0.0. -/
def isUnspecified (a : IPAddress) : Bool := a == 0

/-- The unspecified address returned by the default constructor `IPAddress()`. -/
def unspecified : IPAddress := 0

structure FEC_TLV where
  addr : IPAddress
  length : Int
deriving DecidableEq, Repr

/-- Embeds `LDP::fec_t`. -/
structure fec_t where
  fecid : Int
  addr : IPAddress
  length : Int
  nextHop : IPAddress
deriving DecidableEq, Repr

/-- Embeds `LDP::fec_bind_t`. -/
structure fec_bind_t where
  fecid : Int
  peer : IPAddress
  label : Int
deriving DecidableEq, Repr

/-- Embeds `LDP::pending_req_t`. -/
structure pending_req_t where
  fecid : Int
  peer : IPAddress
deriving DecidableEq, Repr

/-- The states of a `TCPSocket`. -/
inductive SockState where
  | NOT_BOUND | BOUND | LISTENING | CONNECTING | CONNECTED
  | PEER_CLOSED | LOCALLY_CLOSED | CLOSED | SOCKERROR
deriving DecidableEq, Repr

/-- What `LDP.cc` reads of a `TCPSocket`: its state, and the callback pointer
registered with `setCallbackObject(this, (void*)index)`. -/
structure TCPSocket where
  state : SockState
  yourPtr : Nat
deriving DecidableEq, Repr

/-- Embeds `LDP::peer_info`; `timeout` is the identity of the peer's HelloTimeout
message, `socket = none` is the NULL pointer. -/
structure peer_info where
  peerIP : IPAddress
  linkInterface : String
  activeRole : Bool
  socket : Option TCPSocket
  timeout : Nat
deriving DecidableEq, Repr

inductive RouteType where
  | DIRECT | REMOTE
deriving DecidableEq, Repr

/-- The fields of a `RoutingEntry` that `LDP.cc` reads; `netmaskLength` is
`re->netmask.netmaskLength()`. -/
structure RoutingEntry where
  host : IPAddress
  netmaskLength : Int
  gateway : IPAddress
  type : RouteType
deriving DecidableEq, Repr

structure RoutingTable where
  routerId : IPAddress
  entries : List RoutingEntry
deriving DecidableEq, Repr

/-- The fields of an `InterfaceEntry` that `LDP.cc` reads; `inetAddress` is
`ie->ipv4()->inetAddress()`. -/
structure InterfaceEntry where
  outputPort : Int
  inetAddress : IPAddress
  name : String
deriving DecidableEq, Repr

abbrev InterfaceTable := List InterfaceEntry

/-- One label operation, as built by `LIBTable::pushLabel`, `swapLabel`, `popLabel`. -/
inductive LabelOp where
  | push (label : Int)
  | swap (label : Int)
  | pop
deriving DecidableEq, Repr

abbrev LabelOpVector := List LabelOp

def pushLabel (label : Int) : LabelOpVector := [LabelOp.push label]
def swapLabel (label : Int) : LabelOpVector := [LabelOp.swap label]
def popLabel : LabelOpVector := [LabelOp.pop]

/-- Embeds `bool fecPrefixCompare(const fec_t& a, const fec_t& b)`. -/
def fecPrefixCompare (a b : fec_t) : Bool := decide (a.length > b.length)

/-- Collaborators and constants declared outside `LDP.cc`. -/
structure Ext where
  /-- Method `IPAddress::isMulticast`. -/
  isMulticast : IPAddress → Bool
  /-- Method `dest.prefixMatches(addr, length)`. -/
  prefixMatches : IPAddress → IPAddress → Int → Bool
  /-- Method `rt->outputPortNo(dest)`. -/
  outputPortNo : RoutingTable → IPAddress → Int
  /-- Method `ift->interfaceByPortNo(portNo)->name()`. -/
  interfaceNameByPortNo : InterfaceTable → Int → String
  LDP_PORT : Int
  LDP_USER_TRAFFIC : Int
  IP_PROT_OSPF : Int
  IP_PROT_UDP : Int
  IP_PROT_TCP : Int
  NO_ROUTE : Int
  /-- The library routine `std::sort(first, last, fecPrefixCompare)`, as the
  function from the contents of the range before the call to its contents
  after it. -/
  stdSort : List fec_t → List fec_t
  /-- What the C++ standard promises of `std::sort`: the range holds the same
  elements as before. -/
  stdSort_perm : ∀ l, (stdSort l).Perm l
  /-- What the C++ standard promises of `std::sort`: no element is followed by
  one that the comparator puts before it. -/
  stdSort_sorted : ∀ l, (stdSort l).Pairwise (fun a b => fecPrefixCompare b a = false)

/-! ## The label information base -/

structure LIBEntry where
  inLabel : Int
  inInterface : String
  outLabel : LabelOpVector
  outInterface : String
  color : Int
deriving DecidableEq, Repr

/-- Modelled from the spec: the LIB (`LIBtable.h`, not among the sources) as the
list of installed cross-connects and the highest ingress label handed out. -/
structure LIBTable where
  lib : List LIBEntry
  maxLabel : Int
deriving DecidableEq, Repr

/-- Modelled from the spec: `install(ingressLabel?, ingressIf, outLabelOp,
egressIf, color) → label` of `LIBTable`, which is not among the sources:
"create or replace a cross-connect; if `ingressLabel` is absent/`-1`, the LIB
allocates a fresh one; returns the resulting ingress label". -/
def installLibEntry (lt : LIBTable) (inLabel : Int) (inInterface : String)
    (outLabel : LabelOpVector) (outInterface : String) (color : Int) : LIBTable × Int :=
  if inLabel = -1 then
    let l := lt.maxLabel + 1
    ({ lib := lt.lib ++ [⟨l, inInterface, outLabel, outInterface, color⟩], maxLabel := l }, l)
  else
    ({ lib := lt.lib.filter (fun e => e.inLabel != inLabel)
              ++ [⟨inLabel, inInterface, outLabel, outInterface, color⟩],
       maxLabel := max lt.maxLabel inLabel }, inLabel)

/-- Modelled from the spec: `remove(label)` of `LIBTable`, which is not among
the sources: "delete a cross-connect". -/
def removeLibEntry (lt : LIBTable) (inLabel : Int) : LIBTable :=
  { lt with lib := lt.lib.filter (fun e => e.inLabel != inLabel) }

/-- The LIB holds a cross-connect keyed by the ingress label `l`. -/
def LIBTable.installed (lt : LIBTable) (l : Int) : Bool :=
  lt.lib.any (fun e => e.inLabel == l)

/-! ## Messages -/

inductive LDPType where
  | HELLO | ADDRESS | ADDRESS_WITHDRAW | LABEL_MAPPING | LABEL_REQUEST
  | LABEL_WITHDRAW | LABEL_RELEASE | NOTIFICATION | UNKNOWN
deriving DecidableEq, Repr

/-- An LDP packet; the subclasses `LDPLabelRequest`, `LDPLabelMapping` and
`LDPNotify` use the fields `fec`, `label` and `status` they declare. -/
structure LDPPacket where
  type : LDPType
  senderAddress : IPAddress
  receiverAddress : IPAddress
  fec : FEC_TLV
  label : Int
  status : Int
deriving DecidableEq, Repr

/-- What the module hands to its environment. -/
inductive Output where
  /-- Call `peerSocket(dest)->send(msg)`. -/
  | tcp (dest : IPAddress) (pkt : LDPPacket)
  /-- Call `send(hello, "to_udp_interface")` with destination `dest`. -/
  | udpHello (sender : IPAddress) (dest : IPAddress)
  /-- Call `scheduleAt(simTime() + 1.0, packet)` of a NO_ROUTE notification. -/
  | retryLater (pkt : LDPPacket)
  /-- Call `scheduleAt(simTime() + helloInterval, sendHelloMsg)`. -/
  | nextHello
  /-- Call `scheduleAt(simTime() + holdTime, timeout)`. -/
  | helloTimeoutAt (timeout : Nat)
  /-- Call `socket->connect(peerIP, LDP_PORT)`. -/
  | connect (peerIP : IPAddress)
  /-- Call `socket->close()` on a refused incoming connection. -/
  | refuse (peerIP : IPAddress)
  /-- Call `tedmod->ted[index].state = up`. -/
  | tedLinkState (advrouter linkid : IPAddress) (up : Bool)
  /-- Call `tedmod->rebuildRoutingTable()`. -/
  | rebuildRoutingTable
  /-- Call `announceLinkChange(advrouter, linkid)`. -/
  | announceLinkChange (advrouter linkid : IPAddress)
deriving DecidableEq, Repr

/-- Why a run stopped: the `ASSERT` that failed, or the `error(...)` raised. -/
inductive Abort where
  /-- Failed `ASSERT(!(ER && dit != fecDown.end()))`. -/
  | assertEgress
  /-- Failed `ASSERT(!nextHop.isUnspecified())`. -/
  | assertNextHop
  /-- Failed `ASSERT(sock)` in `peerSocket`. -/
  | noSession
  /-- Failed `ASSERT(uit == fecUp.end())` in `processLABEL_REQUEST`. -/
  | assertNotMapped
  /-- Failed `ASSERT(label > 0)`. -/
  | assertLabel
  /-- Failed `ASSERT(it != fecList.end())` in `processLABEL_MAPPING`. -/
  | assertFecKnown
  /-- Failed `ASSERT(dit == fecDown.end())` in `processLABEL_MAPPING`. -/
  | assertNoDownstream
  /-- Failed `ASSERT(i < myPeers.size())` in `processHelloTimeout`. -/
  | assertTimeoutOwner
  /-- Failed `ASSERT(myPeers[i].socket)` in `processHelloTimeout`. -/
  | assertSocket
  /-- Failed `ASSERT(false)`. -/
  | assertFalse
  /-- A call of `error(...)`. -/
  | protocolError
  /-- Access `myPeers[(long)yourPtr]` past the end of the vector. -/
  | peerIndex
deriving DecidableEq, Repr

/-- The member variables of the module, the LIB it drives, and the log of
what it has sent. -/
structure State where
  myPeers : List peer_info
  fecList : List fec_t
  fecUp : List fec_bind_t
  fecDown : List fec_bind_t
  pending : List pending_req_t
  maxFecid : Int
  lt : LIBTable
  sent : List Output
  /-- Number of HelloTimeout messages created (`new cMessage("HelloTimeout")`). -/
  timers : Nat
deriving DecidableEq, Repr

/-- The module before `initialize`: empty tables, `maxFecid = 0`, empty LIB. -/
def State.empty : State :=
  { myPeers := [], fecList := [], fecUp := [], fecDown := [], pending := [],
    maxFecid := 0, lt := { lib := [], maxLabel := 0 }, sent := [], timers := 0 }

/-! ## Lookups -/

/-- Embeds `LDP::findFecEntry(FecBindVector&, int fecid, IPAddress peer)`: the first
binding with that FEC id and peer; `none` is `fecs.end()`. -/
def findFecBind (fecs : List fec_bind_t) (fecid : Int) (peer : IPAddress) : Option fec_bind_t :=
  fecs.find? (fun b => b.fecid == fecid && b.peer == peer)

/-- Embeds `LDP::findFecEntry(FecVector&, IPAddress addr, int length)`: the first
entry with that length and address; `none` is `fecs.end()`. -/
def findFecEntry (fecs : List fec_t) (addr : IPAddress) (length : Int) : Option fec_t :=
  fecs.find? (fun f => f.length == length && f.addr == addr)

/-- Embeds `fecs.erase(it)` for the iterator `it = findFecEntry(fecs, addr, length)`. -/
def eraseFecEntry (fecs : List fec_t) (addr : IPAddress) (length : Int) : List fec_t :=
  fecs.eraseP (fun f => f.length == length && f.addr == addr)

/-- Embeds `fecs.erase(it)` for the iterator `it = findFecEntry(fecs, fecid, peer)`. -/
def eraseFecBind (fecs : List fec_bind_t) (fecid : Int) (peer : IPAddress) : List fec_bind_t :=
  fecs.eraseP (fun b => b.fecid == fecid && b.peer == peer)

/-- Embeds `LDP::findPeer`: index of the first peer with that address; `none` is -1. -/
def findPeer : List peer_info → IPAddress → Option Nat
  | [], _ => none
  | p :: ps, peerAddr =>
    if p.peerIP == peerAddr then some 0 else (findPeer ps peerAddr).map (· + 1)

/-- Embeds `LDP::peerSocketSoft`: the socket of the session to the peer, `none` (NULL)
unless the peer is known, has a socket, and the socket is CONNECTED. -/
def peerSocketSoft (myPeers : List peer_info) (peerAddr : IPAddress) : Option TCPSocket :=
  match findPeer myPeers peerAddr with
  | none => none
  | some i =>
    match myPeers[i]? with
    | none => none
    | some p =>
      match p.socket with
      | none => none
      | some sock => if sock.state = SockState.CONNECTED then some sock else none

/-- Embeds `LDP::findInterfaceFromPeerAddr`. The lookup is total here: a port
number without an interface is not a way to stop. -/
def findInterfaceFromPeerAddr (x : Ext) (rt : RoutingTable) (ift : InterfaceTable)
    (peerIP : IPAddress) : String :=
  x.interfaceNameByPortNo ift (x.outputPortNo rt peerIP)

/-! ## Sending -/

/-- Embeds `LDP::sendToPeer`: `peerSocket(dest)->send(msg)`; `peerSocket` asserts that
there is a session. -/
def sendToPeer (myPeers : List peer_info) (dest : IPAddress) (msg : LDPPacket) :
    Except Abort Output :=
  match peerSocketSoft myPeers dest with
  | none => Except.error Abort.noSession
  | some _ => Except.ok (Output.tcp dest msg)

/-- The packet built by `LDP::sendMappingRequest`. -/
def mappingRequest (rt : RoutingTable) (dest addr : IPAddress) (length : Int) : LDPPacket :=
  { type := LDPType.LABEL_REQUEST, senderAddress := rt.routerId, receiverAddress := dest,
    fec := ⟨addr, length⟩, label := 0, status := 0 }

/-- Embeds `LDP::sendMappingRequest`. -/
def sendMappingRequest (rt : RoutingTable) (myPeers : List peer_info)
    (dest addr : IPAddress) (length : Int) : Except Abort Output :=
  sendToPeer myPeers dest (mappingRequest rt dest addr length)

/-- The packet built by `LDP::sendMapping`. -/
def mapping (rt : RoutingTable) (type : LDPType) (dest : IPAddress) (label : Int)
    (addr : IPAddress) (length : Int) : LDPPacket :=
  { type := type, senderAddress := rt.routerId, receiverAddress := dest,
    fec := ⟨addr, length⟩, label := label, status := 0 }

/-- Embeds `LDP::sendMapping`. -/
def sendMapping (rt : RoutingTable) (myPeers : List peer_info) (type : LDPType)
    (dest : IPAddress) (label : Int) (addr : IPAddress) (length : Int) : Except Abort Output :=
  sendToPeer myPeers dest (mapping rt type dest label addr length)

/-- The packet built by `LDP::sendNotify`; the status is set to NO_ROUTE
whatever the `status` argument. -/
def notify (x : Ext) (rt : RoutingTable) (dest addr : IPAddress) (length : Int) : LDPPacket :=
  { type := LDPType.NOTIFICATION, senderAddress := rt.routerId, receiverAddress := dest,
    fec := ⟨addr, length⟩, label := 0, status := x.NO_ROUTE }

/-- Embeds `LDP::sendNotify`. -/
def sendNotify (x : Ext) (rt : RoutingTable) (myPeers : List peer_info) (status : Int)
    (dest addr : IPAddress) (length : Int) : Except Abort Output :=
  sendToPeer myPeers dest (notify x rt dest addr length)

/-! ## Reconciliation of one FEC -/

/-- The loop over `fecUp` in `LDP::updateFecListEntry`, on the part of the
vector not yet visited: the new contents of that part, the LIB, and the
messages sent. A binding of another FEC is skipped; `fecUp.erase(uit--)`
drops the binding and goes on with the next one. -/
def adjustUpstream (x : Ext) (rt : RoutingTable) (ift : InterfaceTable)
    (myPeers : List peer_info) (oldItem : fec_t) (ER : Bool) (dit : Option fec_bind_t) :
    List fec_bind_t → LIBTable → Except Abort (List fec_bind_t × LIBTable × List Output)
  | [], lt => Except.ok ([], lt, [])
  | uit :: rest, lt =>
    if uit.fecid != oldItem.fecid then
      match adjustUpstream x rt ift myPeers oldItem ER dit rest lt with
      | Except.error e => Except.error e
      | Except.ok (up, lt1, out) => Except.ok (uit :: up, lt1, out)
    else
      let inInterface := findInterfaceFromPeerAddr x rt ift uit.peer
      let outInterface := findInterfaceFromPeerAddr x rt ift oldItem.nextHop
      if ER then
        let r := installLibEntry lt uit.label inInterface popLabel outInterface x.LDP_USER_TRAFFIC
        match adjustUpstream x rt ift myPeers oldItem ER dit rest r.1 with
        | Except.error e => Except.error e
        | Except.ok (up, lt1, out) => Except.ok ({ uit with label := r.2 } :: up, lt1, out)
      else
        match dit with
        | some d =>
          let r := installLibEntry lt uit.label inInterface (swapLabel d.label) outInterface
                     x.LDP_USER_TRAFFIC
          match adjustUpstream x rt ift myPeers oldItem ER dit rest r.1 with
          | Except.error e => Except.error e
          | Except.ok (up, lt1, out) => Except.ok ({ uit with label := r.2 } :: up, lt1, out)
        | none =>
          match sendMapping rt myPeers LDPType.LABEL_WITHDRAW uit.peer uit.label
                  oldItem.addr oldItem.length with
          | Except.error e => Except.error e
          | Except.ok m =>
            match adjustUpstream x rt ift myPeers oldItem ER dit rest lt with
            | Except.error e => Except.error e
            | Except.ok (up, lt1, out) => Except.ok (up, lt1, m :: out)

/-- Embeds `LDP::updateFecListEntry` (the routine the specification calls reconcile). -/
def updateFecListEntry (x : Ext) (rt : RoutingTable) (ift : InterfaceTable)
    (oldItem : fec_t) (s : State) : Except Abort State :=
  let dit := findFecBind s.fecDown oldItem.fecid oldItem.nextHop
  let ER := (peerSocketSoft s.myPeers oldItem.nextHop).isNone
  if ER && dit.isSome then Except.error Abort.assertEgress
  else
    match adjustUpstream x rt ift s.myPeers oldItem ER dit s.fecUp s.lt with
    | Except.error e => Except.error e
    | Except.ok (up, lt1, out) =>
      if !ER && dit.isNone then
        match sendMappingRequest rt s.myPeers oldItem.nextHop oldItem.addr oldItem.length with
        | Except.error e => Except.error e
        | Except.ok m =>
          Except.ok { s with fecUp := up, lt := lt1, sent := s.sent ++ out ++ [m] }
      else
        Except.ok { s with fecUp := up, lt := lt1, sent := s.sent ++ out }

/-- Embeds `LDP::updateFecList`, on the part of `fecList` not yet visited. The vector
`fecList` itself is not changed by the loop body. -/
def updateFecListLoop (x : Ext) (rt : RoutingTable) (ift : InterfaceTable)
    (nextHop : IPAddress) : List fec_t → State → Except Abort State
  | [], s => Except.ok s
  | it :: rest, s =>
    if it.nextHop != nextHop then updateFecListLoop x rt ift nextHop rest s
    else
      match updateFecListEntry x rt ift it s with
      | Except.error e => Except.error e
      | Except.ok s1 => updateFecListLoop x rt ift nextHop rest s1

/-- Embeds `LDP::updateFecList`. -/
def updateFecList (x : Ext) (rt : RoutingTable) (ift : InterfaceTable)
    (nextHop : IPAddress) (s : State) : Except Abort State :=
  updateFecListLoop x rt ift nextHop s.fecList s

/-! ## Rebuilding the FEC list -/

/-- Insertion of one entry into a range ordered by `fecPrefixCompare`: behind
every entry that the comparator puts before it. -/
def insertSorted (a : fec_t) : List fec_t → List fec_t
  | [] => [a]
  | b :: rest => if fecPrefixCompare b a then b :: insertSorted a rest else a :: b :: rest

/-- The insertion sort that libstdc++ runs as `std::sort` on ranges of at most
16 elements; it keeps entries of equal length in their order. It is the
`stdSort` of the concrete collaborators `ipv4Ext`. -/
def insertionSort : List fec_t → List fec_t
  | [] => []
  | a :: rest => insertSorted a (insertionSort rest)

/-- Embeds `++maxFecid` on the C++ `int maxFecid`: the successor in 32 bit two's
complement, which is -2147483648 after 2147483647. -/
def nextFecid (m : Int) : Int := (m + 1 + 2147483648) % 4294967296 - 2147483648

/-- The next hop that `rebuildFecList` derives from a routing entry. -/
def routeNextHop (re : RoutingEntry) : IPAddress :=
  if re.type = RouteType.DIRECT then re.host else re.gateway

/-- The first loop of `LDP::rebuildFecList`, over the routing entries not yet
visited. `oldList` is the local copy of the previous list, `s.fecList` the
list being built. -/
def rebuildRoutes (x : Ext) (rt : RoutingTable) (ift : InterfaceTable) :
    List RoutingEntry → List fec_t → State → Except Abort (List fec_t × State)
  | [], oldList, s => Except.ok (oldList, s)
  | re :: rest, oldList, s =>
    if x.isMulticast re.host then rebuildRoutes x rt ift rest oldList s
    else
      let nextHop := routeNextHop re
      if isUnspecified nextHop then Except.error Abort.assertNextHop
      else
        match findFecEntry oldList re.host re.netmaskLength with
        | none =>
          let newItem : fec_t :=
            { fecid := nextFecid s.maxFecid, addr := re.host, length := re.netmaskLength,
              nextHop := nextHop }
          match updateFecListEntry x rt ift newItem
                  { s with maxFecid := nextFecid s.maxFecid } with
          | Except.error e => Except.error e
          | Except.ok s1 =>
            rebuildRoutes x rt ift rest oldList { s1 with fecList := s1.fecList ++ [newItem] }
        | some it =>
          if it.nextHop != nextHop then
            let it1 : fec_t := { it with nextHop := nextHop }
            match updateFecListEntry x rt ift it1 s with
            | Except.error e => Except.error e
            | Except.ok s1 =>
              rebuildRoutes x rt ift rest (eraseFecEntry oldList re.host re.netmaskLength)
                { s1 with fecList := s1.fecList ++ [it1] }
          else
            rebuildRoutes x rt ift rest (eraseFecEntry oldList re.host re.netmaskLength)
              { s with fecList := s.fecList ++ [it] }

/-- The second loop of `LDP::rebuildFecList`, over the interfaces not yet
visited. -/
def rebuildInterfaces : List InterfaceEntry → List fec_t → State → List fec_t × State
  | [], oldList, s => (oldList, s)
  | ie :: rest, oldList, s =>
    if ie.outputPort < 0 then rebuildInterfaces rest oldList s
    else
      match findFecEntry oldList ie.inetAddress 32 with
      | none =>
        let newItem : fec_t :=
          { fecid := nextFecid s.maxFecid, addr := ie.inetAddress, length := 32,
            nextHop := ie.inetAddress }
        rebuildInterfaces rest oldList
          { s with maxFecid := nextFecid s.maxFecid, fecList := s.fecList ++ [newItem] }
      | some it =>
        rebuildInterfaces rest (eraseFecEntry oldList ie.inetAddress 32)
          { s with fecList := s.fecList ++ [it] }

/-- The loop over `fecDown` for one deprecated FEC: a LABEL_RELEASE for every
downstream binding of the FEC. -/
def releaseDownstream (rt : RoutingTable) (myPeers : List peer_info) (it : fec_t) :
    List fec_bind_t → Except Abort (List Output)
  | [] => Except.ok []
  | dit :: rest =>
    if dit.fecid != it.fecid then releaseDownstream rt myPeers it rest
    else
      match sendMapping rt myPeers LDPType.LABEL_RELEASE dit.peer dit.label it.addr it.length with
      | Except.error e => Except.error e
      | Except.ok m =>
        match releaseDownstream rt myPeers it rest with
        | Except.error e => Except.error e
        | Except.ok out => Except.ok (m :: out)

/-- The loop over `fecUp` for one deprecated FEC: a LABEL_WITHDRAW for every
upstream binding of the FEC, and its LIB entry removed. -/
def withdrawUpstream (rt : RoutingTable) (myPeers : List peer_info) (it : fec_t) :
    List fec_bind_t → LIBTable → Except Abort (LIBTable × List Output)
  | [], lt => Except.ok (lt, [])
  | uit :: rest, lt =>
    if uit.fecid != it.fecid then withdrawUpstream rt myPeers it rest lt
    else
      match sendMapping rt myPeers LDPType.LABEL_WITHDRAW uit.peer uit.label it.addr it.length with
      | Except.error e => Except.error e
      | Except.ok m =>
        match withdrawUpstream rt myPeers it rest (removeLibEntry lt uit.label) with
        | Except.error e => Except.error e
        | Except.ok (lt1, out) => Except.ok (lt1, m :: out)

/-- The loop of `LDP::rebuildFecList` over the deprecated FECs (what is left of
`oldList`). -/
def removeDeprecated (rt : RoutingTable) : List fec_t → State → Except Abort State
  | [], s => Except.ok s
  | it :: rest, s =>
    match releaseDownstream rt s.myPeers it s.fecDown with
    | Except.error e => Except.error e
    | Except.ok out1 =>
      match withdrawUpstream rt s.myPeers it s.fecUp s.lt with
      | Except.error e => Except.error e
      | Except.ok (lt1, out2) =>
        removeDeprecated rt rest { s with lt := lt1, sent := s.sent ++ out1 ++ out2 }

/-- Embeds `LDP::rebuildFecList`. -/
def rebuildFecList (x : Ext) (rt : RoutingTable) (ift : InterfaceTable) (s : State) :
    Except Abort State :=
  match rebuildRoutes x rt ift rt.entries s.fecList { s with fecList := [] } with
  | Except.error e => Except.error e
  | Except.ok (oldList1, s1) =>
    let r := rebuildInterfaces ift oldList1 s1
    match removeDeprecated rt r.1 r.2 with
    | Except.error e => Except.error e
    | Except.ok s3 => Except.ok { s3 with fecList := x.stdSort s3.fecList }

/-- Embeds `LDP::receiveChangeNotification` for NF_IPv4_ROUTINGTABLE_CHANGED. -/
def receiveChangeNotification (x : Ext) (rt : RoutingTable) (ift : InterfaceTable)
    (s : State) : Except Abort State :=
  rebuildFecList x rt ift s

/-- Embeds `LDP::initialize(3)`, on the tables: `maxFecid = 0`, the first hello is
scheduled, and the list of FECs is built. -/
def initializeStage3 (x : Ext) (rt : RoutingTable) (ift : InterfaceTable) : Except Abort State :=
  rebuildFecList x rt ift { State.empty with sent := [Output.nextHello] }

/-! ## Discovery -/

/-- The loop at the head of `LDP::processHelloTimeout`: index of the first
peer whose timeout message is `msg`. -/
def findTimeoutOwner : List peer_info → Nat → Option Nat
  | [], _ => none
  | p :: ps, msg => if p.timeout == msg then some 0 else (findTimeoutOwner ps msg).map (· + 1)

/-- Embeds `LDP::processHelloTimeout`. -/
def processHelloTimeout (x : Ext) (rt : RoutingTable) (ift : InterfaceTable) (msg : Nat)
    (s : State) : Except Abort State :=
  match findTimeoutOwner s.myPeers msg with
  | none => Except.error Abort.assertTimeoutOwner
  | some i =>
    match s.myPeers[i]? with
    | none => Except.error Abort.assertTimeoutOwner
    | some p =>
      let peerIP := p.peerIP
      match p.socket with
      | none => Except.error Abort.assertSocket
      | some _ =>
        let s1 : State :=
          { s with myPeers := s.myPeers.eraseIdx i,
                   fecDown := s.fecDown.filter (fun dit => dit.peer != peerIP),
                   fecUp := s.fecUp.filter (fun uit => uit.peer != peerIP) }
        match updateFecList x rt ift peerIP s1 with
        | Except.error e => Except.error e
        | Except.ok s2 =>
          Except.ok { s2 with sent := s2.sent ++
            [Output.tedLinkState rt.routerId peerIP false,
             Output.announceLinkChange rt.routerId peerIP,
             Output.rebuildRoutingTable] }

/-- An LDP Hello as `processLDPHello` reads it: the sender address, the input
port of the control info, and the state of the TED link to the sender. -/
structure LDPHello where
  senderAddress : IPAddress
  inputPort : Int
  linkState : Bool
deriving DecidableEq, Repr

/-- Embeds `LDP::processLDPHello`, with `openTCPConnectionToPeer` for the active role. -/
def processLDPHello (x : Ext) (rt : RoutingTable) (ift : InterfaceTable) (msg : LDPHello)
    (s : State) : State :=
  let peerAddr := msg.senderAddress
  if isUnspecified peerAddr || peerAddr == rt.routerId then s
  else
    let ted : List Output :=
      if !msg.linkState then
        [Output.tedLinkState rt.routerId peerAddr true, Output.rebuildRoutingTable,
         Output.announceLinkChange rt.routerId peerAddr]
      else []
    match findPeer s.myPeers peerAddr with
    | some i =>
      match s.myPeers[i]? with
      | some p => { s with sent := s.sent ++ ted ++ [Output.helloTimeoutAt p.timeout] }
      | none => { s with sent := s.sent ++ ted }
    | none =>
      let activeRole := decide (peerAddr > rt.routerId)
      let peerIndex := s.myPeers.length
      let info : peer_info :=
        { peerIP := peerAddr,
          linkInterface := x.interfaceNameByPortNo ift msg.inputPort,
          activeRole := activeRole,
          socket := if activeRole then some { state := SockState.CONNECTING, yourPtr := peerIndex }
                    else none,
          timeout := s.timers }
      { s with myPeers := s.myPeers ++ [info], timers := s.timers + 1,
               sent := s.sent ++ ted ++
                 [Output.helloTimeoutAt s.timers, Output.udpHello rt.routerId peerAddr] ++
                 (if activeRole then [Output.connect peerAddr] else []) }

/-- Embeds `LDP::handleMessage` for `sendHelloMsg`. -/
def sendHello (rt : RoutingTable) (allRouters : IPAddress) (s : State) : State :=
  { s with sent := s.sent ++ [Output.udpHello rt.routerId allRouters, Output.nextHello] }

/-! ## The message engine -/

/-- Embeds `LDP::processNOTIFICATION`; `isSelfMessage` tells the retry timer from a
packet received from the network. -/
def processNOTIFICATION (x : Ext) (rt : RoutingTable) (packet : LDPPacket)
    (isSelfMessage : Bool) (s : State) : Except Abort State :=
  let fec := packet.fec
  let srcAddr := packet.senderAddress
  if packet.status = x.NO_ROUTE then
    match findFecEntry s.fecList fec.addr fec.length with
    | some it =>
      if it.nextHop == srcAddr then
        if !isSelfMessage then
          Except.ok { s with sent := s.sent ++ [Output.retryLater packet] }
        else
          match sendMappingRequest rt s.myPeers srcAddr fec.addr fec.length with
          | Except.error e => Except.error e
          | Except.ok m => Except.ok { s with sent := s.sent ++ [m] }
      else Except.ok s
    | none => Except.ok s
  else Except.error Abort.assertFalse

/-- Embeds `LDP::processLABEL_REQUEST`. -/
def processLABEL_REQUEST (x : Ext) (rt : RoutingTable) (ift : InterfaceTable)
    (packet : LDPPacket) (s : State) : Except Abort State :=
  let fec := packet.fec
  let srcAddr := packet.senderAddress
  match findFecEntry s.fecList fec.addr fec.length with
  | none =>
    match sendNotify x rt s.myPeers x.NO_ROUTE srcAddr fec.addr fec.length with
    | Except.error e => Except.error e
    | Except.ok m => Except.ok { s with sent := s.sent ++ [m] }
  | some it =>
    match findFecBind s.fecUp it.fecid srcAddr with
    | some _ => Except.error Abort.assertNotMapped
    | none =>
      let dit := findFecBind s.fecDown it.fecid it.nextHop
      let ER := (peerSocketSoft s.myPeers it.nextHop).isNone
      if ER && dit.isSome then Except.error Abort.assertEgress
      else
        let inInterface := findInterfaceFromPeerAddr x rt ift srcAddr
        let outInterface := findInterfaceFromPeerAddr x rt ift it.nextHop
        if ER then
          let r := installLibEntry s.lt (-1) inInterface popLabel outInterface 0
          match sendMapping rt s.myPeers LDPType.LABEL_MAPPING srcAddr r.2 fec.addr fec.length with
          | Except.error e => Except.error e
          | Except.ok m =>
            Except.ok { s with fecUp := s.fecUp ++ [⟨it.fecid, srcAddr, r.2⟩], lt := r.1,
                               sent := s.sent ++ [m] }
        else
          match dit with
          | some d =>
            let r := installLibEntry s.lt (-1) inInterface (swapLabel d.label) outInterface
                       x.LDP_USER_TRAFFIC
            match sendMapping rt s.myPeers LDPType.LABEL_MAPPING srcAddr r.2
                    fec.addr fec.length with
            | Except.error e => Except.error e
            | Except.ok m =>
              Except.ok { s with fecUp := s.fecUp ++ [⟨it.fecid, srcAddr, r.2⟩], lt := r.1,
                                 sent := s.sent ++ [m] }
          | none => Except.ok { s with pending := s.pending ++ [⟨it.fecid, srcAddr⟩] }

/-- Embeds `LDP::processLABEL_RELEASE`. -/
def processLABEL_RELEASE (packet : LDPPacket) (s : State) : Except Abort State :=
  let fec := packet.fec
  let label := packet.label
  let fromIP := packet.senderAddress
  if ¬ label > 0 then Except.error Abort.assertLabel
  else
    match findFecEntry s.fecList fec.addr fec.length with
    | none => Except.ok s
    | some it =>
      match findFecBind s.fecUp it.fecid fromIP with
      | none => Except.ok s
      | some uit =>
        if label != uit.label then Except.ok s
        else
          Except.ok { s with lt := removeLibEntry s.lt uit.label,
                             fecUp := eraseFecBind s.fecUp it.fecid fromIP }

/-- Embeds `LDP::processLABEL_WITHDRAW`. -/
def processLABEL_WITHDRAW (x : Ext) (rt : RoutingTable) (ift : InterfaceTable)
    (packet : LDPPacket) (s : State) : Except Abort State :=
  let fec := packet.fec
  let label := packet.label
  let fromIP := packet.senderAddress
  if ¬ label > 0 then Except.error Abort.assertLabel
  else
    match findFecEntry s.fecList fec.addr fec.length with
    | none => Except.ok s
    | some it =>
      match findFecBind s.fecDown it.fecid fromIP with
      | none => Except.ok s
      | some dit =>
        if label != dit.label then Except.ok s
        else
          match sendToPeer s.myPeers fromIP { packet with type := LDPType.LABEL_RELEASE } with
          | Except.error e => Except.error e
          | Except.ok m =>
            updateFecListEntry x rt ift it
              { s with fecDown := eraseFecBind s.fecDown it.fecid fromIP,
                       sent := s.sent ++ [m] }

/-- The loop over `pending` in `LDP::processLABEL_MAPPING`, on the part of the
vector not yet visited: what is left of that part, the upstream bindings
pushed, the LIB, and the messages sent. -/
def answerPending (x : Ext) (rt : RoutingTable) (ift : InterfaceTable)
    (myPeers : List peer_info) (it : fec_t) (fromIP : IPAddress) (label : Int) :
    List pending_req_t → LIBTable →
      Except Abort (List pending_req_t × List fec_bind_t × LIBTable × List Output)
  | [], lt => Except.ok ([], [], lt, [])
  | pit :: rest, lt =>
    if pit.fecid != it.fecid then
      match answerPending x rt ift myPeers it fromIP label rest lt with
      | Except.error e => Except.error e
      | Except.ok (pend, up, lt1, out) => Except.ok (pit :: pend, up, lt1, out)
    else
      let inInterface := findInterfaceFromPeerAddr x rt ift pit.peer
      let outInterface := findInterfaceFromPeerAddr x rt ift fromIP
      let r := installLibEntry lt (-1) inInterface (swapLabel label) outInterface
                 x.LDP_USER_TRAFFIC
      match sendMapping rt myPeers LDPType.LABEL_MAPPING pit.peer r.2 it.addr it.length with
      | Except.error e => Except.error e
      | Except.ok m =>
        match answerPending x rt ift myPeers it fromIP label rest r.1 with
        | Except.error e => Except.error e
        | Except.ok (pend, up, lt1, out) =>
          Except.ok (pend, ⟨it.fecid, pit.peer, r.2⟩ :: up, lt1, m :: out)

/-- Embeds `LDP::processLABEL_MAPPING`. -/
def processLABEL_MAPPING (x : Ext) (rt : RoutingTable) (ift : InterfaceTable)
    (packet : LDPPacket) (s : State) : Except Abort State :=
  let fec := packet.fec
  let label := packet.label
  let fromIP := packet.senderAddress
  if ¬ label > 0 then Except.error Abort.assertLabel
  else
    match findFecEntry s.fecList fec.addr fec.length with
    | none => Except.error Abort.assertFecKnown
    | some it =>
      match findFecBind s.fecDown it.fecid fromIP with
      | some _ => Except.error Abort.assertNoDownstream
      | none =>
        match answerPending x rt ift s.myPeers it fromIP label s.pending s.lt with
        | Except.error e => Except.error e
        | Except.ok (pend, up, lt1, out) =>
          Except.ok { s with fecDown := s.fecDown ++ [⟨it.fecid, fromIP, label⟩],
                             fecUp := s.fecUp ++ up, pending := pend, lt := lt1,
                             sent := s.sent ++ out }

/-- Embeds `LDP::processLDPPacketFromTCP`. -/
def processLDPPacketFromTCP (x : Ext) (rt : RoutingTable) (ift : InterfaceTable)
    (ldpPacket : LDPPacket) (s : State) : Except Abort State :=
  match ldpPacket.type with
  | LDPType.HELLO => Except.error Abort.protocolError
  | LDPType.ADDRESS => Except.error Abort.protocolError
  | LDPType.ADDRESS_WITHDRAW => Except.error Abort.protocolError
  | LDPType.LABEL_MAPPING => processLABEL_MAPPING x rt ift ldpPacket s
  | LDPType.LABEL_REQUEST => processLABEL_REQUEST x rt ift ldpPacket s
  | LDPType.LABEL_WITHDRAW => processLABEL_WITHDRAW x rt ift ldpPacket s
  | LDPType.LABEL_RELEASE => processLABEL_RELEASE ldpPacket s
  | LDPType.NOTIFICATION => processNOTIFICATION x rt ldpPacket false s
  | LDPType.UNKNOWN => Except.error Abort.protocolError

/-! ## Session transport -/

/-- The indications of the TCP layer that `TCPSocket::processMessage` turns
into callbacks. -/
inductive TcpIndication where
  | ESTABLISHED
  | DATA (pkt : LDPPacket)
  | PEER_CLOSED
  | CLOSED
  | FAILURE
deriving DecidableEq, Repr

/-- A message arriving on the gate `from_tcp_interface`: `conn` is the index of
the peer whose socket `socketMap.findSocketFor(msg)` returns (`none` when no
socket is found), `remoteAddress` the remote address of the connection. The
socket of an erased peer is taken to be gone from the map. -/
structure TcpMsg where
  conn : Option Nat
  remoteAddress : IPAddress
  kind : TcpIndication
deriving DecidableEq, Repr

/-- Embeds `LDP::socketEstablished`. -/
def socketEstablished (x : Ext) (rt : RoutingTable) (ift : InterfaceTable) (yourPtr : Nat)
    (s : State) : Except Abort State :=
  match s.myPeers[yourPtr]? with
  | none => Except.error Abort.peerIndex
  | some peer => updateFecList x rt ift peer.peerIP s

/-- Embeds `socket->processMessage(msg)` for the socket held by the peer at index `i`:
the state change of `TCPSocket` and the callback of `LDP` it invokes. -/
def socketProcessMessage (x : Ext) (rt : RoutingTable) (ift : InterfaceTable) (i : Nat)
    (sock : TCPSocket) (kind : TcpIndication) (s : State) : Except Abort State :=
  match kind with
  | TcpIndication.ESTABLISHED =>
    socketEstablished x rt ift sock.yourPtr
      { s with myPeers := s.myPeers.modify
                 (fun p => { p with socket := some { sock with state := SockState.CONNECTED } }) i }
  | TcpIndication.DATA pkt => processLDPPacketFromTCP x rt ift pkt s
  | TcpIndication.PEER_CLOSED => Except.error Abort.assertFalse
  | TcpIndication.CLOSED => Except.error Abort.assertFalse
  | TcpIndication.FAILURE => Except.error Abort.assertFalse

/-- Embeds `socketMap.findSocketFor(msg)`. -/
def findSocketFor (myPeers : List peer_info) (conn : Option Nat) : Option (Nat × TCPSocket) :=
  match conn with
  | none => none
  | some i =>
    match myPeers[i]? with
    | none => none
    | some p =>
      match p.socket with
      | none => none
      | some sock => some (i, sock)

/-- Embeds `LDP::processMessageFromTCP`. -/
def processMessageFromTCP (x : Ext) (rt : RoutingTable) (ift : InterfaceTable) (msg : TcpMsg)
    (s : State) : Except Abort State :=
  match findSocketFor s.myPeers msg.conn with
  | some (i, sock) => socketProcessMessage x rt ift i sock msg.kind s
  | none =>
    let peerAddr := msg.remoteAddress
    match findPeer s.myPeers peerAddr with
    | none => Except.ok { s with sent := s.sent ++ [Output.refuse peerAddr] }
    | some i =>
      match s.myPeers[i]? with
      | none => Except.ok { s with sent := s.sent ++ [Output.refuse peerAddr] }
      | some p =>
        match p.socket with
        | some _ => Except.ok { s with sent := s.sent ++ [Output.refuse peerAddr] }
        | none =>
          let sock : TCPSocket := { state := SockState.CONNECTED, yourPtr := i }
          socketProcessMessage x rt ift i sock msg.kind
            { s with myPeers := s.myPeers.modify (fun p => { p with socket := some sock }) i }

/-! ## Classification -/

/-- What `lookupLabel` reads of an `IPDatagram` and the transport packet in it. -/
structure IPDatagram where
  destAddress : IPAddress
  transportProtocol : Int
  srcPort : Int
  destPort : Int
deriving DecidableEq, Repr

/-- The tests at the head of `LDP::lookupLabel`: OSPF, LDP discovery and LDP
session traffic is never matched. -/
def isSignaling (x : Ext) (ipdatagram : IPDatagram) : Bool :=
  ipdatagram.transportProtocol == x.IP_PROT_OSPF
  || (ipdatagram.transportProtocol == x.IP_PROT_UDP && ipdatagram.destPort == x.LDP_PORT)
  || (ipdatagram.transportProtocol == x.IP_PROT_TCP && ipdatagram.destPort == x.LDP_PORT)
  || (ipdatagram.transportProtocol == x.IP_PROT_TCP && ipdatagram.srcPort == x.LDP_PORT)

/-- The entry at which the loop of `LDP::lookupLabel` stops: the first entry of
the list whose prefix matches the destination. -/
def matchedFec (x : Ext) (destAddr : IPAddress) : List fec_t → Option fec_t
  | [] => none
  | it :: rest =>
    if !x.prefixMatches destAddr it.addr it.length then matchedFec x destAddr rest
    else some it

/-- Embeds `LDP::lookupLabel`: `none` is the return value `false`, `some` carries the
output parameters `outLabel`, `outInterface` and `color`. -/
def lookupLabel (x : Ext) (rt : RoutingTable) (ift : InterfaceTable) (s : State)
    (ipdatagram : IPDatagram) : Option (LabelOpVector × String × Int) :=
  if isSignaling x ipdatagram then none
  else
    match matchedFec x ipdatagram.destAddress s.fecList with
    | none => none
    | some it =>
      match findFecBind s.fecDown it.fecid it.nextHop with
      | some dit =>
        some (pushLabel dit.label, findInterfaceFromPeerAddr x rt ift it.nextHop,
              x.LDP_USER_TRAFFIC)
      | none => none

/-! ## Entry points and reachable states -/

/-- The events the module reacts to. -/
inductive Event where
  /-- NF_IPv4_ROUTINGTABLE_CHANGED. -/
  | routingTableChanged
  /-- The self message `sendHelloMsg`. -/
  | sendHello (allRouters : IPAddress)
  /-- A self message named HelloTimeout. -/
  | helloTimeout (msg : Nat)
  /-- Any other self message: a NO_ROUTE notification scheduled for retry. -/
  | notifyRetry (pkt : LDPPacket)
  /-- A message on the gate `from_udp_interface`. -/
  | hello (msg : LDPHello)
  /-- A message on the gate `from_tcp_interface`. -/
  | tcp (msg : TcpMsg)
deriving DecidableEq, Repr

/-- Embeds `LDP::handleMessage` and `LDP::receiveChangeNotification`, with the routing
table and the interface table as they are when the event is handled. -/
def handle (x : Ext) (rt : RoutingTable) (ift : InterfaceTable) (ev : Event) (s : State) :
    Except Abort State :=
  match ev with
  | Event.routingTableChanged => receiveChangeNotification x rt ift s
  | Event.sendHello allRouters => Except.ok (sendHello rt allRouters s)
  | Event.helloTimeout msg => processHelloTimeout x rt ift msg s
  | Event.notifyRetry pkt => processNOTIFICATION x rt pkt true s
  | Event.hello msg => Except.ok (processLDPHello x rt ift msg s)
  | Event.tcp msg => processMessageFromTCP x rt ift msg s

/-- States the module can be in: the empty module, the module after
`initialize`, and what any event that does not abort makes of such a state,
whatever the routing table and interface table are at that moment. -/
inductive Reachable (x : Ext) : State → Prop where
  | empty : Reachable x State.empty
  | init (rt : RoutingTable) (ift : InterfaceTable) (s : State) :
      initializeStage3 x rt ift = Except.ok s → Reachable x s
  | step (rt : RoutingTable) (ift : InterfaceTable) (ev : Event) (s s1 : State) :
      Reachable x s → handle x rt ift ev s = Except.ok s1 → Reachable x s1

/-- The packet delivered by the event, if any, was sent by an address to which
there is an established session. -/
def fromSession (s : State) (ev : Event) : Prop :=
  ∀ msg pkt, ev = Event.tcp msg → msg.kind = TcpIndication.DATA pkt →
    (peerSocketSoft s.myPeers pkt.senderAddress).isSome = true

/-- The states of `Reachable` in which every packet processed so far came from
a peer with an established session. -/
inductive ReachableFromSessions (x : Ext) : State → Prop where
  | empty : ReachableFromSessions x State.empty
  | init (rt : RoutingTable) (ift : InterfaceTable) (s : State) :
      initializeStage3 x rt ift = Except.ok s → ReachableFromSessions x s
  | step (rt : RoutingTable) (ift : InterfaceTable) (ev : Event) (s s1 : State) :
      ReachableFromSessions x s → fromSession s ev → handle x rt ift ev s = Except.ok s1 →
      ReachableFromSessions x s1

/-! ## Vocabulary of the properties -/

/-- The list is sorted by prefix length, longest first: no entry is followed
by a longer one. -/
def lengthDescending (l : List fec_t) : Prop :=
  List.Chain' (fun a b : fec_t => a.length ≥ b.length) l

/-- The pair (address, prefix length) that identifies a FEC. -/
def fecKey (f : fec_t) : IPAddress × Int := (f.addr, f.length)

/-- The pair (FEC id, peer) that identifies a binding. -/
def bindKey (b : fec_bind_t) : Int × IPAddress := (b.fecid, b.peer)

/-- The routing entries that `rebuildFecList` does not skip. -/
def unicastRoutes (x : Ext) (rt : RoutingTable) : List RoutingEntry :=
  rt.entries.filter (fun re => !x.isMulticast re.host)

/-- The interfaces that `rebuildFecList` does not skip. -/
def validInterfaces (ift : InterfaceTable) : List InterfaceEntry :=
  ift.filter (fun ie => !decide (ie.outputPort < 0))

/-- The keys for which `rebuildFecList` pushes an entry, in the order it
pushes them: one per unicast routing entry, then one per valid interface. -/
def snapshotKeys (x : Ext) (rt : RoutingTable) (ift : InterfaceTable) : List (IPAddress × Int) :=
  (unicastRoutes x rt).map (fun re => (re.host, re.netmaskLength))
    ++ (validInterfaces ift).map (fun ie => (ie.inetAddress, 32))

/-- The entry that `rebuildFecList` pushes for a routing entry: same key, and
the next hop derived from the entry, which is not the unspecified address. -/
def routeFec (re : RoutingEntry) (f : fec_t) : Prop :=
  f.addr = re.host ∧ f.length = re.netmaskLength ∧ f.nextHop = routeNextHop re
    ∧ isUnspecified (routeNextHop re) = false

/-- The entry that `rebuildFecList` pushes for an interface: the host key of
its address. -/
def interfaceFec (ie : InterfaceEntry) (f : fec_t) : Prop :=
  f.addr = ie.inetAddress ∧ f.length = 32

/-- What `rebuildFecList` and `updateFecListEntry` never write: the peer
table, the downstream bindings, the pending requests, the timeout counter. -/
def sameSessionTables (s s1 : State) : Prop :=
  s1.myPeers = s.myPeers ∧ s1.fecDown = s.fecDown ∧ s1.pending = s.pending
    ∧ s1.timers = s.timers

/-- States after `initialize` and any number of further calls of
`rebuildFecList`; the routing table and the interface table are those of the
most recent call. -/
inductive AfterRebuild (x : Ext) : RoutingTable → InterfaceTable → State → Prop where
  | init (rt : RoutingTable) (ift : InterfaceTable) (s : State) :
      initializeStage3 x rt ift = Except.ok s → AfterRebuild x rt ift s
  | again (rt0 : RoutingTable) (ift0 : InterfaceTable) (s : State)
      (rt : RoutingTable) (ift : InterfaceTable) (s1 : State) :
      AfterRebuild x rt0 ift0 s → rebuildFecList x rt ift s = Except.ok s1 →
      AfterRebuild x rt ift s1

/-- The test of `findFecEntry(FecVector&, addr, length)` on one entry. -/
def hasKey (addr : IPAddress) (length : Int) (f : fec_t) : Bool :=
  f.length == length && f.addr == addr

/-- Two lists hold, for every key, the same entries in the same order. -/
def sameByKey (l1 l2 : List fec_t) : Prop :=
  ∀ addr length, l1.filter (hasKey addr length) = l2.filter (hasKey addr length)

/-- The socket of a peer entry if it is CONNECTED. -/
def sessionOf (p : peer_info) : Option TCPSocket :=
  match p.socket with
  | none => none
  | some sock => if sock.state = SockState.CONNECTED then some sock else none

/-- There is an established session to the address: `peerSocketSoft` does not
return NULL. -/
def connected (myPeers : List peer_info) (peerAddr : IPAddress) : Bool :=
  (peerSocketSoft myPeers peerAddr).isSome

/-- Every address with an established session in the first peer table has one
in the second. -/
def sessionsKept (l l1 : List peer_info) : Prop :=
  ∀ a, connected l a = true → connected l1 a = true

/-- Every downstream binding was learned from a peer to which there is an
established session. -/
def downstreamFromSessions (s : State) : Prop :=
  ∀ b ∈ s.fecDown, connected s.myPeers b.peer = true

/-- How the processing of one packet can change `fecDown`: not at all, by
erasing one binding, or by pushing a binding (fecid, sender, label) of the
packet when no binding of that FEC and sender was there. -/
def downstreamChange (s s1 : State) (pkt : LDPPacket) : Prop :=
  s1.fecDown = s.fecDown
  ∨ (∃ fecid peer, s1.fecDown = eraseFecBind s.fecDown fecid peer)
  ∨ (∃ fecid, findFecBind s.fecDown fecid pkt.senderAddress = none
        ∧ s1.fecDown = s.fecDown ++ [⟨fecid, pkt.senderAddress, pkt.label⟩])

/-- What one event can do to the peer table and to `fecDown`. Either no
session is lost, and `fecDown` is unchanged, loses one binding, or gains the
binding (fecid, sender, label) of a packet delivered by the event when no
binding of that FEC and sender was there; or a peer is erased together with
every binding learned from its address. -/
def stepSummary (s s1 : State) (ev : Event) : Prop :=
  (sessionsKept s.myPeers s1.myPeers
    ∧ (s1.fecDown = s.fecDown
        ∨ (∃ fecid peer, s1.fecDown = eraseFecBind s.fecDown fecid peer)
        ∨ (∃ msg pkt fecid, ev = Event.tcp msg ∧ msg.kind = TcpIndication.DATA pkt
              ∧ findFecBind s.fecDown fecid pkt.senderAddress = none
              ∧ s1.fecDown = s.fecDown ++ [⟨fecid, pkt.senderAddress, pkt.label⟩])))
  ∨ (∃ i p, s.myPeers[i]? = some p ∧ s1.myPeers = s.myPeers.eraseIdx i
        ∧ s1.fecDown = s.fecDown.filter (fun dit => dit.peer != p.peerIP))

/-- A sequence of events handled one after the other, each with the routing
table and interface table of its moment; it stops at the first abort. -/
def run (x : Ext) : List (RoutingTable × InterfaceTable × Event) → State → Except Abort State
  | [], s => Except.ok s
  | (rt, ift, ev) :: rest, s =>
    match handle x rt ift ev s with
    | Except.error e => Except.error e
    | Except.ok s1 => run x rest s1

/-- The test `fromSession` as a computation. -/
def fromSessionCheck (s : State) : Event → Bool
  | Event.tcp msg =>
    match msg.kind with
    | TcpIndication.DATA pkt => (peerSocketSoft s.myPeers pkt.senderAddress).isSome
    | _ => true
  | _ => true

/-- Along the run of a sequence of events from `s`, every packet delivered is
from an address with an established session, and no event aborts. -/
def sendersHaveSessions (x : Ext) :
    List (RoutingTable × InterfaceTable × Event) → State → Bool
  | [], _ => true
  | (rt, ift, ev) :: rest, s =>
    fromSessionCheck s ev &&
      match handle x rt ift ev s with
      | Except.error _ => false
      | Except.ok s1 => sendersHaveSessions x rest s1



/-! ## Concrete inputs -/

/-- An instance of the collaborators: IPv4 class D as multicast, comparison of
the leading `length` bits, a router whose traffic all leaves by port 0 on the
interface ppp0, and the usual protocol numbers. -/
def ipv4Ext : Ext :=
  { isMulticast := fun a => a / 2 ^ 28 == 14
    prefixMatches := fun dest addr length =>
      if length < 1 then true
      else if length > 31 then dest == addr
      else dest / 2 ^ (32 - length.toNat) == addr / 2 ^ (32 - length.toNat)
    outputPortNo := fun _ _ => 0
    interfaceNameByPortNo := fun _ _ => "ppp0"
    LDP_PORT := 646
    LDP_USER_TRAFFIC := 1
    IP_PROT_OSPF := 89
    IP_PROT_UDP := 17
    IP_PROT_TCP := 6
    NO_ROUTE := 13
    stdSort := insertionSort
    stdSort_perm := fun l => by
      have hins : ∀ (a : fec_t) (l : List fec_t), (insertSorted a l).Perm (a :: l) := by
        intro a l
        induction l with
        | nil => exact List.Perm.refl _
        | cons b rest ih =>
          unfold insertSorted
          split
          · exact (List.Perm.cons b ih).trans (List.Perm.swap a b rest)
          · exact List.Perm.refl _
      induction l with
      | nil => exact List.Perm.refl _
      | cons a rest ih => exact (hins a _).trans (List.Perm.cons a ih)
    stdSort_sorted := fun l => by
      have hperm : ∀ (a : fec_t) (l : List fec_t), (insertSorted a l).Perm (a :: l) := by
        intro a l
        induction l with
        | nil => exact List.Perm.refl _
        | cons b rest ih =>
          unfold insertSorted
          split
          · exact (List.Perm.cons b ih).trans (List.Perm.swap a b rest)
          · exact List.Perm.refl _
      have hins : ∀ (a : fec_t) (l : List fec_t),
          l.Pairwise (fun a b => fecPrefixCompare b a = false) →
          (insertSorted a l).Pairwise (fun a b => fecPrefixCompare b a = false) := by
        intro a l h
        induction l with
        | nil => simp [insertSorted]
        | cons b rest ih =>
          rw [List.pairwise_cons] at h
          unfold insertSorted
          split
          next hc =>
            rw [List.pairwise_cons]
            refine ⟨?_, ih h.2⟩
            intro y hy
            rcases List.mem_cons.mp ((hperm a rest).mem_iff.mp hy) with rfl | hy
            · simp [fecPrefixCompare] at hc ⊢
              omega
            · exact h.1 y hy
          next hc =>
            rw [List.pairwise_cons]
            refine ⟨?_, List.pairwise_cons.mpr h⟩
            intro y hy
            rcases List.mem_cons.mp hy with rfl | hy
            · simpa using hc
            · have := h.1 y hy
              simp [fecPrefixCompare] at hc this ⊢
              omega
      induction l with
      | nil => exact List.Pairwise.nil
      | cons a rest ih => exact hins a _ ih }

/-- The collaborators `ipv4Ext` with another `std::sort`: within a run of
entries of equal length the order is reversed, which the C++ standard leaves
open (libstdc++ reorders such entries in ranges of more than 16 elements). -/
def tiesReversedExt : Ext :=
  { ipv4Ext with
    stdSort := fun l => insertionSort l.reverse
    stdSort_perm := fun l => (ipv4Ext.stdSort_perm l.reverse).trans (List.reverse_perm l)
    stdSort_sorted := fun l => ipv4Ext.stdSort_sorted l.reverse }

/-- A routing table of router 10.0.0.1: 10.1.0.0/16 directly attached, and
10.0.0.0/8 by way of 10.1.0.2. -/
def rtTwoRoutes : RoutingTable :=
  { routerId := 167772161
    entries := [⟨167837696, 16, 0, RouteType.DIRECT⟩,
                ⟨167772160, 8, 167837698, RouteType.REMOTE⟩] }

/-- The router's interface ppp0 with address 10.1.0.1 on port 0. -/
def iftOne : InterfaceTable := [⟨0, 167837697, "ppp0"⟩]

/-- A routing table that lists the route to 10.1.0.0/16 twice. -/
def rtDuplicate : RoutingTable :=
  { routerId := 167772161
    entries := [⟨167837696, 16, 0, RouteType.DIRECT⟩,
                ⟨167837696, 16, 0, RouteType.DIRECT⟩] }

/-- The module after `rebuildFecList` on the empty module with `rtTwoRoutes`
and `iftOne`. -/
def stateTwoRoutes : State :=
  { State.empty with
    fecList := [⟨3, 167837697, 32, 167837697⟩, ⟨1, 167837696, 16, 167837696⟩,
                ⟨2, 167772160, 8, 167837698⟩]
    maxFecid := 3 }

/-- A TCP segment to 10.1.0.5, port 80. -/
def webPacket : IPDatagram :=
  { destAddress := 167837701, transportProtocol := 6, srcPort := 40000, destPort := 80 }

/-- The routing table of router 10.0.0.1 with 10.2.0.0/16 by way of 10.0.0.3. -/
def rtVia : RoutingTable :=
  { routerId := 167772161, entries := [⟨167903232, 16, 167772163, RouteType.REMOTE⟩] }

/-- The routing table of router 10.0.0.1 with no entry. -/
def rtNone : RoutingTable := { routerId := 167772161, entries := [] }

/-- A LABEL_REQUEST for 10.2.0.0/16 sent by the upstream peer 10.0.0.2. -/
def requestFromUp : LDPPacket :=
  { type := LDPType.LABEL_REQUEST, senderAddress := 167772162, receiverAddress := 167772161,
    fec := ⟨167903232, 16⟩, label := 0, status := 0 }

/-- A LABEL_MAPPING of label 100 for 10.2.0.0/16 sent by the downstream peer
10.0.0.3. -/
def mappingFromDown : LDPPacket :=
  { type := LDPType.LABEL_MAPPING, senderAddress := 167772163, receiverAddress := 167772161,
    fec := ⟨167903232, 16⟩, label := 100, status := 0 }

/-- A LABEL_WITHDRAW of label 100 for 10.2.0.0/16 sent by the downstream peer
10.0.0.3. -/
def withdrawFromDown : LDPPacket :=
  { mappingFromDown with type := LDPType.LABEL_WITHDRAW }

/-- Router 10.0.0.1 hears the hellos of 10.0.0.2 (peer 0) and 10.0.0.3
(peer 1), both sessions come up, and the route to 10.2.0.0/16 by way of
10.0.0.3 appears: FEC 1 is created and requested from 10.0.0.3. -/
def sessionsUp : List (RoutingTable × InterfaceTable × Event) :=
  [(rtNone, [], Event.hello ⟨167772162, 0, true⟩),
   (rtNone, [], Event.hello ⟨167772163, 0, true⟩),
   (rtNone, [], Event.tcp ⟨some 0, 167772162, TcpIndication.ESTABLISHED⟩),
   (rtNone, [], Event.tcp ⟨some 1, 167772163, TcpIndication.ESTABLISHED⟩),
   (rtVia, [], Event.routingTableChanged)]

/-- After `sessionsUp`, the upstream peer requests 10.2.0.0/16 and the
downstream peer maps label 100 to it. -/
def lspUp : List (RoutingTable × InterfaceTable × Event) :=
  sessionsUp ++
  [(rtVia, [], Event.tcp ⟨some 0, 167772162, TcpIndication.DATA requestFromUp⟩),
   (rtVia, [], Event.tcp ⟨some 1, 167772163, TcpIndication.DATA mappingFromDown⟩)]

/-- After `sessionsUp`, the upstream peer requests 10.2.0.0/16 twice while the
request is pending, then the downstream peer maps label 100 to it. -/
def requestedTwice : List (RoutingTable × InterfaceTable × Event) :=
  sessionsUp ++
  [(rtVia, [], Event.tcp ⟨some 0, 167772162, TcpIndication.DATA requestFromUp⟩),
   (rtVia, [], Event.tcp ⟨some 0, 167772162, TcpIndication.DATA requestFromUp⟩),
   (rtVia, [], Event.tcp ⟨some 1, 167772163, TcpIndication.DATA mappingFromDown⟩)]

/-- The state in which a sequence of events leaves the empty module (the empty
module itself if the sequence aborts). -/
def afterRun (x : Ext) (evs : List (RoutingTable × InterfaceTable × Event)) : State :=
  match run x evs State.empty with
  | Except.ok s => s
  | Except.error _ => State.empty

/-- A TCP segment of an LDP session (source port 646) to 10.2.0.5. -/
def ldpSessionPacket : IPDatagram :=
  { destAddress := 167903237, transportProtocol := 6, srcPort := 646, destPort := 40000 }

/-- A TCP segment to 10.2.0.5, port 80. -/
def dataPacket : IPDatagram :=
  { destAddress := 167903237, transportProtocol := 6, srcPort := 40000, destPort := 80 }

/-- A state whose first matching FEC for 10.2.0.5 (FEC 1, 10.2.0.0/16) has no
downstream binding, while a shorter matching FEC (FEC 2, 10.0.0.0/8) has one. -/
def stateShadowed : State :=
  { State.empty with
    fecList := [⟨1, 167903232, 16, 167772163⟩, ⟨2, 167772160, 8, 167772164⟩]
    fecDown := [⟨2, 167772164, 200⟩]
    maxFecid := 2 }

/-- A LABEL_REQUEST for 10.2.0.0/16 sent by the peer 10.0.0.3. -/
def requestFromDown : LDPPacket :=
  { requestFromUp with senderAddress := 167772163 }

/-- A LABEL_REQUEST for 10.9.0.0/16, for which router 10.0.0.1 has no FEC, sent
by the peer 10.0.0.2. -/
def requestUnknown : LDPPacket :=
  { requestFromUp with fec := ⟨168361984, 16⟩ }

/-- After `sessionsUp`, the upstream peer 10.0.0.2 requests 10.2.0.0/16: the
request is pending. -/
def requestedOnce : List (RoutingTable × InterfaceTable × Event) :=
  sessionsUp ++
  [(rtVia, [], Event.tcp ⟨some 0, 167772162, TcpIndication.DATA requestFromUp⟩)]

/-- After `lspUp`, the downstream peer 10.0.0.3 withdraws label 100. -/
def withdrawn : List (RoutingTable × InterfaceTable × Event) :=
  lspUp ++
  [(rtVia, [], Event.tcp ⟨some 1, 167772163, TcpIndication.DATA withdrawFromDown⟩)]

/-- A LABEL_RELEASE of label 1 for 10.2.0.0/16 sent by the upstream peer
10.0.0.2. -/
def releaseFromUp : LDPPacket :=
  { requestFromUp with type := LDPType.LABEL_RELEASE, label := 1 }

/-- A LABEL_RELEASE with label 0 for 10.9.0.0/16, for which router 10.0.0.1 has
no FEC, sent by the peer 10.0.0.2. -/
def releaseLabelZero : LDPPacket :=
  { requestUnknown with type := LDPType.LABEL_RELEASE, label := 0 }

/-- A NOTIFICATION with status NO_ROUTE for 10.2.0.0/16 sent by the peer
10.0.0.3. -/
def notifyFromDown : LDPPacket :=
  { type := LDPType.NOTIFICATION, senderAddress := 167772163, receiverAddress := 167772161,
    fec := ⟨167903232, 16⟩, label := 0, status := 13 }

/-- After `sessionsUp`, the peer 10.0.0.3 answers the request for 10.2.0.0/16
with NO_ROUTE, and its hello timeout (message 1) fires before the retry. -/
def peerLostBeforeRetry : List (RoutingTable × InterfaceTable × Event) :=
  sessionsUp ++
  [(rtVia, [], Event.tcp ⟨some 1, 167772163, TcpIndication.DATA notifyFromDown⟩),
   (rtVia, [], Event.helloTimeout 1)]

/-- A router 10.0.0.9 with no routes: for the peer 10.0.0.2 it has the passive
role. -/
def rtNine : RoutingTable := { routerId := 167772169, entries := [] }

/-- Router 10.0.0.9 hears the hello of 10.0.0.2 and waits for its connection. -/
def passiveHello : List (RoutingTable × InterfaceTable × Event) :=
  [(rtNine, [], Event.hello ⟨167772162, 0, true⟩)]

/-! ## Reconciliation, rebuilding and deprecation in the words of the specification -/

/-- From the words of the specification for reconcile of a FEC that is egress
or has a downstream binding: "for every US binding u on f: program the LIB
to pop (swap u.label → ds.label) the label on ingress interface = peer(u)'s
interface and forward on interface(f.nextHop); remember the allocated ingress
label in u.label". The bindings and the LIB after one install with the label
operation `op` per binding of `f`, in the order of the bindings. -/
def programUpstream (x : Ext) (rt : RoutingTable) (ift : InterfaceTable) (f : fec_t)
    (op : LabelOpVector) : List fec_bind_t → LIBTable → List fec_bind_t × LIBTable
  | [], lt => ([], lt)
  | u :: rest, lt =>
    if u.fecid = f.fecid then
      let r := installLibEntry lt u.label (findInterfaceFromPeerAddr x rt ift u.peer) op
                 (findInterfaceFromPeerAddr x rt ift f.nextHop) x.LDP_USER_TRAFFIC
      let q := programUpstream x rt ift f op rest r.1
      ({ u with label := r.2 } :: q.1, q.2)
    else
      let q := programUpstream x rt ift f op rest lt
      (u :: q.1, q.2)

/-- The state after `lspUp` with the downstream binding of FEC 1 erased, as it is
when `processLABEL_WITHDRAW` calls reconciliation. -/
def stateNoDownstream : State := { afterRun ipv4Ext lspUp with fecDown := [] }

/-- One pass of the body of either loop of `rebuildFecList`, on the local copy
`old` of the previous list, the list being built, and `maxFecid`, while the
counter is below INT_MAX: a FEC whose key `old` does not hold is created with
the next id, and a FEC that `old` holds is moved to the new list, with the
next hop it had or another one. -/
inductive BuildStep : List fec_t × List fec_t × Int → List fec_t × List fec_t × Int → Prop where
  | create (old fl : List fec_t) (m : Int) (addr : IPAddress) (length : Int)
      (nextHop : IPAddress) :
      0 ≤ m → m < 2147483647 → findFecEntry old addr length = none →
      BuildStep (old, fl, m) (old, fl ++ [⟨nextFecid m, addr, length, nextHop⟩], nextFecid m)
  | move (old fl : List fec_t) (m : Int) (it : fec_t) (nextHop : IPAddress) :
      findFecEntry old it.addr it.length = some it →
      BuildStep (old, fl, m)
        (eraseFecEntry old it.addr it.length, fl ++ [{ it with nextHop := nextHop }], m)

/-- The ids of the FECs of both lists are pairwise distinct and lie between 1
and `maxFecid`. -/
def idsInRange (b : List fec_t × List fec_t × Int) : Prop :=
  ((b.1 ++ b.2.1).map (fun f => f.fecid)).Nodup
    ∧ (∀ f ∈ b.1 ++ b.2.1, 1 ≤ f.fecid ∧ f.fecid ≤ b.2.2) ∧ 0 ≤ b.2.2

/-- What a sequence of passes does to the ids: `maxFecid` does not decrease;
what is left of `old` is a sublist of it; the list being built grows at its
end by FECs that carry the id and key of a FEC of `old` or an id above the
previous `maxFecid`; every id between the previous and the new `maxFecid` is
given to a FEC; and a FEC of `old` is still there or its id is in the new
list. -/
def buildSummary (b b1 : List fec_t × List fec_t × Int) : Prop :=
  b.2.2 ≤ b1.2.2
    ∧ b1.1.Sublist b.1
    ∧ (∃ F, b1.2.1 = b.2.1 ++ F
        ∧ ∀ f ∈ F, (∃ g ∈ b.1, g.fecid = f.fecid ∧ fecKey g = fecKey f)
            ∨ (b.2.2 < f.fecid ∧ f.fecid ≤ b1.2.2))
    ∧ (∀ k, b.2.2 < k → k ≤ b1.2.2 → ∃ f ∈ b1.2.1, f.fecid = k)
    ∧ (∀ g ∈ b.1, g ∈ b1.1 ∨ ∃ f ∈ b1.2.1, f.fecid = g.fecid)

/-- What an event other than a change of the routing table does to the FEC
list, `maxFecid` and `pending`: the first two are as before, and a pending
request was pending before or is for the id of a FEC of the FEC list. -/
def pendingStep (s s1 : State) : Prop :=
  s1.fecList = s.fecList ∧ s1.maxFecid = s.maxFecid
    ∧ ∀ q ∈ s1.pending, q ∈ s.pending ∨ ∃ f ∈ s.fecList, f.fecid = q.fecid

/-- The state `s1` is what one event, handled without abort, makes of `s`. -/
def stepsTo (x : Ext) (s s1 : State) : Prop :=
  ∃ rt ift ev, handle x rt ift ev s = Except.ok s1

/-- The pending request was recorded for a FEC of the FEC list: its FEC id is
the id of a FEC in the FEC list of a reachable state `s0` from which the
events handled since have led to `s`. -/
def recordedForFec (x : Ext) (s : State) (q : pending_req_t) : Prop :=
  ∃ s0, Reachable x s0 ∧ Relation.ReflTransGen (stepsTo x) s0 s
    ∧ ∃ f ∈ s0.fecList, f.fecid = q.fecid

/-- After `requestedOnce`, the route to 10.2.0.0/16 disappears. -/
def requestedThenLost : List (RoutingTable × InterfaceTable × Event) :=
  requestedOnce ++ [(rtNone, [], Event.routingTableChanged)]

/-- After `lspUp`, the route to 10.2.0.0/16 disappears. -/
def routeLost : List (RoutingTable × InterfaceTable × Event) :=
  lspUp ++ [(rtNone, [], Event.routingTableChanged)]

/-- A routing table of router 10.0.0.1 with the host route 10.1.0.1/32 by way
of the gateway 10.0.0.3. -/
def rtHost : RoutingTable :=
  { routerId := 167772161, entries := [⟨167837697, 32, 167772163, RouteType.REMOTE⟩] }

/-- The module after `initialize` with `rtHost` and no interface: FEC 1 is
10.1.0.1/32 with next hop 10.0.0.3. -/
def stateHostRoute : State :=
  { State.empty with
    fecList := [⟨1, 167837697, 32, 167772163⟩]
    maxFecid := 1
    sent := [Output.nextHello] }

/-- From the words of the specification of `rebuildFecList`: "for every
non-multicast routing entry R: if R is a DIRECT route, next-hop =
R.destination; else next-hop = R.gateway. Locate an existing entry by
(address, prefix-length): not found → insert new FEC with a fresh identifier;
found with a different next-hop → update next-hop; found with same next-hop →
carry over unchanged". The FECs of the routing entries, in their order, each
looked up in the previous list `old`; the new ones get the ids following `m`. -/
def routeFecs (x : Ext) (old : List fec_t) : Int → List RoutingEntry → List fec_t
  | _, [] => []
  | m, re :: rest =>
    if x.isMulticast re.host then routeFecs x old m rest
    else
      match findFecEntry old re.host re.netmaskLength with
      | none =>
        ⟨nextFecid m, re.host, re.netmaskLength, routeNextHop re⟩
          :: routeFecs x old (nextFecid m) rest
      | some it => { it with nextHop := routeNextHop re } :: routeFecs x old m rest

/-- From the same words: reconcile is run for a FEC that was not found in the
previous list, or was found with a different next hop. -/
def needsReconcile (old : List fec_t) (f : fec_t) : Bool :=
  match findFecEntry old f.addr f.length with
  | none => true
  | some it => it.nextHop != f.nextHop

/-- Reconciliation (`updateFecListEntry`) run for each FEC of a list in turn. -/
def reconcileAll (x : Ext) (rt : RoutingTable) (ift : InterfaceTable) :
    List fec_t → State → Except Abort State
  | [], s => Except.ok s
  | f :: rest, s =>
    match updateFecListEntry x rt ift f s with
    | Except.error e => Except.error e
    | Except.ok s1 => reconcileAll x rt ift rest s1

/-- What is left of the previous list after the loop over the routing entries:
the entry found for each non-multicast routing entry is erased. -/
def oldAfterRoutes (x : Ext) : List fec_t → List RoutingEntry → List fec_t
  | old, [] => old
  | old, re :: rest =>
    if x.isMulticast re.host then oldAfterRoutes x old rest
    else oldAfterRoutes x (eraseFecEntry old re.host re.netmaskLength) rest

/-- The value of `maxFecid` after the loop over the routing entries: one
`++maxFecid` for each non-multicast routing entry not found in the previous
list. -/
def maxFecidAfterRoutes (x : Ext) (old : List fec_t) : Int → List RoutingEntry → Int
  | m, [] => m
  | m, re :: rest =>
    if x.isMulticast re.host then maxFecidAfterRoutes x old m rest
    else
      match findFecEntry old re.host re.netmaskLength with
      | none => maxFecidAfterRoutes x old (nextFecid m) rest
      | some _ => maxFecidAfterRoutes x old m rest

/-- What is left of the previous list after the loop over the interfaces: the
entry found for each valid interface is erased. -/
def oldAfterInterfaces : List fec_t → List InterfaceEntry → List fec_t
  | old, [] => old
  | old, ie :: rest =>
    if ie.outputPort < 0 then oldAfterInterfaces old rest
    else oldAfterInterfaces (eraseFecEntry old ie.inetAddress 32) rest

/-- From the words of the specification of `rebuildFecList`: "anything left in
the old list is deprecated". The FECs of the previous list that are not
carried over: the previous list without, for each non-multicast routing entry
and then each valid interface in turn, the first FEC with its key. -/
def deprecatedFecs (x : Ext) (rt : RoutingTable) (ift : InterfaceTable)
    (fecList : List fec_t) : List fec_t :=
  oldAfterInterfaces (oldAfterRoutes x fecList rt.entries) ift

/-- The number of times the loop of `rebuildFecList` over the routing entries
runs `++maxFecid`: once for every non-multicast routing entry whose key is not
found in what is left of `oldList`. -/
def createdByRoutes (x : Ext) : List RoutingEntry → List fec_t → Nat
  | [], _ => 0
  | re :: rest, oldList =>
    if x.isMulticast re.host then createdByRoutes x rest oldList
    else
      match findFecEntry oldList re.host re.netmaskLength with
      | none => createdByRoutes x rest oldList + 1
      | some _ => createdByRoutes x rest (eraseFecEntry oldList re.host re.netmaskLength)

/-- The number of times the loop of `rebuildFecList` over the interfaces runs
`++maxFecid`: once for every valid interface whose host key is not found in
what is left of `oldList`. -/
def createdByInterfaces : List InterfaceEntry → List fec_t → Nat
  | [], _ => 0
  | ie :: rest, oldList =>
    if ie.outputPort < 0 then createdByInterfaces rest oldList
    else
      match findFecEntry oldList ie.inetAddress 32 with
      | none => createdByInterfaces rest oldList + 1
      | some _ => createdByInterfaces rest (eraseFecEntry oldList ie.inetAddress 32)

/-- The number of FECs that a call of `rebuildFecList` with the previous list
`fecList` creates, that is the number of times it runs `++maxFecid`. -/
def fecsCreated (x : Ext) (rt : RoutingTable) (ift : InterfaceTable)
    (fecList : List fec_t) : Nat :=
  createdByRoutes x rt.entries fecList
    + createdByInterfaces ift (oldAfterRoutes x fecList rt.entries)

/-- A call of `rebuildFecList` on the state keeps the counter `maxFecid` within
the range of `int`: it does not run `++maxFecid` at INT_MAX = 2147483647. -/
def counterInRange (x : Ext) (rt : RoutingTable) (ift : InterfaceTable) (s : State) : Prop :=
  s.maxFecid + fecsCreated x rt ift s.fecList ≤ 2147483647

/-- The states of `AfterRebuild` reached while `maxFecid` stays within the
range of `int`: no call has run `++maxFecid` at INT_MAX. -/
inductive AfterRebuildInRange (x : Ext) : RoutingTable → InterfaceTable → State → Prop where
  | init (rt : RoutingTable) (ift : InterfaceTable) (s : State) :
      counterInRange x rt ift State.empty →
      initializeStage3 x rt ift = Except.ok s → AfterRebuildInRange x rt ift s
  | again (rt0 : RoutingTable) (ift0 : InterfaceTable) (s : State)
      (rt : RoutingTable) (ift : InterfaceTable) (s1 : State) :
      AfterRebuildInRange x rt0 ift0 s → counterInRange x rt ift s →
      rebuildFecList x rt ift s = Except.ok s1 → AfterRebuildInRange x rt ift s1

/-- One call of `rebuildFecList` that keeps `maxFecid` within the range of
`int`, with some routing table and interface table. -/
def rebuildsInRange (x : Ext) (s s1 : State) : Prop :=
  ∃ rt ift, counterInRange x rt ift s ∧ rebuildFecList x rt ift s = Except.ok s1

/-- The module after `initialize` with empty tables, once FECs have been
created and removed again until `maxFecid` is `m`. -/
def stateAfterFlaps (m : Int) : State :=
  { State.empty with maxFecid := m, sent := [Output.nextHello] }

/-- The state with another FEC list and another `maxFecid`. -/
def withFecList (l : List fec_t) (m : Int) (s : State) : State :=
  { s with fecList := l, maxFecid := m }

/-- The lookups of the routing entries give the same in both lists. -/
def sameLookups (x : Ext) (old old1 : List fec_t) (es : List RoutingEntry) : Prop :=
  ∀ re ∈ es, x.isMulticast re.host = false →
    findFecEntry old1 re.host re.netmaskLength = findFecEntry old re.host re.netmaskLength

/-- The routing table of router 10.0.0.1 with 10.2.0.0/16 by way of 10.0.0.2. -/
def rtViaUp : RoutingTable :=
  { routerId := 167772161, entries := [⟨167903232, 16, 167772162, RouteType.REMOTE⟩] }

/-- After `lspUp`, the route to 10.2.0.0/16 changes its gateway from 10.0.0.3
to 10.0.0.2. -/
def nextHopChanged : List (RoutingTable × InterfaceTable × Event) :=
  lspUp ++ [(rtViaUp, [], Event.routingTableChanged)]

/-- From the words of the specification for a deprecated FEC: "for each DS
binding on it: send LABEL_RELEASE to the downstream peer with that label; for
each US binding on it: send LABEL_WITHDRAW to the upstream peer with that
label". The messages for the FEC `f` with the bindings of the state `s`. -/
def deprecationMessages (rt : RoutingTable) (s : State) (f : fec_t) : List Output :=
  (s.fecDown.filter (fun d => d.fecid == f.fecid)).map (fun d =>
      Output.tcp d.peer
        { type := LDPType.LABEL_RELEASE, senderAddress := rt.routerId,
          receiverAddress := d.peer, fec := ⟨f.addr, f.length⟩, label := d.label, status := 0 })
    ++ (s.fecUp.filter (fun u => u.fecid == f.fecid)).map (fun u =>
      Output.tcp u.peer
        { type := LDPType.LABEL_WITHDRAW, senderAddress := rt.routerId,
          receiverAddress := u.peer, fec := ⟨f.addr, f.length⟩, label := u.label, status := 0 })

/-- A message that reconciliation of the FEC `g` can send: a LABEL_WITHDRAW
for the key of `g`, or the LABEL_REQUEST for the key of `g` to its next hop. -/
def reconcileMessage (rt : RoutingTable) (g : fec_t) (m : Output) : Prop :=
  (∃ peer label, m = Output.tcp peer
      { type := LDPType.LABEL_WITHDRAW, senderAddress := rt.routerId,
        receiverAddress := peer, fec := ⟨g.addr, g.length⟩, label := label, status := 0 })
    ∨ m = Output.tcp g.nextHop
      { type := LDPType.LABEL_REQUEST, senderAddress := rt.routerId,
        receiverAddress := g.nextHop, fec := ⟨g.addr, g.length⟩, label := 0, status := 0 }

/-! ## Properties -/

theorem stdSort_lengthDescending (x : Ext) (l : List fec_t) :
    lengthDescending (x.stdSort l) := by
  refine List.Pairwise.chain' ((x.stdSort_sorted l).imp ?_)
  intro a b h
  simp only [fecPrefixCompare, decide_eq_false_iff_not, gt_iff_lt, not_lt] at h
  exact h

theorem rebuildFecList_ok (x : Ext) (rt : RoutingTable) (ift : InterfaceTable)
    (s s1 : State) (h : rebuildFecList x rt ift s = Except.ok s1) :
    ∃ old1 sa sb,
      rebuildRoutes x rt ift rt.entries s.fecList { s with fecList := [] } = Except.ok (old1, sa)
      ∧ removeDeprecated rt (rebuildInterfaces ift old1 sa).1 (rebuildInterfaces ift old1 sa).2
          = Except.ok sb
      ∧ s1 = { sb with fecList := x.stdSort sb.fecList } := by
  unfold rebuildFecList at h
  split at h
  · cases h
  · rename_i old1 sa h1
    dsimp only at h
    split at h
    · cases h
    · rename_i sb h2
      cases h
      exact ⟨old1, sa, sb, h1, h2, rfl⟩

theorem sameSessionTables_refl (s : State) : sameSessionTables s s := ⟨rfl, rfl, rfl, rfl⟩

theorem sameSessionTables_trans {s s1 s2 : State} (h1 : sameSessionTables s s1)
    (h2 : sameSessionTables s1 s2) : sameSessionTables s s2 := by
  obtain ⟨a1, a2, a3, a4⟩ := h1
  obtain ⟨b1, b2, b3, b4⟩ := h2
  exact ⟨b1.trans a1, b2.trans a2, b3.trans a3, b4.trans a4⟩

/-- Reconciliation writes `fecUp`, the LIB and the log only. -/
theorem updateFecListEntry_ok (x : Ext) (rt : RoutingTable) (ift : InterfaceTable)
    (f : fec_t) (s s1 : State) (h : updateFecListEntry x rt ift f s = Except.ok s1) :
    ∃ up lt1 out, s1 = { s with fecUp := up, lt := lt1, sent := s.sent ++ out } := by
  unfold updateFecListEntry at h
  dsimp only at h
  split at h
  · cases h
  · split at h
    · cases h
    · rename_i up lt1 out _
      split at h
      · split at h
        · cases h
        · rename_i m _
          cases h
          exact ⟨up, lt1, out ++ [m], by simp⟩
      · cases h
        exact ⟨up, lt1, out, rfl⟩

theorem updateFecListEntry_frame (x : Ext) (rt : RoutingTable) (ift : InterfaceTable)
    (f : fec_t) (s s1 : State) (h : updateFecListEntry x rt ift f s = Except.ok s1) :
    sameSessionTables s s1 ∧ s1.fecList = s.fecList ∧ s1.maxFecid = s.maxFecid := by
  obtain ⟨up, lt1, out, rfl⟩ := updateFecListEntry_ok x rt ift f s s1 h
  exact ⟨⟨rfl, rfl, rfl, rfl⟩, rfl, rfl⟩

theorem rebuildRoutes_ok (x : Ext) (rt : RoutingTable) (ift : InterfaceTable) :
    ∀ (es : List RoutingEntry) (old : List fec_t) (s : State) (old1 : List fec_t) (s1 : State),
      rebuildRoutes x rt ift es old s = Except.ok (old1, s1) →
      sameSessionTables s s1 ∧
      ∃ F, s1.fecList = s.fecList ++ F
        ∧ List.Forall₂ routeFec (es.filter (fun re => !x.isMulticast re.host)) F := by
  intro es
  induction es with
  | nil =>
    intro old s old1 s1 h
    simp only [rebuildRoutes, Except.ok.injEq, Prod.mk.injEq] at h
    obtain ⟨_, rfl⟩ := h
    exact ⟨sameSessionTables_refl _, [], by simp, by simp⟩
  | cons re rest ih =>
    intro old s old1 s1 h
    unfold rebuildRoutes at h
    split at h
    · rename_i hm
      obtain ⟨hf, F, hF, hR⟩ := ih _ _ _ _ h
      exact ⟨hf, F, hF, by simpa [List.filter_cons, hm] using hR⟩
    · rename_i hm
      dsimp only at h
      split at h
      · cases h
      · rename_i hu
        split at h
        · -- a new FEC
          split at h
          · cases h
          · rename_i sa hupd
            obtain ⟨hf, F, hF, hR⟩ := ih _ _ _ _ h
            obtain ⟨hfa, hla, _⟩ := updateFecListEntry_frame _ _ _ _ _ _ hupd
            simp only [Bool.not_eq_true] at hm hu
            refine ⟨@sameSessionTables_trans _ sa _ hfa hf,
              ⟨nextFecid s.maxFecid, re.host, re.netmaskLength, routeNextHop re⟩ :: F, ?_, ?_⟩
            · rw [hF]; simp [hla]
            · simp [List.filter_cons, hm]
              exact ⟨⟨rfl, rfl, rfl, hu⟩, hR⟩
        · rename_i it hfind
          have hkey := List.find?_some hfind
          simp only [Bool.and_eq_true, beq_iff_eq] at hkey
          simp only [Bool.not_eq_true] at hm hu
          split at h
          · split at h
            · cases h
            · rename_i sa hupd
              obtain ⟨hf, F, hF, hR⟩ := ih _ _ _ _ h
              obtain ⟨hfa, hla, _⟩ := updateFecListEntry_frame _ _ _ _ _ _ hupd
              refine ⟨@sameSessionTables_trans _ sa _ hfa hf,
                { it with nextHop := routeNextHop re } :: F, ?_, ?_⟩
              · rw [hF]; simp [hla]
              · simp [List.filter_cons, hm]
                exact ⟨⟨hkey.2, hkey.1, rfl, hu⟩, hR⟩
          · rename_i hnh
            obtain ⟨hf, F, hF, hR⟩ := ih _ _ _ _ h
            refine ⟨hf, it :: F, ?_, ?_⟩
            · rw [hF]; simp
            · simp [List.filter_cons, hm]
              refine ⟨⟨hkey.2, hkey.1, ?_, hu⟩, hR⟩
              simpa using hnh

theorem rebuildInterfaces_ok :
    ∀ (ifs : List InterfaceEntry) (old : List fec_t) (s : State),
      sameSessionTables s (rebuildInterfaces ifs old s).2
      ∧ (rebuildInterfaces ifs old s).2.fecUp = s.fecUp
      ∧ (rebuildInterfaces ifs old s).2.lt = s.lt
      ∧ (rebuildInterfaces ifs old s).2.sent = s.sent
      ∧ ∃ G, (rebuildInterfaces ifs old s).2.fecList = s.fecList ++ G
          ∧ List.Forall₂ interfaceFec (ifs.filter (fun ie => !decide (ie.outputPort < 0))) G := by
  intro ifs
  induction ifs with
  | nil =>
    intro old s
    exact ⟨sameSessionTables_refl _, rfl, rfl, rfl, [], by simp [rebuildInterfaces], by simp⟩
  | cons ie rest ih =>
    intro old s
    unfold rebuildInterfaces
    split
    · rename_i hp
      obtain ⟨hf, h1, h2, h3, G, hG, hR⟩ := ih old s
      exact ⟨hf, h1, h2, h3, G, hG, by simpa [List.filter_cons, hp] using hR⟩
    · rename_i hp
      split
      · obtain ⟨hf, h1, h2, h3, G, hG, hR⟩ := ih old
          { s with maxFecid := nextFecid s.maxFecid,
                   fecList := s.fecList ++ [⟨nextFecid s.maxFecid, ie.inetAddress, 32, ie.inetAddress⟩] }
        refine ⟨hf, h1, h2, h3, ⟨nextFecid s.maxFecid, ie.inetAddress, 32, ie.inetAddress⟩ :: G, ?_, ?_⟩
        · rw [hG]; simp
        · simp [List.filter_cons, hp]
          exact ⟨⟨rfl, rfl⟩, hR⟩
      · rename_i it hfind
        have hkey := List.find?_some hfind
        simp only [Bool.and_eq_true, beq_iff_eq] at hkey
        obtain ⟨hf, h1, h2, h3, G, hG, hR⟩ := ih (eraseFecEntry old ie.inetAddress 32)
          { s with fecList := s.fecList ++ [it] }
        refine ⟨hf, h1, h2, h3, it :: G, ?_, ?_⟩
        · rw [hG]; simp
        · simp [List.filter_cons, hp]
          exact ⟨⟨hkey.2, hkey.1⟩, hR⟩

/-- Removing the deprecated FECs writes the LIB and the log only. -/
theorem removeDeprecated_ok (rt : RoutingTable) :
    ∀ (old : List fec_t) (s s1 : State), removeDeprecated rt old s = Except.ok s1 →
      ∃ lt1 out, s1 = { s with lt := lt1, sent := s.sent ++ out } := by
  intro old
  induction old with
  | nil =>
    intro s s1 h
    simp only [removeDeprecated, Except.ok.injEq] at h
    subst h
    exact ⟨s.lt, [], by simp⟩
  | cons it rest ih =>
    intro s s1 h
    unfold removeDeprecated at h
    split at h
    · cases h
    · rename_i out1 _
      split at h
      · cases h
      · rename_i lt1 out2 _
        obtain ⟨lt2, out, rfl⟩ := ih _ _ h
        exact ⟨lt2, out1 ++ out2 ++ out, by simp⟩

/-- The list that `rebuildFecList` leaves behind: the sorted sequence of one
entry per unicast routing entry followed by one entry per valid interface. -/
theorem rebuildFecList_shape (x : Ext) (rt : RoutingTable) (ift : InterfaceTable)
    (s s1 : State) (h : rebuildFecList x rt ift s = Except.ok s1) :
    sameSessionTables s s1 ∧
    ∃ F G, s1.fecList = x.stdSort (F ++ G)
      ∧ List.Forall₂ routeFec (unicastRoutes x rt) F
      ∧ List.Forall₂ interfaceFec (validInterfaces ift) G := by
  obtain ⟨old1, sa, sb, h1, h2, rfl⟩ := rebuildFecList_ok x rt ift s s1 h
  obtain ⟨hfa, F, hF, hRF⟩ := rebuildRoutes_ok x rt ift _ _ _ _ _ h1
  obtain ⟨hfb, _, _, _, G, hG, hRG⟩ := rebuildInterfaces_ok ift old1 sa
  obtain ⟨lt1, out, rfl⟩ := removeDeprecated_ok rt _ _ _ h2
  refine ⟨?_, F, G, ?_, hRF, hRG⟩
  · exact @sameSessionTables_trans _ sa _ hfa hfb
  · show x.stdSort (rebuildInterfaces ift old1 sa).2.fecList = _
    rw [hG, hF]
    simp

theorem forall₂_routeFec_keys {es : List RoutingEntry} {F : List fec_t}
    (h : List.Forall₂ routeFec es F) :
    F.map fecKey = es.map (fun re => (re.host, re.netmaskLength)) := by
  induction h with
  | nil => rfl
  | cons hab _ ih =>
    obtain ⟨h1, h2, _, _⟩ := hab
    simp [fecKey, h1, h2, ih]

theorem forall₂_interfaceFec_keys {ifs : List InterfaceEntry} {G : List fec_t}
    (h : List.Forall₂ interfaceFec ifs G) :
    G.map fecKey = ifs.map (fun ie => (ie.inetAddress, (32 : Int))) := by
  induction h with
  | nil => rfl
  | cons hab _ ih =>
    obtain ⟨h1, h2⟩ := hab
    simp [fecKey, h1, h2, ih]

/-- The keys of the rebuilt list are, up to order, the keys of the snapshot. -/
theorem rebuildFecList_keys (x : Ext) (rt : RoutingTable) (ift : InterfaceTable)
    (s s1 : State) (h : rebuildFecList x rt ift s = Except.ok s1) :
    (s1.fecList.map fecKey).Perm (snapshotKeys x rt ift) := by
  obtain ⟨_, F, G, hL, hF, hG⟩ := rebuildFecList_shape x rt ift s s1 h
  rw [hL]
  refine ((x.stdSort_perm _).map fecKey).trans ?_
  rw [List.map_append, forall₂_routeFec_keys hF, forall₂_interfaceFec_keys hG]
  exact List.Perm.refl _

/-! ### C1: the rebuilt list is sorted -/

/-- C1. Whatever the prior state, the routing table and the interface table,
the FEC list that `rebuildFecList` leaves behind is sorted by prefix length in
non-increasing order: every entry is at least as long as the one after it. -/
theorem rebuildFecList_sorted (x : Ext) (rt : RoutingTable) (ift : InterfaceTable)
    (s s1 : State) (h : rebuildFecList x rt ift s = Except.ok s1) :
    List.Chain' (fun a b : fec_t => a.length ≥ b.length) s1.fecList := by
  obtain ⟨_, F, G, hL, _, _⟩ := rebuildFecList_shape x rt ift s s1 h
  rw [hL]
  exact stdSort_lengthDescending x _

theorem rebuildFecList_sorted_witness :
    rebuildFecList ipv4Ext rtTwoRoutes iftOne State.empty = Except.ok stateTwoRoutes
    ∧ List.Chain' (fun a b : fec_t => a.length ≥ b.length) stateTwoRoutes.fecList :=
  ⟨rfl, rebuildFecList_sorted ipv4Ext rtTwoRoutes iftOne State.empty stateTwoRoutes rfl⟩

/-! ### C2: classification takes a longest match -/

theorem matchedFec_some (x : Ext) (dest : IPAddress) :
    ∀ (l : List fec_t) (f : fec_t), matchedFec x dest l = some f →
      ∃ l1 l2, l = l1 ++ f :: l2 ∧ x.prefixMatches dest f.addr f.length = true
        ∧ ∀ g ∈ l1, x.prefixMatches dest g.addr g.length = false := by
  intro l
  induction l with
  | nil => intro f h; simp [matchedFec] at h
  | cons it rest ih =>
    intro f h
    unfold matchedFec at h
    split at h
    · rename_i hm
      obtain ⟨l1, l2, hl, hf, hno⟩ := ih f h
      refine ⟨it :: l1, l2, by simp [hl], hf, ?_⟩
      intro g hg
      rcases List.mem_cons.mp hg with rfl | hg
      · simpa using hm
      · exact hno g hg
    · rename_i hm
      cases h
      exact ⟨[], rest, rfl, by simpa using hm, by simp⟩

theorem lengthDescending_pairwise (l : List fec_t) (h : lengthDescending l) :
    l.Pairwise (fun a b : fec_t => a.length ≥ b.length) := by
  induction l with
  | nil => exact List.Pairwise.nil
  | cons a rest ih =>
    unfold lengthDescending at h ih
    rw [List.chain'_cons'] at h
    have hp := ih h.2
    refine List.Pairwise.cons ?_ hp
    intro y hy
    cases rest with
    | nil => simp at hy
    | cons b rest2 =>
      have hab : a.length ≥ b.length := h.1 b (by simp)
      rcases List.mem_cons.mp hy with rfl | hy
      · exact hab
      · have := (List.pairwise_cons.mp hp).1 y hy
        omega

/-- C2. When the FEC list is sorted by prefix length, longest first, the entry
at which `lookupLabel` stops for a packet that is not signaling traffic is in
the list, matches the destination, and is at least as long as every entry of
the list that matches the destination; the result of `lookupLabel` is read off
that entry. -/
theorem lookupLabel_longest_match (x : Ext) (rt : RoutingTable) (ift : InterfaceTable)
    (s : State) (ipdatagram : IPDatagram) (f : fec_t)
    (hsorted : List.Chain' (fun a b : fec_t => a.length ≥ b.length) s.fecList)
    (hdata : isSignaling x ipdatagram = false)
    (hsel : matchedFec x ipdatagram.destAddress s.fecList = some f) :
    f ∈ s.fecList
    ∧ x.prefixMatches ipdatagram.destAddress f.addr f.length = true
    ∧ (∀ g ∈ s.fecList, x.prefixMatches ipdatagram.destAddress g.addr g.length = true →
        g.length ≤ f.length)
    ∧ lookupLabel x rt ift s ipdatagram =
        (findFecBind s.fecDown f.fecid f.nextHop).map (fun dit =>
          (pushLabel dit.label, findInterfaceFromPeerAddr x rt ift f.nextHop,
           x.LDP_USER_TRAFFIC)) := by
  obtain ⟨l1, l2, hl, hf, hno⟩ := matchedFec_some x _ _ _ hsel
  have hp := lengthDescending_pairwise _ hsorted
  refine ⟨by simp [hl], hf, ?_, ?_⟩
  · intro g hg hmg
    rw [hl] at hg hp
    rcases List.mem_append.mp hg with hg | hg
    · have := hno g hg
      simp [hmg] at this
    · rcases List.mem_cons.mp hg with rfl | hg
      · exact le_refl _
      · have := (List.pairwise_cons.mp (List.pairwise_append.mp hp).2.1).1 g hg
        omega
  · unfold lookupLabel
    simp only [hdata, Bool.false_eq_true, ↓reduceIte, hsel]
    cases findFecBind s.fecDown f.fecid f.nextHop <;> rfl

theorem stateTwoRoutes_sorted :
    List.Chain' (fun a b : fec_t => a.length ≥ b.length) stateTwoRoutes.fecList := by
  simp [stateTwoRoutes, State.empty]

theorem lookupLabel_longest_match_witness :
    List.Chain' (fun a b : fec_t => a.length ≥ b.length) stateTwoRoutes.fecList
    ∧ isSignaling ipv4Ext webPacket = false
    ∧ matchedFec ipv4Ext webPacket.destAddress stateTwoRoutes.fecList
        = some ⟨1, 167837696, 16, 167837696⟩
    ∧ ∀ g ∈ stateTwoRoutes.fecList,
        ipv4Ext.prefixMatches webPacket.destAddress g.addr g.length = true → g.length ≤ 16 :=
  ⟨stateTwoRoutes_sorted, by decide, by decide,
   (lookupLabel_longest_match ipv4Ext rtTwoRoutes iftOne stateTwoRoutes webPacket
      ⟨1, 167837696, 16, 167837696⟩ stateTwoRoutes_sorted (by decide) (by decide)).2.2.1⟩

/-! ### C3: uniqueness of the FEC keys -/

/-- C3, as stated, fails: `initialize` with a routing table that lists the
route to 10.1.0.0/16 twice leaves two FECs (ids 1 and 2) with the key
(10.1.0.0, 16), since new entries are looked up in the previous list only. -/
theorem fec_uniqueness_counterexample :
    ∃ s, AfterRebuild ipv4Ext rtDuplicate [] s
      ∧ s.fecList = [⟨1, 167837696, 16, 167837696⟩, ⟨2, 167837696, 16, 167837696⟩]
      ∧ ¬ (s.fecList.map fecKey).Nodup :=
  ⟨{ State.empty with
      fecList := [⟨1, 167837696, 16, 167837696⟩, ⟨2, 167837696, 16, 167837696⟩]
      maxFecid := 2
      sent := [Output.nextHello] },
    AfterRebuild.init _ _ _ rfl, rfl, by decide⟩

theorem afterRebuild_last (x : Ext) (rt : RoutingTable) (ift : InterfaceTable) (s : State)
    (h : AfterRebuild x rt ift s) : ∃ s0, rebuildFecList x rt ift s0 = Except.ok s := by
  cases h with
  | init _ _ _ h0 => exact ⟨_, h0⟩
  | again rt0 ift0 s0 _ _ _ hr h0 => exact ⟨s0, h0⟩

/-- C3, amended. In every state reached by `initialize` and any number of
further calls of `rebuildFecList`, the FEC list holds at most one entry per
(address, prefix length) if and only if the keys of the most recent snapshot
(host and netmask length of its non-multicast routing entries, then address
and 32 for its interfaces with a valid output port) are pairwise distinct. -/
theorem fec_uniqueness_of_distinct_snapshot (x : Ext) (rt : RoutingTable)
    (ift : InterfaceTable) (s : State) (h : AfterRebuild x rt ift s) :
    (s.fecList.map fecKey).Nodup ↔ (snapshotKeys x rt ift).Nodup := by
  obtain ⟨s0, h0⟩ := afterRebuild_last x rt ift s h
  exact (rebuildFecList_keys x rt ift s0 s h0).nodup_iff

theorem fec_uniqueness_of_distinct_snapshot_witness :
    AfterRebuild ipv4Ext rtTwoRoutes iftOne { stateTwoRoutes with sent := [Output.nextHello] }
    ∧ (snapshotKeys ipv4Ext rtTwoRoutes iftOne).Nodup
    ∧ (({ stateTwoRoutes with sent := [Output.nextHello] } : State).fecList.map fecKey).Nodup :=
  ⟨AfterRebuild.init _ _ _ rfl, by decide,
   (fec_uniqueness_of_distinct_snapshot ipv4Ext rtTwoRoutes iftOne _
      (AfterRebuild.init _ _ _ rfl)).mpr (by decide)⟩

/-! ### C4: the keys of the rebuilt list -/

theorem mem_snapshotKeys (x : Ext) (rt : RoutingTable) (ift : InterfaceTable)
    (addr : IPAddress) (length : Int) :
    (addr, length) ∈ snapshotKeys x rt ift ↔
      (∃ re ∈ rt.entries, x.isMulticast re.host = false ∧ re.host = addr
          ∧ re.netmaskLength = length)
      ∨ (length = 32 ∧ ∃ ie ∈ ift, ie.outputPort ≥ 0 ∧ ie.inetAddress = addr) := by
  unfold snapshotKeys unicastRoutes validInterfaces
  simp only [List.mem_append, List.mem_map, List.mem_filter, Prod.mk.injEq, Bool.not_eq_true',
    decide_eq_false_iff_not, not_lt, ge_iff_le]
  constructor
  · rintro (⟨re, ⟨hre, hm⟩, h1, h2⟩ | ⟨ie, ⟨hie, hp⟩, h1, h2⟩)
    · exact Or.inl ⟨re, hre, hm, h1, h2⟩
    · exact Or.inr ⟨h2.symm, ie, hie, hp, h1⟩
  · rintro (⟨re, hre, hm, h1, h2⟩ | ⟨h2, ie, hie, hp, h1⟩)
    · exact Or.inl ⟨re, ⟨hre, hm⟩, h1, h2⟩
    · exact Or.inr ⟨ie, ⟨hie, hp⟩, h1, h2.symm⟩

/-- C4. After `rebuildFecList`, a pair (address, prefix length) is the key of
an entry of the FEC list if and only if some non-multicast routing entry has
that host and netmask length, or the length is 32 and the address is that of
an interface with a valid output port. -/
theorem rebuildFecList_keys_iff (x : Ext) (rt : RoutingTable) (ift : InterfaceTable)
    (s s1 : State) (h : rebuildFecList x rt ift s = Except.ok s1)
    (addr : IPAddress) (length : Int) :
    (∃ f ∈ s1.fecList, f.addr = addr ∧ f.length = length) ↔
      (∃ re ∈ rt.entries, x.isMulticast re.host = false ∧ re.host = addr
          ∧ re.netmaskLength = length)
      ∨ (length = 32 ∧ ∃ ie ∈ ift, ie.outputPort ≥ 0 ∧ ie.inetAddress = addr) := by
  rw [← mem_snapshotKeys, ← (rebuildFecList_keys x rt ift s s1 h).mem_iff]
  simp only [List.mem_map, fecKey, Prod.mk.injEq]

theorem rebuildFecList_keys_iff_witness :
    rebuildFecList ipv4Ext rtTwoRoutes iftOne State.empty = Except.ok stateTwoRoutes
    ∧ ((∃ f ∈ stateTwoRoutes.fecList, f.addr = 167772160 ∧ f.length = 8) ↔
        (∃ re ∈ rtTwoRoutes.entries, ipv4Ext.isMulticast re.host = false ∧ re.host = 167772160
            ∧ re.netmaskLength = 8)
        ∨ ((8 : Int) = 32 ∧ ∃ ie ∈ iftOne, ie.outputPort ≥ 0 ∧ ie.inetAddress = 167772160)) :=
  ⟨rfl, rebuildFecList_keys_iff ipv4Ext rtTwoRoutes iftOne State.empty stateTwoRoutes rfl
          167772160 8⟩

/-! ### C5: rebuilding twice -/

theorem findFecEntry_eq (l : List fec_t) (addr : IPAddress) (length : Int) :
    findFecEntry l addr length = (l.filter (hasKey addr length)).head? := by
  unfold findFecEntry
  induction l with
  | nil => rfl
  | cons a rest ih =>
    by_cases h : hasKey addr length a = true
    · have h1 : (a.length == length && a.addr == addr) = true := h
      simp [List.find?_cons, List.filter_cons, h, h1]
    · have h1 : ¬ (a.length == length && a.addr == addr) = true := h
      simp only [Bool.not_eq_true] at h h1
      rw [List.find?_cons, List.filter_cons]
      simp only [h, h1, Bool.false_eq_true, ↓reduceIte]
      exact ih

theorem filter_eraseFecEntry_same (l : List fec_t) (addr : IPAddress) (length : Int) :
    (eraseFecEntry l addr length).filter (hasKey addr length)
      = (l.filter (hasKey addr length)).tail := by
  unfold eraseFecEntry
  induction l with
  | nil => rfl
  | cons a rest ih =>
    by_cases h : hasKey addr length a = true
    · have h1 : (a.length == length && a.addr == addr) = true := h
      simp [List.eraseP_cons, List.filter_cons, h, h1]
    · have h1 : ¬ (a.length == length && a.addr == addr) = true := h
      simp only [Bool.not_eq_true] at h h1
      rw [List.eraseP_cons, List.filter_cons]
      simp only [h, h1, cond_false, Bool.false_eq_true, ↓reduceIte, List.filter_cons]
      exact ih

theorem hasKey_unique {addr addr1 : IPAddress} {length length1 : Int} {f : fec_t}
    (h : hasKey addr length f = true) (h1 : hasKey addr1 length1 f = true) :
    addr1 = addr ∧ length1 = length := by
  simp only [hasKey, Bool.and_eq_true, beq_iff_eq] at h h1
  exact ⟨h1.2.symm.trans h.2, h1.1.symm.trans h.1⟩

theorem filter_eraseFecEntry_other (l : List fec_t) (addr addr1 : IPAddress)
    (length length1 : Int) (hne : ¬ (addr1 = addr ∧ length1 = length)) :
    (eraseFecEntry l addr length).filter (hasKey addr1 length1)
      = l.filter (hasKey addr1 length1) := by
  unfold eraseFecEntry
  induction l with
  | nil => rfl
  | cons a rest ih =>
    by_cases h : hasKey addr length a = true
    · have h1 : (a.length == length && a.addr == addr) = true := h
      have h2 : hasKey addr1 length1 a = false := by
        cases hk : hasKey addr1 length1 a
        · rfl
        · exact absurd (hasKey_unique h hk) hne
      simp [List.eraseP_cons, List.filter_cons, h1, h2]
    · have h1 : ¬ (a.length == length && a.addr == addr) = true := h
      simp only [Bool.not_eq_true] at h1
      rw [List.eraseP_cons]
      simp only [h1, cond_false, List.filter_cons]
      rw [ih]

theorem sameByKey_nil (l : List fec_t) (h : sameByKey l []) : l = [] := by
  cases l with
  | nil => rfl
  | cons a rest =>
    have := h a.addr a.length
    simp [hasKey, List.filter_cons] at this

/-- An entry at the head of the expected list is found first, and erasing it
leaves the lists equal by key. -/
theorem sameByKey_head (old : List fec_t) (f : fec_t) (X : List fec_t)
    (h : sameByKey old (f :: X)) :
    findFecEntry old f.addr f.length = some f
    ∧ sameByKey (eraseFecEntry old f.addr f.length) X := by
  have hf : hasKey f.addr f.length f = true := by simp [hasKey]
  constructor
  · rw [findFecEntry_eq, h f.addr f.length]
    simp [List.filter_cons, hf]
  · intro addr1 length1
    by_cases hk : addr1 = f.addr ∧ length1 = f.length
    · obtain ⟨rfl, rfl⟩ := hk
      rw [filter_eraseFecEntry_same, h f.addr f.length]
      simp [List.filter_cons, hf]
    · rw [filter_eraseFecEntry_other _ _ _ _ _ hk, h addr1 length1]
      have : hasKey addr1 length1 f = false := by
        cases hq : hasKey addr1 length1 f
        · rfl
        · exact absurd (hasKey_unique hf hq) hk
      simp [List.filter_cons, this]

/-- A permutation of a list with pairwise distinct keys holds, for every key,
the same entries: whatever the sort does with entries of equal length. -/
theorem sameByKey_of_perm (l1 l2 : List fec_t) (hp : l1.Perm l2)
    (hn : (l2.map fecKey).Nodup) : sameByKey l1 l2 := by
  intro addr length
  have hf : (l1.filter (hasKey addr length)).Perm (l2.filter (hasKey addr length)) :=
    hp.filter _
  have hn2 : ((l2.filter (hasKey addr length)).map fecKey).Nodup :=
    hn.sublist ((List.filter_sublist l2).map fecKey)
  have hkey : ∀ f ∈ l2.filter (hasKey addr length), fecKey f = (addr, length) := by
    intro f hf
    have := (List.mem_filter.mp hf).2
    simp only [hasKey, Bool.and_eq_true, beq_iff_eq] at this
    simp [fecKey, this.1, this.2]
  generalize l2.filter (hasKey addr length) = m at hf hn2 hkey
  match m, hf, hn2, hkey with
  | [], hf, _, _ => exact hf.eq_nil
  | [a], hf, _, _ => exact List.perm_singleton.mp hf
  | a :: b :: rest, _, hn2, hkey =>
    exfalso
    have ha := hkey a (by simp)
    have hb := hkey b (by simp)
    simp only [List.map_cons, List.nodup_cons, List.mem_cons, not_or] at hn2
    exact hn2.1.1 (ha.trans hb.symm)

/-- When the previous list already holds, key by key and in order, the entries
expected for the routing entries, the first loop of `rebuildFecList` carries
each of them over and calls no reconciliation. -/
theorem rebuildRoutes_carry (x : Ext) (rt : RoutingTable) (ift : InterfaceTable) :
    ∀ (es : List RoutingEntry) (F G old : List fec_t) (s : State),
      List.Forall₂ routeFec (es.filter (fun re => !x.isMulticast re.host)) F →
      sameByKey old (F ++ G) →
      ∃ old1, rebuildRoutes x rt ift es old s
          = Except.ok (old1, { s with fecList := s.fecList ++ F })
        ∧ sameByKey old1 G := by
  intro es
  induction es with
  | nil =>
    intro F G old s hF hk
    simp only [List.filter_nil, List.forall₂_nil_left_iff] at hF
    subst hF
    exact ⟨old, by simp [rebuildRoutes], by simpa using hk⟩
  | cons re rest ih =>
    intro F G old s hF hk
    by_cases hm : x.isMulticast re.host = true
    · have hF1 : List.Forall₂ routeFec (rest.filter (fun re => !x.isMulticast re.host)) F := by
        simpa [List.filter_cons, hm] using hF
      obtain ⟨old1, h1, h2⟩ := ih F G old s hF1 hk
      refine ⟨old1, ?_, h2⟩
      unfold rebuildRoutes
      simp only [hm, ↓reduceIte]
      exact h1
    · simp only [Bool.not_eq_true] at hm
      have hF1 : List.Forall₂ routeFec
          (re :: rest.filter (fun re => !x.isMulticast re.host)) F := by
        simpa [List.filter_cons, hm] using hF
      cases hF1 with
      | cons hre hrest =>
        rename_i f F1
        obtain ⟨ha, hl, hn, hu⟩ := hre
        have hk1 : sameByKey old (f :: (F1 ++ G)) := by simpa using hk
        obtain ⟨hfind, herase⟩ := sameByKey_head old f (F1 ++ G) hk1
        rw [ha, hl] at hfind herase
        obtain ⟨old1, h1, h2⟩ := ih F1 G (eraseFecEntry old re.host re.netmaskLength)
          { s with fecList := s.fecList ++ [f] } hrest herase
        refine ⟨old1, ?_, h2⟩
        unfold rebuildRoutes
        simp only [hm, Bool.false_eq_true, ↓reduceIte, hu, hfind, hn, bne_self_eq_false]
        rw [h1]
        simp

theorem rebuildInterfaces_carry :
    ∀ (ifs : List InterfaceEntry) (G old : List fec_t) (s : State),
      List.Forall₂ interfaceFec (ifs.filter (fun ie => !decide (ie.outputPort < 0))) G →
      sameByKey old G →
      rebuildInterfaces ifs old s = ([], { s with fecList := s.fecList ++ G }) := by
  intro ifs
  induction ifs with
  | nil =>
    intro G old s hG hk
    simp only [List.filter_nil, List.forall₂_nil_left_iff] at hG
    subst hG
    simp [rebuildInterfaces, sameByKey_nil old hk]
  | cons ie rest ih =>
    intro G old s hG hk
    by_cases hp : ie.outputPort < 0
    · have hG1 : List.Forall₂ interfaceFec
          (rest.filter (fun ie => !decide (ie.outputPort < 0))) G := by
        simpa [List.filter_cons, hp] using hG
      unfold rebuildInterfaces
      simp only [hp, ↓reduceIte]
      exact ih G old s hG1 hk
    · have hG1 : List.Forall₂ interfaceFec
          (ie :: rest.filter (fun ie => !decide (ie.outputPort < 0))) G := by
        simpa [List.filter_cons, hp] using hG
      cases hG1 with
      | cons hie hrest =>
        rename_i g G1
        obtain ⟨ha, hl⟩ := hie
        obtain ⟨hfind, herase⟩ := sameByKey_head old g G1 hk
        rw [ha, hl] at hfind herase
        unfold rebuildInterfaces
        simp only [hp, ↓reduceIte, hfind]
        rw [ih G1 _ _ hrest herase]
        simp

/-- C5, as stated, fails. The routing table lists 10.1.0.0/16 twice, and
`std::sort` returns entries of equal length in the reverse of the order it
found them in, which the C++ standard allows. The first call of
`rebuildFecList` creates the FECs 1 and 2 and leaves the list 2, 1; a second
call with the same tables finds FEC 2 first and leaves the list 1, 2: the
order of the FEC list is not the one after the first call. -/
theorem rebuild_twice_counterexample :
    rebuildFecList tiesReversedExt rtDuplicate [] State.empty
      = Except.ok { State.empty with
          fecList := [⟨2, 167837696, 16, 167837696⟩, ⟨1, 167837696, 16, 167837696⟩]
          maxFecid := 2 }
    ∧ rebuildFecList tiesReversedExt rtDuplicate []
        { State.empty with
          fecList := [⟨2, 167837696, 16, 167837696⟩, ⟨1, 167837696, 16, 167837696⟩]
          maxFecid := 2 }
      = Except.ok { State.empty with
          fecList := [⟨1, 167837696, 16, 167837696⟩, ⟨2, 167837696, 16, 167837696⟩]
          maxFecid := 2 } :=
  ⟨rfl, rfl⟩

/-- C5, amended. For a routing table and interface table whose keys (one per
unicast routing entry, one per valid interface) are pairwise distinct: if
`rebuildFecList` on a state `s` returns `s1`, then running it again on `s1`
with the same tables also returns, and the result has the same FEC list
(entries, ids, next hops, order), the same downstream bindings, the same
upstream bindings and the same pending requests as `s1`; it is `s1` itself,
so the LIB and the log are the same too. This holds whatever order
`std::sort` gives to entries of equal length. -/
theorem rebuildFecList_idempotent (x : Ext) (rt : RoutingTable) (ift : InterfaceTable)
    (s s1 : State) (hkeys : (snapshotKeys x rt ift).Nodup)
    (h : rebuildFecList x rt ift s = Except.ok s1) :
    ∃ s2, rebuildFecList x rt ift s1 = Except.ok s2
      ∧ s2.fecList = s1.fecList ∧ s2.fecDown = s1.fecDown ∧ s2.fecUp = s1.fecUp
      ∧ s2.pending = s1.pending ∧ s2 = s1 := by
  obtain ⟨_, F, G, hL, hF, hG⟩ := rebuildFecList_shape x rt ift s s1 h
  have hk : sameByKey s1.fecList (F ++ G) := by
    rw [hL]
    refine sameByKey_of_perm _ _ (x.stdSort_perm _) ?_
    rw [List.map_append, forall₂_routeFec_keys hF, forall₂_interfaceFec_keys hG]
    exact hkeys
  obtain ⟨old1, h1, h2⟩ := rebuildRoutes_carry x rt ift rt.entries F G s1.fecList
    { s1 with fecList := [] } hF hk
  have h3 := rebuildInterfaces_carry ift G old1 { s1 with fecList := [] ++ F } hG h2
  simp only [List.nil_append] at h1 h3
  refine ⟨s1, ?_, rfl, rfl, rfl, rfl, rfl⟩
  unfold rebuildFecList
  rw [h1]
  simp only [h3, removeDeprecated, List.nil_append, ← hL]

theorem rebuildFecList_idempotent_witness :
    (snapshotKeys tiesReversedExt rtTwoRoutes iftOne).Nodup
    ∧ rebuildFecList tiesReversedExt rtTwoRoutes iftOne State.empty = Except.ok stateTwoRoutes
    ∧ ∃ s2, rebuildFecList tiesReversedExt rtTwoRoutes iftOne stateTwoRoutes = Except.ok s2
      ∧ s2.fecList = stateTwoRoutes.fecList ∧ s2.fecDown = stateTwoRoutes.fecDown
      ∧ s2.fecUp = stateTwoRoutes.fecUp ∧ s2.pending = stateTwoRoutes.pending
      ∧ s2 = stateTwoRoutes :=
  ⟨by decide, rfl,
   rebuildFecList_idempotent tiesReversedExt rtTwoRoutes iftOne State.empty stateTwoRoutes
     (by decide) rfl⟩

/-! ### Sessions -/

theorem findPeer_find (l : List peer_info) (a : IPAddress) :
    (match findPeer l a with
     | none => none
     | some i => l[i]?) = l.find? (fun p => p.peerIP == a) := by
  induction l with
  | nil => rfl
  | cons p ps ih =>
    unfold findPeer
    by_cases h : (p.peerIP == a) = true
    · simp [h, List.find?_cons]
    · simp only [Bool.not_eq_true] at h
      simp only [h, Bool.false_eq_true, ↓reduceIte, List.find?_cons]
      rw [← ih]
      cases findPeer ps a <;> simp

theorem peerSocketSoft_eq (l : List peer_info) (a : IPAddress) :
    peerSocketSoft l a = (l.find? (fun p => p.peerIP == a)).bind sessionOf := by
  rw [← findPeer_find]
  unfold peerSocketSoft
  cases findPeer l a with
  | none => rfl
  | some i =>
    dsimp only
    cases l[i]? with
    | none => rfl
    | some p =>
      simp only [Option.bind, sessionOf]

theorem findPeer_none (l : List peer_info) (a : IPAddress) (h : findPeer l a = none) :
    l.find? (fun p => p.peerIP == a) = none := by
  rw [← findPeer_find, h]

theorem sessionsKept_refl (l : List peer_info) : sessionsKept l l := fun _ h => h

theorem sessionsKept_trans {l l1 l2 : List peer_info} (h1 : sessionsKept l l1)
    (h2 : sessionsKept l1 l2) : sessionsKept l l2 := fun a h => h2 a (h1 a h)

/-- A peer pushed at the end of the table takes no session away. -/
theorem sessionsKept_append (l : List peer_info) (p : peer_info) :
    sessionsKept l (l ++ [p]) := by
  intro a h
  unfold connected at h ⊢
  rw [peerSocketSoft_eq] at h ⊢
  rw [List.find?_append]
  cases hf : l.find? (fun p => p.peerIP == a) with
  | none => simp [hf] at h
  | some q => simpa [hf] using h

theorem find?_modify_socket (a : IPAddress) (sock : TCPSocket) :
    ∀ (l : List peer_info) (i : Nat) (q : peer_info),
      l.find? (fun p => p.peerIP == a) = some q →
      (l.modify (fun p => { p with socket := some sock }) i).find? (fun p => p.peerIP == a)
          = some q
      ∨ (l.modify (fun p => { p with socket := some sock }) i).find? (fun p => p.peerIP == a)
          = some { q with socket := some sock } := by
  intro l
  induction l with
  | nil => intro i q h; simp at h
  | cons p ps ih =>
    intro i q h
    cases i with
    | zero =>
      rw [List.modify_zero_cons]
      by_cases hp : (p.peerIP == a) = true
      · right
        simp only [List.find?_cons, hp] at h
        cases h
        simp [List.find?_cons, hp]
      · simp only [Bool.not_eq_true] at hp
        left
        simp only [List.find?_cons, hp] at h ⊢
        exact h
    | succ n =>
      rw [List.modify_succ_cons]
      by_cases hp : (p.peerIP == a) = true
      · left
        simp only [List.find?_cons, hp] at h ⊢
        exact h
      · simp only [Bool.not_eq_true] at hp
        simp only [List.find?_cons, hp] at h ⊢
        exact ih n q h

/-- Giving a peer a CONNECTED socket takes no session away. -/
theorem sessionsKept_modify (l : List peer_info) (i : Nat) (sock : TCPSocket)
    (hs : sock.state = SockState.CONNECTED) :
    sessionsKept l (l.modify (fun p => { p with socket := some sock }) i) := by
  intro a h
  unfold connected at h ⊢
  rw [peerSocketSoft_eq] at h ⊢
  cases hf : l.find? (fun p => p.peerIP == a) with
  | none => simp [hf] at h
  | some q =>
    rcases find?_modify_socket a sock l i q hf with h1 | h1
    · rw [h1]; simpa [hf] using h
    · rw [h1]; simp [sessionOf, hs]

theorem find?_eraseIdx (a : IPAddress) :
    ∀ (l : List peer_info) (i : Nat) (p : peer_info), l[i]? = some p → (p.peerIP == a) = false →
      (l.eraseIdx i).find? (fun p => p.peerIP == a) = l.find? (fun p => p.peerIP == a) := by
  intro l
  induction l with
  | nil => intro i p h; simp at h
  | cons q qs ih =>
    intro i p h hp
    cases i with
    | zero =>
      simp only [List.getElem?_cons_zero, Option.some.injEq] at h
      subst h
      simp [List.find?_cons, hp]
    | succ n =>
      simp only [List.getElem?_cons_succ] at h
      rw [List.eraseIdx_cons_succ, List.find?_cons, List.find?_cons, ih n p h hp]

/-- Erasing a peer leaves the sessions to every other address as they are. -/
theorem connected_eraseIdx (l : List peer_info) (i : Nat) (p : peer_info) (a : IPAddress)
    (h : l[i]? = some p) (hp : (p.peerIP == a) = false) :
    connected (l.eraseIdx i) a = connected l a := by
  unfold connected
  rw [peerSocketSoft_eq, peerSocketSoft_eq, find?_eraseIdx a l i p h hp]

/-! ### What each entry point leaves alone -/

theorem updateFecListLoop_frame (x : Ext) (rt : RoutingTable) (ift : InterfaceTable)
    (nextHop : IPAddress) :
    ∀ (l : List fec_t) (s s1 : State), updateFecListLoop x rt ift nextHop l s = Except.ok s1 →
      sameSessionTables s s1 ∧ s1.fecList = s.fecList ∧ s1.maxFecid = s.maxFecid := by
  intro l
  induction l with
  | nil =>
    intro s s1 h
    simp only [updateFecListLoop, Except.ok.injEq] at h
    subst h
    exact ⟨sameSessionTables_refl _, rfl, rfl⟩
  | cons it rest ih =>
    intro s s1 h
    unfold updateFecListLoop at h
    split at h
    · exact ih _ _ h
    · split at h
      · cases h
      · rename_i sa hupd
        obtain ⟨h1, h2, h3⟩ := updateFecListEntry_frame _ _ _ _ _ _ hupd
        obtain ⟨h4, h5, h6⟩ := ih _ _ h
        exact ⟨sameSessionTables_trans h1 h4, h5.trans h2, h6.trans h3⟩

theorem updateFecList_frame (x : Ext) (rt : RoutingTable) (ift : InterfaceTable)
    (nextHop : IPAddress) (s s1 : State) (h : updateFecList x rt ift nextHop s = Except.ok s1) :
    sameSessionTables s s1 ∧ s1.fecList = s.fecList ∧ s1.maxFecid = s.maxFecid :=
  updateFecListLoop_frame x rt ift nextHop _ _ _ h

theorem rebuildFecList_frame (x : Ext) (rt : RoutingTable) (ift : InterfaceTable)
    (s s1 : State) (h : rebuildFecList x rt ift s = Except.ok s1) : sameSessionTables s s1 :=
  (rebuildFecList_shape x rt ift s s1 h).1

theorem processNOTIFICATION_ok (x : Ext) (rt : RoutingTable) (packet : LDPPacket)
    (isSelfMessage : Bool) (s s1 : State)
    (h : processNOTIFICATION x rt packet isSelfMessage s = Except.ok s1) :
    ∃ out, s1 = { s with sent := s.sent ++ out } := by
  unfold processNOTIFICATION at h
  dsimp only at h
  split at h
  · split at h
    · split at h
      · split at h
        · cases h; exact ⟨_, rfl⟩
        · split at h
          · cases h
          · cases h; exact ⟨_, rfl⟩
      · cases h; exact ⟨[], by simp⟩
    · cases h; exact ⟨[], by simp⟩
  · cases h

theorem processLABEL_REQUEST_frame (x : Ext) (rt : RoutingTable) (ift : InterfaceTable)
    (packet : LDPPacket) (s s1 : State)
    (h : processLABEL_REQUEST x rt ift packet s = Except.ok s1) :
    s1.myPeers = s.myPeers ∧ s1.fecList = s.fecList ∧ s1.fecDown = s.fecDown
      ∧ s1.maxFecid = s.maxFecid ∧ s1.timers = s.timers := by
  unfold processLABEL_REQUEST at h
  dsimp only at h
  split at h
  · split at h
    · cases h
    · cases h; exact ⟨rfl, rfl, rfl, rfl, rfl⟩
  · split at h
    · cases h
    · split at h
      · cases h
      · split at h
        · split at h
          · cases h
          · cases h; exact ⟨rfl, rfl, rfl, rfl, rfl⟩
        · split at h
          · split at h
            · cases h
            · cases h; exact ⟨rfl, rfl, rfl, rfl, rfl⟩
          · cases h; exact ⟨rfl, rfl, rfl, rfl, rfl⟩

theorem processLABEL_RELEASE_frame (packet : LDPPacket) (s s1 : State)
    (h : processLABEL_RELEASE packet s = Except.ok s1) :
    s1.myPeers = s.myPeers ∧ s1.fecList = s.fecList ∧ s1.fecDown = s.fecDown
      ∧ s1.pending = s.pending ∧ s1.maxFecid = s.maxFecid ∧ s1.timers = s.timers
      ∧ s1.sent = s.sent := by
  unfold processLABEL_RELEASE at h
  dsimp only at h
  split at h
  · cases h
  · split at h
    · cases h; exact ⟨rfl, rfl, rfl, rfl, rfl, rfl, rfl⟩
    · split at h
      · cases h; exact ⟨rfl, rfl, rfl, rfl, rfl, rfl, rfl⟩
      · split at h
        · cases h; exact ⟨rfl, rfl, rfl, rfl, rfl, rfl, rfl⟩
        · cases h; exact ⟨rfl, rfl, rfl, rfl, rfl, rfl, rfl⟩

theorem processLABEL_WITHDRAW_frame (x : Ext) (rt : RoutingTable) (ift : InterfaceTable)
    (packet : LDPPacket) (s s1 : State)
    (h : processLABEL_WITHDRAW x rt ift packet s = Except.ok s1) :
    s1.myPeers = s.myPeers ∧ s1.fecList = s.fecList ∧ s1.pending = s.pending
      ∧ s1.maxFecid = s.maxFecid ∧ s1.timers = s.timers
      ∧ (s1.fecDown = s.fecDown
          ∨ ∃ fecid peer, s1.fecDown = eraseFecBind s.fecDown fecid peer) := by
  unfold processLABEL_WITHDRAW at h
  dsimp only at h
  split at h
  · cases h
  · split at h
    · cases h; exact ⟨rfl, rfl, rfl, rfl, rfl, Or.inl rfl⟩
    · rename_i it _
      split at h
      · cases h; exact ⟨rfl, rfl, rfl, rfl, rfl, Or.inl rfl⟩
      · split at h
        · cases h; exact ⟨rfl, rfl, rfl, rfl, rfl, Or.inl rfl⟩
        · split at h
          · cases h
          · obtain ⟨⟨h1, h2, h3, h4⟩, h5, h6⟩ := updateFecListEntry_frame _ _ _ _ _ _ h
            exact ⟨h1, h5, h3, h6, h4, Or.inr ⟨it.fecid, packet.senderAddress, h2⟩⟩

theorem processLABEL_MAPPING_frame (x : Ext) (rt : RoutingTable) (ift : InterfaceTable)
    (packet : LDPPacket) (s s1 : State)
    (h : processLABEL_MAPPING x rt ift packet s = Except.ok s1) :
    s1.myPeers = s.myPeers ∧ s1.fecList = s.fecList
      ∧ s1.maxFecid = s.maxFecid ∧ s1.timers = s.timers
      ∧ ∃ fecid, findFecBind s.fecDown fecid packet.senderAddress = none
          ∧ s1.fecDown = s.fecDown ++ [⟨fecid, packet.senderAddress, packet.label⟩] := by
  unfold processLABEL_MAPPING at h
  dsimp only at h
  split at h
  · cases h
  · split at h
    · cases h
    · rename_i it _
      split at h
      · cases h
      · rename_i hnone
        split at h
        · cases h
        · cases h
          exact ⟨rfl, rfl, rfl, rfl, it.fecid, hnone, rfl⟩

theorem processLDPPacketFromTCP_frame (x : Ext) (rt : RoutingTable) (ift : InterfaceTable)
    (pkt : LDPPacket) (s s1 : State)
    (h : processLDPPacketFromTCP x rt ift pkt s = Except.ok s1) :
    s1.myPeers = s.myPeers ∧ s1.fecList = s.fecList ∧ s1.maxFecid = s.maxFecid
      ∧ s1.timers = s.timers ∧ downstreamChange s s1 pkt := by
  unfold processLDPPacketFromTCP at h
  split at h
  · cases h
  · cases h
  · cases h
  · obtain ⟨h1, h2, h3, h4, h5⟩ := processLABEL_MAPPING_frame _ _ _ _ _ _ h
    exact ⟨h1, h2, h3, h4, Or.inr (Or.inr h5)⟩
  · obtain ⟨h1, h2, h3, h4, h5⟩ := processLABEL_REQUEST_frame _ _ _ _ _ _ h
    exact ⟨h1, h2, h4, h5, Or.inl h3⟩
  · obtain ⟨h1, h2, h3, h4, h5, h6⟩ := processLABEL_WITHDRAW_frame _ _ _ _ _ _ h
    refine ⟨h1, h2, h4, h5, ?_⟩
    rcases h6 with h6 | h6
    · exact Or.inl h6
    · exact Or.inr (Or.inl h6)
  · obtain ⟨h1, h2, h3, h4, h5, h6, _⟩ := processLABEL_RELEASE_frame _ _ _ h
    exact ⟨h1, h2, h5, h6, Or.inl h3⟩
  · obtain ⟨out, rfl⟩ := processNOTIFICATION_ok _ _ _ _ _ _ h
    exact ⟨rfl, rfl, rfl, rfl, Or.inl rfl⟩
  · cases h

theorem processHelloTimeout_ok (x : Ext) (rt : RoutingTable) (ift : InterfaceTable) (msg : Nat)
    (s s1 : State) (h : processHelloTimeout x rt ift msg s = Except.ok s1) :
    ∃ i p sa, s.myPeers[i]? = some p
      ∧ updateFecList x rt ift p.peerIP
          { s with myPeers := s.myPeers.eraseIdx i,
                   fecDown := s.fecDown.filter (fun dit => dit.peer != p.peerIP),
                   fecUp := s.fecUp.filter (fun uit => uit.peer != p.peerIP) } = Except.ok sa
      ∧ s1 = { sa with sent := sa.sent ++
            [Output.tedLinkState rt.routerId p.peerIP false,
             Output.announceLinkChange rt.routerId p.peerIP,
             Output.rebuildRoutingTable] } := by
  unfold processHelloTimeout at h
  split at h
  · cases h
  · rename_i i _
    split at h
    · cases h
    · rename_i p hp
      dsimp only at h
      split at h
      · cases h
      · split at h
        · cases h
        · rename_i sa hupd
          cases h
          exact ⟨i, p, sa, hp, hupd, rfl⟩

theorem socketProcessMessage_summary (x : Ext) (rt : RoutingTable) (ift : InterfaceTable)
    (i : Nat) (sock : TCPSocket) (kind : TcpIndication) (s s1 : State)
    (h : socketProcessMessage x rt ift i sock kind s = Except.ok s1) :
    sessionsKept s.myPeers s1.myPeers
    ∧ (s1.fecDown = s.fecDown
        ∨ (∃ fecid peer, s1.fecDown = eraseFecBind s.fecDown fecid peer)
        ∨ (∃ pkt fecid, kind = TcpIndication.DATA pkt
              ∧ findFecBind s.fecDown fecid pkt.senderAddress = none
              ∧ s1.fecDown = s.fecDown ++ [⟨fecid, pkt.senderAddress, pkt.label⟩])) := by
  unfold socketProcessMessage at h
  split at h
  · unfold socketEstablished at h
    split at h
    · cases h
    · obtain ⟨⟨h1, h2, _, _⟩, _, _⟩ := updateFecList_frame _ _ _ _ _ _ h
      refine ⟨?_, Or.inl h2⟩
      rw [h1]
      exact sessionsKept_modify s.myPeers i { sock with state := SockState.CONNECTED } rfl
  · rename_i pkt
    obtain ⟨h1, _, _, _, h5⟩ := processLDPPacketFromTCP_frame _ _ _ _ _ _ h
    refine ⟨by rw [h1]; exact sessionsKept_refl _, ?_⟩
    rcases h5 with h5 | h5 | ⟨fecid, h5, h6⟩
    · exact Or.inl h5
    · exact Or.inr (Or.inl h5)
    · exact Or.inr (Or.inr ⟨pkt, fecid, rfl, h5, h6⟩)
  · cases h
  · cases h
  · cases h

theorem handle_summary (x : Ext) (rt : RoutingTable) (ift : InterfaceTable) (ev : Event)
    (s s1 : State) (h : handle x rt ift ev s = Except.ok s1) : stepSummary s s1 ev := by
  cases ev with
  | routingTableChanged =>
    obtain ⟨h1, h2, _, _⟩ := rebuildFecList_frame x rt ift s s1 h
    exact Or.inl ⟨by rw [h1]; exact sessionsKept_refl _, Or.inl h2⟩
  | sendHello allRouters =>
    simp only [handle, sendHello, Except.ok.injEq] at h
    subst h
    exact Or.inl ⟨sessionsKept_refl _, Or.inl rfl⟩
  | helloTimeout msg =>
    obtain ⟨i, p, sa, hp, hupd, rfl⟩ := processHelloTimeout_ok x rt ift msg s s1 h
    obtain ⟨⟨h1, h2, _, _⟩, _, _⟩ := updateFecList_frame _ _ _ _ _ _ hupd
    exact Or.inr ⟨i, p, hp, h1, h2⟩
  | notifyRetry pkt =>
    obtain ⟨out, rfl⟩ := processNOTIFICATION_ok _ _ _ _ _ _ h
    exact Or.inl ⟨sessionsKept_refl _, Or.inl rfl⟩
  | hello msg =>
    simp only [handle, Except.ok.injEq] at h
    subst h
    unfold processLDPHello
    dsimp only
    split
    · exact Or.inl ⟨sessionsKept_refl _, Or.inl rfl⟩
    · split
      · split
        · exact Or.inl ⟨sessionsKept_refl _, Or.inl rfl⟩
        · exact Or.inl ⟨sessionsKept_refl _, Or.inl rfl⟩
      · exact Or.inl ⟨sessionsKept_append _ _, Or.inl rfl⟩
  | tcp msg =>
    simp only [handle] at h
    unfold processMessageFromTCP at h
    split at h
    · rename_i i sock _
      obtain ⟨h1, h2⟩ := socketProcessMessage_summary _ _ _ _ _ _ _ _ h
      refine Or.inl ⟨h1, ?_⟩
      rcases h2 with h2 | h2 | ⟨pkt, fecid, hk, h3, h4⟩
      · exact Or.inl h2
      · exact Or.inr (Or.inl h2)
      · exact Or.inr (Or.inr ⟨msg, pkt, fecid, rfl, hk, h3, h4⟩)
    · dsimp only at h
      split at h
      · cases h; exact Or.inl ⟨sessionsKept_refl _, Or.inl rfl⟩
      · rename_i i _
        split at h
        · cases h; exact Or.inl ⟨sessionsKept_refl _, Or.inl rfl⟩
        · split at h
          · cases h; exact Or.inl ⟨sessionsKept_refl _, Or.inl rfl⟩
          · obtain ⟨h1, h2⟩ := socketProcessMessage_summary _ _ _ _ _ _ _ _ h
            refine Or.inl ⟨sessionsKept_trans
              (sessionsKept_modify s.myPeers i { state := SockState.CONNECTED, yourPtr := i } rfl)
              h1, ?_⟩
            rcases h2 with h2 | h2 | ⟨pkt, fecid, hk, h3, h4⟩
            · exact Or.inl h2
            · exact Or.inr (Or.inl h2)
            · exact Or.inr (Or.inr ⟨msg, pkt, fecid, rfl, hk, h3, h4⟩)

theorem reachable_run (x : Ext) :
    ∀ (evs : List (RoutingTable × InterfaceTable × Event)) (s s1 : State),
      Reachable x s → run x evs s = Except.ok s1 → Reachable x s1 := by
  intro evs
  induction evs with
  | nil =>
    intro s s1 hs h
    simp only [run, Except.ok.injEq] at h
    subst h
    exact hs
  | cons e rest ih =>
    intro s s1 hs h
    obtain ⟨rt, ift, ev⟩ := e
    unfold run at h
    split at h
    · cases h
    · rename_i sa hstep
      exact ih sa s1 (Reachable.step rt ift ev s sa hs hstep) h

/-! ### C6: at most one downstream binding per FEC and peer -/

theorem findFecBind_none_key (l : List fec_bind_t) (fecid : Int) (peer : IPAddress)
    (h : findFecBind l fecid peer = none) : (fecid, peer) ∉ l.map bindKey := by
  unfold findFecBind at h
  rw [List.find?_eq_none] at h
  intro hmem
  obtain ⟨b, hb, hk⟩ := List.mem_map.mp hmem
  have := h b hb
  simp only [bindKey, Prod.mk.injEq] at hk
  simp [hk.1, hk.2] at this

theorem stepSummary_nodup (s s1 : State) (ev : Event) (h : stepSummary s s1 ev)
    (hn : (s.fecDown.map bindKey).Nodup) : (s1.fecDown.map bindKey).Nodup := by
  rcases h with ⟨_, h | ⟨fecid, peer, h⟩ | ⟨msg, pkt, fecid, _, _, hnone, h⟩⟩ | ⟨i, p, _, _, h⟩
  · rw [h]; exact hn
  · rw [h]
    exact ((List.eraseP_sublist _).map bindKey).nodup hn
  · rw [h, List.map_append]
    refine List.Nodup.append hn (by simp) ?_
    intro k hk hk1
    simp only [List.map_cons, List.map_nil, List.mem_singleton, bindKey] at hk1
    subst hk1
    exact findFecBind_none_key _ _ _ hnone hk
  · rw [h]
    exact ((List.filter_sublist _).map bindKey).nodup hn

/-- C6. In every state reached from the empty module by events that do not
abort (routing table changes, hellos, hello timeouts, session establishment,
and LABEL_MAPPING, LABEL_WITHDRAW, LABEL_REQUEST, LABEL_RELEASE and
NOTIFICATION packets), `fecDown` holds at most one binding per pair
(FEC id, peer): the pairs of its bindings are pairwise distinct. -/
theorem downstream_binding_unique (x : Ext) (s : State) (h : Reachable x s) :
    (s.fecDown.map bindKey).Nodup := by
  induction h with
  | empty => simp [State.empty]
  | init rt ift s hinit =>
    obtain ⟨_, h2, _, _⟩ := rebuildFecList_frame x rt ift _ s hinit
    rw [h2]
    simp [State.empty]
  | step rt ift ev s s1 _ hstep ih =>
    exact stepSummary_nodup s s1 ev (handle_summary x rt ift ev s s1 hstep) ih

theorem run_afterRun (x : Ext) (evs : List (RoutingTable × InterfaceTable × Event))
    (h : (run x evs State.empty).toBool = true) :
    run x evs State.empty = Except.ok (afterRun x evs) := by
  unfold afterRun
  cases hr : run x evs State.empty with
  | error e => simp [hr, Except.toBool] at h
  | ok s => rfl

theorem reachable_afterRun (x : Ext) (evs : List (RoutingTable × InterfaceTable × Event))
    (h : (run x evs State.empty).toBool = true) : Reachable x (afterRun x evs) :=
  reachable_run x evs _ _ Reachable.empty (run_afterRun x evs h)

theorem run_lspUp : run ipv4Ext lspUp State.empty = Except.ok (afterRun ipv4Ext lspUp) :=
  run_afterRun ipv4Ext lspUp (by decide)

theorem downstream_binding_unique_witness :
    Reachable ipv4Ext (afterRun ipv4Ext lspUp)
    ∧ (afterRun ipv4Ext lspUp).fecDown = [⟨1, 167772163, 100⟩]
    ∧ ((afterRun ipv4Ext lspUp).fecDown.map bindKey).Nodup :=
  ⟨reachable_run ipv4Ext lspUp _ _ Reachable.empty run_lspUp, rfl,
   downstream_binding_unique ipv4Ext _
     (reachable_run ipv4Ext lspUp _ _ Reachable.empty run_lspUp)⟩

/-! ### C7, C8, C9: upstream bindings and the LIB on concrete runs -/

/-- C7 fails on the code. Router 10.0.0.1 has sessions to 10.0.0.2 and
10.0.0.3 and FEC 1 for 10.2.0.0/16 by way of 10.0.0.3. The peer 10.0.0.2
requests the FEC twice while no downstream mapping is there: both requests
are put in `pending`, since `processLABEL_REQUEST` only asserts that `fecUp`
has no binding. The LABEL_MAPPING of 10.0.0.3 then answers both, and `fecUp`
holds two bindings for (FEC 1, 10.0.0.2). -/
theorem upstream_binding_duplicated :
    Reachable ipv4Ext (afterRun ipv4Ext requestedTwice)
    ∧ run ipv4Ext requestedTwice State.empty = Except.ok (afterRun ipv4Ext requestedTwice)
    ∧ (afterRun ipv4Ext requestedTwice).fecUp = [⟨1, 167772162, 1⟩, ⟨1, 167772162, 2⟩]
    ∧ ¬ ((afterRun ipv4Ext requestedTwice).fecUp.map bindKey).Nodup :=
  ⟨reachable_afterRun ipv4Ext _ (by decide), run_afterRun ipv4Ext _ (by decide), rfl,
   by decide⟩

/-- C8 fails on the code. From the state after `lspUp` (upstream binding
(FEC 1, 10.0.0.2, label 1) with its LIB entry), a routing table without the
route deprecates FEC 1: `rebuildFecList` sends the LABEL_WITHDRAW and removes
the LIB entry of label 1, but leaves the binding in `fecUp`. -/
theorem upstream_binding_without_lib_entry :
    Reachable ipv4Ext (afterRun ipv4Ext (lspUp ++ [(rtNone, [], Event.routingTableChanged)]))
    ∧ (afterRun ipv4Ext lspUp).fecUp = [⟨1, 167772162, 1⟩]
    ∧ (afterRun ipv4Ext lspUp).lt.installed 1 = true
    ∧ rebuildFecList ipv4Ext rtNone [] (afterRun ipv4Ext lspUp)
        = Except.ok (afterRun ipv4Ext (lspUp ++ [(rtNone, [], Event.routingTableChanged)]))
    ∧ (afterRun ipv4Ext (lspUp ++ [(rtNone, [], Event.routingTableChanged)])).fecList = []
    ∧ (afterRun ipv4Ext (lspUp ++ [(rtNone, [], Event.routingTableChanged)])).fecUp
        = [⟨1, 167772162, 1⟩]
    ∧ (afterRun ipv4Ext (lspUp ++ [(rtNone, [], Event.routingTableChanged)])).lt.installed 1
        = false :=
  ⟨reachable_afterRun ipv4Ext _ (by decide), rfl, rfl, rfl, rfl, rfl, rfl⟩

/-- C9 fails on the code. From the state after `lspUp` (upstream binding
(FEC 1, 10.0.0.2, label 1) with its LIB entry): the hello timeout of
10.0.0.2 erases the binding from `fecUp` and leaves the LIB entry of label 1;
so does the LABEL_WITHDRAW of 10.0.0.3, through the withdraw branch of
`updateFecListEntry`. A LABEL_RELEASE of 10.0.0.2 for label 1 removes both. -/
theorem lib_entry_outlives_binding :
    (afterRun ipv4Ext lspUp).fecUp = [⟨1, 167772162, 1⟩]
    ∧ (afterRun ipv4Ext lspUp).lt.installed 1 = true
    ∧ (∃ s1, processHelloTimeout ipv4Ext rtVia [] 0 (afterRun ipv4Ext lspUp) = Except.ok s1
        ∧ s1.fecUp = [] ∧ s1.lt.installed 1 = true)
    ∧ (∃ s1, processLABEL_WITHDRAW ipv4Ext rtVia [] withdrawFromDown (afterRun ipv4Ext lspUp)
          = Except.ok s1
        ∧ s1.fecUp = [] ∧ s1.lt.installed 1 = true)
    ∧ (∃ s1, processLABEL_RELEASE
          { requestFromUp with type := LDPType.LABEL_RELEASE, label := 1 }
          (afterRun ipv4Ext lspUp) = Except.ok s1
        ∧ s1.fecUp = [] ∧ s1.lt.installed 1 = false) :=
  ⟨rfl, rfl, ⟨_, rfl, rfl, rfl⟩, ⟨_, rfl, rfl, rfl⟩, ⟨_, rfl, rfl, rfl⟩⟩

/-! ### C10: a FEC with a downstream binding by way of its next hop is not egress -/

theorem sameSessionTables_sessions {s s1 : State} (h : sameSessionTables s s1)
    (hj : downstreamFromSessions s) : downstreamFromSessions s1 := by
  obtain ⟨h1, h2, _, _⟩ := h
  intro b hb
  rw [h1]
  rw [h2] at hb
  exact hj b hb

theorem stepSummary_sessions (s s1 : State) (ev : Event) (h : stepSummary s s1 ev)
    (hfs : fromSession s ev) (hj : downstreamFromSessions s) : downstreamFromSessions s1 := by
  rcases h with ⟨hk, h | ⟨fecid, peer, h⟩ | ⟨msg, pkt, fecid, hev, hkind, _, h⟩⟩ | ⟨i, p, hp, h1, h⟩
  · intro b hb
    rw [h] at hb
    exact hk _ (hj b hb)
  · intro b hb
    rw [h] at hb
    exact hk _ (hj b (List.mem_of_mem_eraseP hb))
  · intro b hb
    rw [h] at hb
    rcases List.mem_append.mp hb with hb | hb
    · exact hk _ (hj b hb)
    · simp only [List.mem_singleton] at hb
      subst hb
      exact hk _ (hfs msg pkt hev hkind)
  · intro b hb
    rw [h] at hb
    obtain ⟨hb1, hb2⟩ := List.mem_filter.mp hb
    rw [h1, connected_eraseIdx _ i p b.peer hp]
    · exact hj b hb1
    · simp only [bne_iff_ne, ne_eq] at hb2
      simp only [beq_eq_false_iff_ne, ne_eq]
      exact fun he => hb2 he.symm

theorem downstream_from_sessions (x : Ext) (s : State) (h : ReachableFromSessions x s) :
    downstreamFromSessions s := by
  induction h with
  | empty => intro b hb; simp [State.empty] at hb
  | init rt ift s hinit =>
    obtain ⟨_, h2, _, _⟩ := rebuildFecList_frame x rt ift _ s hinit
    intro b hb
    rw [h2] at hb
    simp [State.empty] at hb
  | step rt ift ev s s1 _ hfs hstep ih =>
    exact stepSummary_sessions s s1 ev (handle_summary x rt ift ev s s1 hstep) hfs ih

theorem sendToPeer_error (myPeers : List peer_info) (dest : IPAddress) (msg : LDPPacket)
    (e : Abort) (h : sendToPeer myPeers dest msg = Except.error e) : e = Abort.noSession := by
  unfold sendToPeer at h
  split at h
  · cases h; rfl
  · cases h

theorem adjustUpstream_error (x : Ext) (rt : RoutingTable) (ift : InterfaceTable)
    (myPeers : List peer_info) (oldItem : fec_t) (ER : Bool) (dit : Option fec_bind_t) :
    ∀ (l : List fec_bind_t) (lt : LIBTable) (e : Abort),
      adjustUpstream x rt ift myPeers oldItem ER dit l lt = Except.error e →
      e = Abort.noSession := by
  intro l
  induction l with
  | nil => intro lt e h; simp [adjustUpstream] at h
  | cons uit rest ih =>
    intro lt e h
    unfold adjustUpstream at h
    dsimp only at h
    split at h
    · split at h
      · rename_i h1; cases h; exact ih _ _ h1
      · cases h
    · split at h
      · split at h
        · rename_i h1; cases h; exact ih _ _ h1
        · cases h
      · split at h
        · split at h
          · rename_i h1; cases h; exact ih _ _ h1
          · cases h
        · split at h
          · rename_i h1; cases h; exact sendToPeer_error _ _ _ _ h1
          · split at h
            · rename_i h1; cases h; exact ih _ _ h1
            · cases h

/-- When every downstream binding comes from a peer with a session, the
assertion of `updateFecListEntry` holds for every FEC. -/
theorem egress_assertion (s : State) (hj : downstreamFromSessions s) (fecid : Int)
    (nextHop : IPAddress) :
    ((peerSocketSoft s.myPeers nextHop).isNone
      && (findFecBind s.fecDown fecid nextHop).isSome) = false := by
  cases hd : findFecBind s.fecDown fecid nextHop with
  | none => simp
  | some d =>
    have hmem := List.mem_of_find?_eq_some hd
    have hkey := List.find?_some hd
    simp only [Bool.and_eq_true, beq_iff_eq] at hkey
    have hc := hj d hmem
    rw [hkey.2] at hc
    unfold connected at hc
    cases hp : peerSocketSoft s.myPeers nextHop with
    | none => simp [hp] at hc
    | some sk => simp

theorem updateFecListEntry_error (x : Ext) (rt : RoutingTable) (ift : InterfaceTable)
    (f : fec_t) (s : State) (hj : downstreamFromSessions s) (e : Abort)
    (h : updateFecListEntry x rt ift f s = Except.error e) : e = Abort.noSession := by
  unfold updateFecListEntry at h
  dsimp only at h
  rw [egress_assertion s hj] at h
  simp only [Bool.false_eq_true, ↓reduceIte] at h
  split at h
  · rename_i h1; cases h; exact adjustUpstream_error _ _ _ _ _ _ _ _ _ _ h1
  · split at h
    · split at h
      · rename_i h1; cases h; exact sendToPeer_error _ _ _ _ h1
      · cases h
    · cases h

theorem updateFecListLoop_error (x : Ext) (rt : RoutingTable) (ift : InterfaceTable)
    (nextHop : IPAddress) :
    ∀ (l : List fec_t) (s : State), downstreamFromSessions s → ∀ e,
      updateFecListLoop x rt ift nextHop l s = Except.error e → e = Abort.noSession := by
  intro l
  induction l with
  | nil => intro s hj e h; simp [updateFecListLoop] at h
  | cons it rest ih =>
    intro s hj e h
    unfold updateFecListLoop at h
    split at h
    · exact ih s hj e h
    · split at h
      · rename_i h1; cases h; exact updateFecListEntry_error _ _ _ _ _ hj _ h1
      · rename_i sa hupd
        exact ih sa (sameSessionTables_sessions (updateFecListEntry_frame _ _ _ _ _ _ hupd).1 hj) e h

theorem rebuildRoutes_error (x : Ext) (rt : RoutingTable) (ift : InterfaceTable) :
    ∀ (es : List RoutingEntry) (old : List fec_t) (s : State), downstreamFromSessions s →
      ∀ e, rebuildRoutes x rt ift es old s = Except.error e → e ≠ Abort.assertEgress := by
  intro es
  induction es with
  | nil => intro old s hj e h; simp [rebuildRoutes] at h
  | cons re rest ih =>
    intro old s hj e h
    unfold rebuildRoutes at h
    split at h
    · exact ih _ _ hj e h
    · dsimp only at h
      split at h
      · cases h; decide
      · split at h
        · split at h
          · rename_i h1
            cases h
            have hj1 : downstreamFromSessions { s with maxFecid := nextFecid s.maxFecid } := hj
            rw [updateFecListEntry_error _ _ _ _ _ hj1 _ h1]
            decide
          · rename_i sa hupd
            have hj1 : downstreamFromSessions { s with maxFecid := nextFecid s.maxFecid } := hj
            have hj2 := sameSessionTables_sessions (updateFecListEntry_frame _ _ _ _ _ _ hupd).1 hj1
            exact ih _ _ (by exact hj2) e h
        · split at h
          · split at h
            · rename_i h1
              cases h
              rw [updateFecListEntry_error _ _ _ _ _ hj _ h1]
              decide
            · rename_i sa hupd
              have hj2 := sameSessionTables_sessions (updateFecListEntry_frame _ _ _ _ _ _ hupd).1 hj
              exact ih _ _ (by exact hj2) e h
          · exact ih _ _ (by exact hj) e h

theorem releaseDownstream_error (rt : RoutingTable) (myPeers : List peer_info) (it : fec_t) :
    ∀ (l : List fec_bind_t) (e : Abort),
      releaseDownstream rt myPeers it l = Except.error e → e = Abort.noSession := by
  intro l
  induction l with
  | nil => intro e h; simp [releaseDownstream] at h
  | cons dit rest ih =>
    intro e h
    unfold releaseDownstream at h
    split at h
    · exact ih e h
    · split at h
      · rename_i h1; cases h; exact sendToPeer_error _ _ _ _ h1
      · split at h
        · rename_i h1; cases h; exact ih _ h1
        · cases h

theorem withdrawUpstream_error (rt : RoutingTable) (myPeers : List peer_info) (it : fec_t) :
    ∀ (l : List fec_bind_t) (lt : LIBTable) (e : Abort),
      withdrawUpstream rt myPeers it l lt = Except.error e → e = Abort.noSession := by
  intro l
  induction l with
  | nil => intro lt e h; simp [withdrawUpstream] at h
  | cons uit rest ih =>
    intro lt e h
    unfold withdrawUpstream at h
    split at h
    · exact ih lt e h
    · split at h
      · rename_i h1; cases h; exact sendToPeer_error _ _ _ _ h1
      · split at h
        · rename_i h1; cases h; exact ih _ _ h1
        · cases h

theorem removeDeprecated_error (rt : RoutingTable) :
    ∀ (old : List fec_t) (s : State) (e : Abort),
      removeDeprecated rt old s = Except.error e → e = Abort.noSession := by
  intro old
  induction old with
  | nil => intro s e h; simp [removeDeprecated] at h
  | cons it rest ih =>
    intro s e h
    unfold removeDeprecated at h
    split at h
    · rename_i h1; cases h; exact releaseDownstream_error _ _ _ _ _ h1
    · split at h
      · rename_i h1; cases h; exact withdrawUpstream_error _ _ _ _ _ _ h1
      · exact ih _ e h

theorem rebuildFecList_error (x : Ext) (rt : RoutingTable) (ift : InterfaceTable) (s : State)
    (hj : downstreamFromSessions s) (e : Abort)
    (h : rebuildFecList x rt ift s = Except.error e) : e ≠ Abort.assertEgress := by
  unfold rebuildFecList at h
  split at h
  · rename_i h1
    cases h
    have hj1 : downstreamFromSessions { s with fecList := [] } := hj
    exact rebuildRoutes_error _ _ _ _ _ _ hj1 _ h1
  · dsimp only at h
    split at h
    · rename_i h1
      cases h
      rw [removeDeprecated_error _ _ _ _ h1]
      decide
    · cases h

/-- The peer table and `fecDown` after the purge at the head of
`processHelloTimeout` still have every downstream binding from a session. -/
theorem sessions_after_purge (s : State) (i : Nat) (p : peer_info)
    (hp : s.myPeers[i]? = some p) (hj : downstreamFromSessions s) :
    downstreamFromSessions
      { s with myPeers := s.myPeers.eraseIdx i,
               fecDown := s.fecDown.filter (fun dit => dit.peer != p.peerIP),
               fecUp := s.fecUp.filter (fun uit => uit.peer != p.peerIP) } := by
  intro b hb
  obtain ⟨hb1, hb2⟩ := List.mem_filter.mp hb
  show connected (s.myPeers.eraseIdx i) b.peer = true
  rw [connected_eraseIdx _ i p b.peer hp]
  · exact hj b hb1
  · simp only [bne_iff_ne, ne_eq] at hb2
    simp only [beq_eq_false_iff_ne, ne_eq]
    exact fun he => hb2 he.symm

theorem processHelloTimeout_error (x : Ext) (rt : RoutingTable) (ift : InterfaceTable)
    (msg : Nat) (s : State) (hj : downstreamFromSessions s) (e : Abort)
    (h : processHelloTimeout x rt ift msg s = Except.error e) : e ≠ Abort.assertEgress := by
  unfold processHelloTimeout at h
  split at h
  · cases h; decide
  · rename_i i _
    split at h
    · cases h; decide
    · rename_i p hp
      dsimp only at h
      split at h
      · cases h; decide
      · split at h
        · rename_i h1
          cases h
          rw [updateFecListLoop_error _ _ _ _ _ _ (sessions_after_purge s i p hp hj) _ h1]
          decide
        · cases h

theorem processNOTIFICATION_error (x : Ext) (rt : RoutingTable) (packet : LDPPacket)
    (isSelfMessage : Bool) (s : State) (e : Abort)
    (h : processNOTIFICATION x rt packet isSelfMessage s = Except.error e) :
    e ≠ Abort.assertEgress := by
  unfold processNOTIFICATION at h
  dsimp only at h
  split at h
  · split at h
    · split at h
      · split at h
        · cases h
        · split at h
          · rename_i h1; cases h; rw [sendToPeer_error _ _ _ _ h1]; decide
          · cases h
      · cases h
    · cases h
  · cases h; decide

theorem processLABEL_REQUEST_error (x : Ext) (rt : RoutingTable) (ift : InterfaceTable)
    (packet : LDPPacket) (s : State) (hj : downstreamFromSessions s) (e : Abort)
    (h : processLABEL_REQUEST x rt ift packet s = Except.error e) :
    e ≠ Abort.assertEgress := by
  unfold processLABEL_REQUEST at h
  dsimp only at h
  split at h
  · split at h
    · rename_i h1; cases h; rw [sendToPeer_error _ _ _ _ h1]; decide
    · cases h
  · split at h
    · cases h; decide
    · rw [egress_assertion s hj] at h
      simp only [Bool.false_eq_true, ↓reduceIte] at h
      split at h
      · split at h
        · rename_i h1; cases h; rw [sendToPeer_error _ _ _ _ h1]; decide
        · cases h
      · split at h
        · split at h
          · rename_i h1; cases h; rw [sendToPeer_error _ _ _ _ h1]; decide
          · cases h
        · cases h

theorem processLABEL_RELEASE_error (packet : LDPPacket) (s : State) (e : Abort)
    (h : processLABEL_RELEASE packet s = Except.error e) : e = Abort.assertLabel := by
  unfold processLABEL_RELEASE at h
  dsimp only at h
  split at h
  · cases h; rfl
  · split at h
    · cases h
    · split at h
      · cases h
      · split at h <;> cases h

theorem processLABEL_WITHDRAW_error (x : Ext) (rt : RoutingTable) (ift : InterfaceTable)
    (packet : LDPPacket) (s : State) (hj : downstreamFromSessions s) (e : Abort)
    (h : processLABEL_WITHDRAW x rt ift packet s = Except.error e) :
    e ≠ Abort.assertEgress := by
  unfold processLABEL_WITHDRAW at h
  dsimp only at h
  split at h
  · cases h; decide
  · split at h
    · cases h
    · rename_i it _
      split at h
      · cases h
      · split at h
        · cases h
        · split at h
          · rename_i h1; cases h; rw [sendToPeer_error _ _ _ _ h1]; decide
          · rename_i m _
            have hj1 : downstreamFromSessions
                { s with fecDown := eraseFecBind s.fecDown it.fecid packet.senderAddress,
                         sent := s.sent ++ [m] } := by
              intro b hb
              exact hj b (List.mem_of_mem_eraseP hb)
            rw [updateFecListEntry_error _ _ _ _ _ hj1 _ h]
            decide

theorem answerPending_error (x : Ext) (rt : RoutingTable) (ift : InterfaceTable)
    (myPeers : List peer_info) (it : fec_t) (fromIP : IPAddress) (label : Int) :
    ∀ (l : List pending_req_t) (lt : LIBTable) (e : Abort),
      answerPending x rt ift myPeers it fromIP label l lt = Except.error e →
      e = Abort.noSession := by
  intro l
  induction l with
  | nil => intro lt e h; simp [answerPending] at h
  | cons pit rest ih =>
    intro lt e h
    unfold answerPending at h
    dsimp only at h
    split at h
    · split at h
      · rename_i h1; cases h; exact ih _ _ h1
      · cases h
    · split at h
      · rename_i h1; cases h; exact sendToPeer_error _ _ _ _ h1
      · split at h
        · rename_i h1; cases h; exact ih _ _ h1
        · cases h

theorem processLABEL_MAPPING_error (x : Ext) (rt : RoutingTable) (ift : InterfaceTable)
    (packet : LDPPacket) (s : State) (e : Abort)
    (h : processLABEL_MAPPING x rt ift packet s = Except.error e) :
    e ≠ Abort.assertEgress := by
  unfold processLABEL_MAPPING at h
  dsimp only at h
  split at h
  · cases h; decide
  · split at h
    · cases h; decide
    · split at h
      · cases h; decide
      · split at h
        · rename_i h1; cases h; rw [answerPending_error _ _ _ _ _ _ _ _ _ _ h1]; decide
        · cases h

theorem processLDPPacketFromTCP_error (x : Ext) (rt : RoutingTable) (ift : InterfaceTable)
    (pkt : LDPPacket) (s : State) (hj : downstreamFromSessions s) (e : Abort)
    (h : processLDPPacketFromTCP x rt ift pkt s = Except.error e) :
    e ≠ Abort.assertEgress := by
  unfold processLDPPacketFromTCP at h
  split at h
  · cases h; decide
  · cases h; decide
  · cases h; decide
  · exact processLABEL_MAPPING_error _ _ _ _ _ _ h
  · exact processLABEL_REQUEST_error _ _ _ _ _ hj _ h
  · exact processLABEL_WITHDRAW_error _ _ _ _ _ hj _ h
  · rw [processLABEL_RELEASE_error _ _ _ h]; decide
  · exact processNOTIFICATION_error _ _ _ _ _ _ h
  · cases h; decide

theorem sessions_of_kept (s s1 : State) (hk : sessionsKept s.myPeers s1.myPeers)
    (hd : s1.fecDown = s.fecDown) (hj : downstreamFromSessions s) :
    downstreamFromSessions s1 := by
  intro b hb
  rw [hd] at hb
  exact hk _ (hj b hb)

theorem socketProcessMessage_error (x : Ext) (rt : RoutingTable) (ift : InterfaceTable)
    (i : Nat) (sock : TCPSocket) (kind : TcpIndication) (s : State)
    (hj : downstreamFromSessions s) (e : Abort)
    (h : socketProcessMessage x rt ift i sock kind s = Except.error e) :
    e ≠ Abort.assertEgress := by
  unfold socketProcessMessage at h
  split at h
  · unfold socketEstablished at h
    split at h
    · cases h; decide
    · have hk := sessionsKept_modify s.myPeers i { sock with state := SockState.CONNECTED } rfl
      have h1 := fun hjx => updateFecListLoop_error x rt ift _ _ _ hjx e h
      rw [h1 (sessions_of_kept s _ hk rfl hj)]
      decide
  · exact processLDPPacketFromTCP_error _ _ _ _ _ hj _ h
  · cases h; decide
  · cases h; decide
  · cases h; decide

theorem handle_error (x : Ext) (rt : RoutingTable) (ift : InterfaceTable) (ev : Event)
    (s : State) (hj : downstreamFromSessions s) (e : Abort)
    (h : handle x rt ift ev s = Except.error e) : e ≠ Abort.assertEgress := by
  cases ev with
  | routingTableChanged => exact rebuildFecList_error x rt ift s hj e h
  | sendHello allRouters => simp [handle] at h
  | helloTimeout msg => exact processHelloTimeout_error x rt ift msg s hj e h
  | notifyRetry pkt => exact processNOTIFICATION_error _ _ _ _ _ _ h
  | hello msg => simp [handle] at h
  | tcp msg =>
    simp only [handle] at h
    unfold processMessageFromTCP at h
    split at h
    · exact socketProcessMessage_error _ _ _ _ _ _ _ hj _ h
    · dsimp only at h
      split at h
      · cases h
      · rename_i i _
        split at h
        · cases h
        · split at h
          · cases h
          · have hk := sessionsKept_modify s.myPeers i
              { state := SockState.CONNECTED, yourPtr := i } rfl
            have h1 := fun hjx => socketProcessMessage_error x rt ift _ _ _ _ hjx e h
            exact h1 (sessions_of_kept s _ hk rfl hj)

/-- C10. In every state reached by hellos, hello timeouts, session
establishment, routing table changes and packets whose sender has an
established session: no FEC of the list has a downstream binding by way of
its next hop without a CONNECTED session to that next hop; and no event
handled in such a state, nor `initialize`, stops on the assertion
`!(ER && dit != fecDown.end())` of `updateFecListEntry` and
`processLABEL_REQUEST`. -/
theorem egress_exclusive (x : Ext) (s : State) (h : ReachableFromSessions x s) :
    (∀ f ∈ s.fecList, ∀ b ∈ s.fecDown, b.fecid = f.fecid → b.peer = f.nextHop →
        (peerSocketSoft s.myPeers f.nextHop).isSome = true)
    ∧ (∀ rt ift ev, handle x rt ift ev s ≠ Except.error Abort.assertEgress)
    ∧ (∀ rt ift, initializeStage3 x rt ift ≠ Except.error Abort.assertEgress) := by
  have hj := downstream_from_sessions x s h
  refine ⟨?_, ?_, ?_⟩
  · intro f _ b hb _ hpeer
    rw [← hpeer]
    exact hj b hb
  · intro rt ift ev he
    exact handle_error x rt ift ev s hj _ he rfl
  · intro rt ift he
    have h0 : downstreamFromSessions { State.empty with sent := [Output.nextHello] } := by
      intro b hb
      simp [State.empty] at hb
    exact rebuildFecList_error x rt ift _ h0 _ he rfl

theorem fromSessionCheck_sound (s : State) (ev : Event) (h : fromSessionCheck s ev = true) :
    fromSession s ev := by
  intro msg pkt hev hkind
  subst hev
  simpa [fromSessionCheck, hkind] using h

theorem reachableFromSessions_run (x : Ext) :
    ∀ (evs : List (RoutingTable × InterfaceTable × Event)) (s s1 : State),
      ReachableFromSessions x s → sendersHaveSessions x evs s = true →
      run x evs s = Except.ok s1 → ReachableFromSessions x s1 := by
  intro evs
  induction evs with
  | nil =>
    intro s s1 hs _ h
    simp only [run, Except.ok.injEq] at h
    subst h
    exact hs
  | cons e rest ih =>
    intro s s1 hs hc h
    obtain ⟨rt, ift, ev⟩ := e
    unfold run at h
    unfold sendersHaveSessions at hc
    split at h
    · cases h
    · rename_i sa hstep
      rw [hstep] at hc
      simp only [Bool.and_eq_true] at hc
      exact ih sa s1
        (ReachableFromSessions.step rt ift ev s sa hs (fromSessionCheck_sound s ev hc.1) hstep)
        hc.2 h

theorem egress_exclusive_witness :
    ReachableFromSessions ipv4Ext (afterRun ipv4Ext lspUp)
    ∧ (afterRun ipv4Ext lspUp).fecList = [⟨1, 167903232, 16, 167772163⟩]
    ∧ (afterRun ipv4Ext lspUp).fecDown = [⟨1, 167772163, 100⟩]
    ∧ (∀ f ∈ (afterRun ipv4Ext lspUp).fecList, ∀ b ∈ (afterRun ipv4Ext lspUp).fecDown,
        b.fecid = f.fecid → b.peer = f.nextHop →
        (peerSocketSoft (afterRun ipv4Ext lspUp).myPeers f.nextHop).isSome = true) :=
  ⟨reachableFromSessions_run ipv4Ext lspUp _ _ ReachableFromSessions.empty (by decide) run_lspUp,
   rfl, rfl,
   (egress_exclusive ipv4Ext _
     (reachableFromSessions_run ipv4Ext lspUp _ _ ReachableFromSessions.empty (by decide)
       run_lspUp)).1⟩


/-! ### C11: signaling traffic is never classified -/

theorem isSignaling_iff (x : Ext) (ipdatagram : IPDatagram) :
    isSignaling x ipdatagram = true ↔
      (ipdatagram.transportProtocol = x.IP_PROT_OSPF
        ∨ (ipdatagram.transportProtocol = x.IP_PROT_UDP ∧ ipdatagram.destPort = x.LDP_PORT)
        ∨ (ipdatagram.transportProtocol = x.IP_PROT_TCP
            ∧ (ipdatagram.srcPort = x.LDP_PORT ∨ ipdatagram.destPort = x.LDP_PORT))) := by
  unfold isSignaling
  simp only [Bool.or_eq_true, Bool.and_eq_true, beq_iff_eq]
  tauto

/-- C11. Whatever the FEC list and the downstream bindings, `lookupLabel`
returns false, and so sets neither label nor interface nor color, for a
packet of protocol OSPF, for a UDP packet to the LDP port, and for a TCP
segment whose source port or destination port is the LDP port. -/
theorem lookupLabel_signaling (x : Ext) (rt : RoutingTable) (ift : InterfaceTable)
    (s : State) (ipdatagram : IPDatagram)
    (h : ipdatagram.transportProtocol = x.IP_PROT_OSPF
        ∨ (ipdatagram.transportProtocol = x.IP_PROT_UDP ∧ ipdatagram.destPort = x.LDP_PORT)
        ∨ (ipdatagram.transportProtocol = x.IP_PROT_TCP
            ∧ (ipdatagram.srcPort = x.LDP_PORT ∨ ipdatagram.destPort = x.LDP_PORT))) :
    lookupLabel x rt ift s ipdatagram = none := by
  unfold lookupLabel
  rw [(isSignaling_iff x ipdatagram).mpr h]
  rfl

theorem lookupLabel_signaling_witness :
    (ldpSessionPacket.transportProtocol = ipv4Ext.IP_PROT_OSPF
        ∨ (ldpSessionPacket.transportProtocol = ipv4Ext.IP_PROT_UDP
            ∧ ldpSessionPacket.destPort = ipv4Ext.LDP_PORT)
        ∨ (ldpSessionPacket.transportProtocol = ipv4Ext.IP_PROT_TCP
            ∧ (ldpSessionPacket.srcPort = ipv4Ext.LDP_PORT
                ∨ ldpSessionPacket.destPort = ipv4Ext.LDP_PORT)))
    ∧ lookupLabel ipv4Ext rtVia [] (afterRun ipv4Ext lspUp) dataPacket
        = some ([LabelOp.push 100], "ppp0", 1)
    ∧ lookupLabel ipv4Ext rtVia [] (afterRun ipv4Ext lspUp) ldpSessionPacket = none :=
  ⟨by decide, by decide,
   lookupLabel_signaling ipv4Ext rtVia [] (afterRun ipv4Ext lspUp) ldpSessionPacket
     (by decide)⟩


/-! ### C12: classification is decided by the first matching entry -/

theorem matchedFec_first (x : Ext) (dest : IPAddress) (f : fec_t) (l2 : List fec_t) :
    ∀ l1 : List fec_t, (∀ g ∈ l1, x.prefixMatches dest g.addr g.length = false) →
      x.prefixMatches dest f.addr f.length = true →
      matchedFec x dest (l1 ++ f :: l2) = some f := by
  intro l1
  induction l1 with
  | nil => intro _ hf; simp [matchedFec, hf]
  | cons g rest ih =>
    intro hno hf
    have hg := hno g (by simp)
    simp only [List.cons_append, matchedFec, hg, Bool.not_false, ↓reduceIte]
    exact ih (fun g1 hg1 => hno g1 (by simp [hg1])) hf

theorem matchedFec_none (x : Ext) (dest : IPAddress) :
    ∀ l : List fec_t, (∀ g ∈ l, x.prefixMatches dest g.addr g.length = false) →
      matchedFec x dest l = none := by
  intro l
  induction l with
  | nil => intro _; rfl
  | cons g rest ih =>
    intro hno
    have hg := hno g (by simp)
    simp only [matchedFec, hg, Bool.not_false, ↓reduceIte]
    exact ih (fun g1 hg1 => hno g1 (by simp [hg1]))

theorem findFecBind_of_mem_nodup :
    ∀ (l : List fec_bind_t) (b : fec_bind_t), (l.map bindKey).Nodup → b ∈ l →
      findFecBind l b.fecid b.peer = some b := by
  intro l
  induction l with
  | nil => intro b _ hb; simp at hb
  | cons a rest ih =>
    intro b hn hb
    rw [List.map_cons, List.nodup_cons] at hn
    unfold findFecBind
    rw [List.find?_cons]
    by_cases hk : (a.fecid == b.fecid && a.peer == b.peer) = true
    · simp only [hk]
      rcases List.mem_cons.mp hb with rfl | hb
      · rfl
      · exfalso
        apply hn.1
        simp only [Bool.and_eq_true, beq_iff_eq] at hk
        have : bindKey a = bindKey b := by simp [bindKey, hk.1, hk.2]
        rw [this]
        exact List.mem_map_of_mem _ hb
    · simp only [Bool.not_eq_true] at hk
      simp only [hk]
      rcases List.mem_cons.mp hb with rfl | hb
      · simp at hk
      · exact ih b hn.2 hb

theorem findFecBind_none_iff (l : List fec_bind_t) (fecid : Int) (peer : IPAddress) :
    findFecBind l fecid peer = none ↔ ∀ b ∈ l, ¬ (b.fecid = fecid ∧ b.peer = peer) := by
  unfold findFecBind
  rw [List.find?_eq_none]
  simp only [Bool.and_eq_true, beq_iff_eq]

/-- C12. For a packet that is not signaling traffic, `lookupLabel` is decided by
the first entry `f` of the FEC list whose prefix matches the destination. If
`fecDown` has a binding for (f.id, f.nextHop) it returns true with the push
of that binding's label (the one `findFecEntry` returns; any one, when the
pairs of `fecDown` are distinct), the interface towards `f.nextHop` and the
user traffic color. If `fecDown` has no such binding it returns false,
whatever entries follow `f` in the list. If no entry matches it returns
false. -/
theorem lookupLabel_first_match (x : Ext) (rt : RoutingTable) (ift : InterfaceTable)
    (s : State) (ipdatagram : IPDatagram) (hdata : isSignaling x ipdatagram = false) :
    (∀ l1 f l2, s.fecList = l1 ++ f :: l2 →
        (∀ g ∈ l1, x.prefixMatches ipdatagram.destAddress g.addr g.length = false) →
        x.prefixMatches ipdatagram.destAddress f.addr f.length = true →
        (∀ dit, findFecBind s.fecDown f.fecid f.nextHop = some dit →
            lookupLabel x rt ift s ipdatagram =
              some (pushLabel dit.label, findInterfaceFromPeerAddr x rt ift f.nextHop,
                    x.LDP_USER_TRAFFIC))
        ∧ ((s.fecDown.map bindKey).Nodup → ∀ b ∈ s.fecDown, b.fecid = f.fecid →
            b.peer = f.nextHop →
            lookupLabel x rt ift s ipdatagram =
              some (pushLabel b.label, findInterfaceFromPeerAddr x rt ift f.nextHop,
                    x.LDP_USER_TRAFFIC))
        ∧ ((∀ b ∈ s.fecDown, ¬ (b.fecid = f.fecid ∧ b.peer = f.nextHop)) →
            lookupLabel x rt ift s ipdatagram = none))
    ∧ ((∀ g ∈ s.fecList, x.prefixMatches ipdatagram.destAddress g.addr g.length = false) →
        lookupLabel x rt ift s ipdatagram = none) := by
  constructor
  · intro l1 f l2 hl hno hf
    have hm := matchedFec_first x ipdatagram.destAddress f l2 l1 hno hf
    rw [← hl] at hm
    have hfound : ∀ dit, findFecBind s.fecDown f.fecid f.nextHop = some dit →
        lookupLabel x rt ift s ipdatagram =
          some (pushLabel dit.label, findInterfaceFromPeerAddr x rt ift f.nextHop,
                x.LDP_USER_TRAFFIC) := by
      intro dit hd
      unfold lookupLabel
      simp only [hdata, Bool.false_eq_true, ↓reduceIte, hm, hd]
    refine ⟨hfound, ?_, ?_⟩
    · intro hn b hb h1 h2
      have := findFecBind_of_mem_nodup s.fecDown b hn hb
      rw [h1, h2] at this
      exact hfound b this
    · intro hnone
      unfold lookupLabel
      simp only [hdata, Bool.false_eq_true, ↓reduceIte, hm,
        (findFecBind_none_iff _ _ _).mpr hnone]
  · intro hno
    unfold lookupLabel
    simp only [hdata, Bool.false_eq_true, ↓reduceIte, matchedFec_none x _ _ hno]

theorem lookupLabel_first_match_witness :
    isSignaling ipv4Ext dataPacket = false
    ∧ lookupLabel ipv4Ext rtVia [] (afterRun ipv4Ext lspUp) dataPacket
        = some (pushLabel 100, "ppp0", 1)
    ∧ lookupLabel ipv4Ext rtVia [] stateShadowed dataPacket = none :=
  ⟨by decide,
   ((lookupLabel_first_match ipv4Ext rtVia [] (afterRun ipv4Ext lspUp) dataPacket
      (by decide)).1 [] ⟨1, 167903232, 16, 167772163⟩ [] rfl (by simp) (by decide)).1
      ⟨1, 167772163, 100⟩ (by decide),
   ((lookupLabel_first_match ipv4Ext rtVia [] stateShadowed dataPacket
      (by decide)).1 [] ⟨1, 167903232, 16, 167772163⟩ [⟨2, 167772160, 8, 167772164⟩] rfl
      (by simp) (by decide)).2.2 (by decide)⟩


/-! ### C13, C14: label requests -/

theorem sendToPeer_ok (myPeers : List peer_info) (dest : IPAddress) (msg : LDPPacket)
    (h : connected myPeers dest = true) :
    sendToPeer myPeers dest msg = Except.ok (Output.tcp dest msg) := by
  unfold connected at h
  unfold sendToPeer
  cases hp : peerSocketSoft myPeers dest with
  | none => simp [hp] at h
  | some sk => rfl

theorem sendToPeer_eq_ok (myPeers : List peer_info) (dest : IPAddress) (msg : LDPPacket)
    (m : Output) (h : sendToPeer myPeers dest msg = Except.ok m) :
    m = Output.tcp dest msg ∧ connected myPeers dest = true := by
  unfold sendToPeer at h
  unfold connected
  cases hp : peerSocketSoft myPeers dest with
  | none => simp [hp] at h
  | some sk =>
    simp only [hp, Except.ok.injEq] at h
    exact ⟨h.symm, rfl⟩

theorem installLibEntry_installed (lt : LIBTable) (inLabel : Int) (inInterface : String)
    (outLabel : LabelOpVector) (outInterface : String) (color : Int) :
    (installLibEntry lt inLabel inInterface outLabel outInterface color).1.installed
      (installLibEntry lt inLabel inInterface outLabel outInterface color).2 = true := by
  unfold installLibEntry LIBTable.installed
  split <;> simp

/-- C13. A LABEL_REQUEST from peer P for a FEC `f` of the FEC list with no
upstream binding (f.id, P). When the router is egress for `f` (no established
session to `f.nextHop`) or `fecDown` has a binding (f.id, f.nextHop), and the
request is answered, exactly one upstream binding (f.id, P, newLabel) is
pushed, newLabel being the label the LIB install returns (pop when egress,
swap to the downstream label otherwise), exactly one LABEL_MAPPING(P,
newLabel, f) is sent, and `pending` is as before; it is answered whenever
there is a session to P to send on and the two conditions do not hold
together. Otherwise (f.id, P) is pushed onto `pending`, and `fecUp`, the LIB
and the log are as before. -/
theorem processLABEL_REQUEST_known (x : Ext) (rt : RoutingTable) (ift : InterfaceTable)
    (packet : LDPPacket) (s : State) (f : fec_t)
    (hf : findFecEntry s.fecList packet.fec.addr packet.fec.length = some f)
    (hu : findFecBind s.fecUp f.fecid packet.senderAddress = none) :
    (∀ r, r = installLibEntry s.lt (-1)
          (findInterfaceFromPeerAddr x rt ift packet.senderAddress) popLabel
          (findInterfaceFromPeerAddr x rt ift f.nextHop) 0 →
      (peerSocketSoft s.myPeers f.nextHop).isNone = true →
      findFecBind s.fecDown f.fecid f.nextHop = none →
      connected s.myPeers packet.senderAddress = true →
      processLABEL_REQUEST x rt ift packet s = Except.ok
        { s with
          fecUp := s.fecUp ++ [⟨f.fecid, packet.senderAddress, r.2⟩]
          lt := r.1
          sent := s.sent ++ [Output.tcp packet.senderAddress
              { type := LDPType.LABEL_MAPPING, senderAddress := rt.routerId,
                receiverAddress := packet.senderAddress, fec := ⟨packet.fec.addr, packet.fec.length⟩,
                label := r.2, status := 0 }] })
    ∧ (∀ d r, findFecBind s.fecDown f.fecid f.nextHop = some d →
      r = installLibEntry s.lt (-1)
          (findInterfaceFromPeerAddr x rt ift packet.senderAddress) (swapLabel d.label)
          (findInterfaceFromPeerAddr x rt ift f.nextHop) x.LDP_USER_TRAFFIC →
      (peerSocketSoft s.myPeers f.nextHop).isNone = false →
      connected s.myPeers packet.senderAddress = true →
      processLABEL_REQUEST x rt ift packet s = Except.ok
        { s with
          fecUp := s.fecUp ++ [⟨f.fecid, packet.senderAddress, r.2⟩]
          lt := r.1
          sent := s.sent ++ [Output.tcp packet.senderAddress
              { type := LDPType.LABEL_MAPPING, senderAddress := rt.routerId,
                receiverAddress := packet.senderAddress, fec := ⟨packet.fec.addr, packet.fec.length⟩,
                label := r.2, status := 0 }] })
    ∧ ((peerSocketSoft s.myPeers f.nextHop).isNone = false →
      findFecBind s.fecDown f.fecid f.nextHop = none →
      processLABEL_REQUEST x rt ift packet s = Except.ok
        { s with pending := s.pending ++ [⟨f.fecid, packet.senderAddress⟩] })
    ∧ (∀ s1, processLABEL_REQUEST x rt ift packet s = Except.ok s1 →
      ((peerSocketSoft s.myPeers f.nextHop).isNone = true
          ∨ (findFecBind s.fecDown f.fecid f.nextHop).isSome = true →
        s1.pending = s.pending ∧ s1.fecList = s.fecList ∧ s1.fecDown = s.fecDown
        ∧ ∃ newLabel, s1.fecUp = s.fecUp ++ [⟨f.fecid, packet.senderAddress, newLabel⟩]
          ∧ s1.lt.installed newLabel = true
          ∧ s1.sent = s.sent ++ [Output.tcp packet.senderAddress
              { type := LDPType.LABEL_MAPPING, senderAddress := rt.routerId,
                receiverAddress := packet.senderAddress, fec := ⟨packet.fec.addr, packet.fec.length⟩,
                label := newLabel, status := 0 }])
      ∧ (¬ ((peerSocketSoft s.myPeers f.nextHop).isNone = true
            ∨ (findFecBind s.fecDown f.fecid f.nextHop).isSome = true) →
        s1 = { s with pending := s.pending ++ [⟨f.fecid, packet.senderAddress⟩] })) := by
  refine ⟨?_, ?_, ?_, ?_⟩
  · intro r hr he hd hc
    subst hr
    unfold processLABEL_REQUEST
    simp only [hf, hu, he, hd, Option.isSome_none, Bool.and_false, Bool.false_eq_true,
      ↓reduceIte, sendMapping, mapping, sendToPeer_ok _ _ _ hc]
  · intro d r hd hr he hc
    subst hr
    unfold processLABEL_REQUEST
    simp only [hf, hu, he, hd, Bool.false_and, Bool.false_eq_true,
      ↓reduceIte, sendMapping, mapping, sendToPeer_ok _ _ _ hc]
  · intro he hd
    unfold processLABEL_REQUEST
    simp only [hf, hu, he, hd, Bool.false_and, Bool.false_eq_true, ↓reduceIte]
  · intro s1 h
    unfold processLABEL_REQUEST at h
    simp only [hf, hu] at h
    split at h
    · cases h
    · rename_i hassert
      split at h
      · rename_i he
        split at h
        · cases h
        · rename_i m hm
          obtain ⟨rfl, _⟩ := sendToPeer_eq_ok _ _ _ _ hm
          cases h
          refine ⟨fun _ => ⟨rfl, rfl, rfl, _, rfl, installLibEntry_installed _ _ _ _ _ _, rfl⟩, ?_⟩
          intro hno
          exact absurd (Or.inl he) hno
      · rename_i he
        split at h
        · rename_i d hd
          split at h
          · cases h
          · rename_i m hm
            obtain ⟨rfl, _⟩ := sendToPeer_eq_ok _ _ _ _ hm
            cases h
            refine ⟨fun _ => ⟨rfl, rfl, rfl, _, rfl, installLibEntry_installed _ _ _ _ _ _, rfl⟩,
              ?_⟩
            intro hno
            exact absurd (Or.inr (by simp [hd])) hno
        · rename_i hd
          cases h
          refine ⟨?_, fun _ => rfl⟩
          intro hor
          rcases hor with h1 | h1
          · exact absurd h1 he
          · simp [hd] at h1

theorem processLABEL_REQUEST_known_witness :
    findFecEntry (afterRun ipv4Ext sessionsUp).fecList requestFromUp.fec.addr
        requestFromUp.fec.length = some ⟨1, 167903232, 16, 167772163⟩
    ∧ findFecBind (afterRun ipv4Ext sessionsUp).fecUp 1 requestFromUp.senderAddress = none
    ∧ processLABEL_REQUEST ipv4Ext rtVia [] requestFromUp (afterRun ipv4Ext sessionsUp)
        = Except.ok { afterRun ipv4Ext sessionsUp with
            pending := (afterRun ipv4Ext sessionsUp).pending ++ [⟨1, 167772162⟩] }
    ∧ processLABEL_REQUEST ipv4Ext rtVia [] requestFromDown (afterRun ipv4Ext lspUp)
        = Except.ok { afterRun ipv4Ext lspUp with
            fecUp := (afterRun ipv4Ext lspUp).fecUp ++ [⟨1, 167772163, 2⟩]
            lt := { lib := (afterRun ipv4Ext lspUp).lt.lib ++
                      [⟨2, "ppp0", [LabelOp.swap 100], "ppp0", 1⟩],
                    maxLabel := 2 }
            sent := (afterRun ipv4Ext lspUp).sent ++ [Output.tcp 167772163
                { type := LDPType.LABEL_MAPPING, senderAddress := rtVia.routerId,
                  receiverAddress := 167772163, fec := ⟨167903232, 16⟩,
                  label := 2, status := 0 }] } :=
  ⟨by decide, by decide,
   (processLABEL_REQUEST_known ipv4Ext rtVia [] requestFromUp (afterRun ipv4Ext sessionsUp)
      ⟨1, 167903232, 16, 167772163⟩ (by decide) (by decide)).2.2.1 (by decide) (by decide),
   (processLABEL_REQUEST_known ipv4Ext rtVia [] requestFromDown (afterRun ipv4Ext lspUp)
      ⟨1, 167903232, 16, 167772163⟩ (by decide) (by decide)).2.1 ⟨1, 167772163, 100⟩ _
      (by decide) rfl (by decide) (by decide)⟩

/-- C14. A LABEL_REQUEST from peer P for a FEC that is not in the FEC list: when
it is processed to the end, the state is the previous one with a single
message appended to the log, a NOTIFICATION to P with status NO_ROUTE
carrying the requested FEC; the FEC list, the downstream and upstream
bindings, the pending requests and the LIB are as before. It is processed to
the end whenever there is a session to P to send on. -/
theorem processLABEL_REQUEST_unknown (x : Ext) (rt : RoutingTable) (ift : InterfaceTable)
    (packet : LDPPacket) (s : State)
    (hf : findFecEntry s.fecList packet.fec.addr packet.fec.length = none) :
    (connected s.myPeers packet.senderAddress = true →
      processLABEL_REQUEST x rt ift packet s = Except.ok
        { s with sent := s.sent ++ [Output.tcp packet.senderAddress
            (notify x rt packet.senderAddress packet.fec.addr packet.fec.length)] })
    ∧ (∀ s1, processLABEL_REQUEST x rt ift packet s = Except.ok s1 →
        s1 = { s with sent := s.sent ++ [Output.tcp packet.senderAddress
            (notify x rt packet.senderAddress packet.fec.addr packet.fec.length)] })
    ∧ (notify x rt packet.senderAddress packet.fec.addr packet.fec.length).type
        = LDPType.NOTIFICATION
    ∧ (notify x rt packet.senderAddress packet.fec.addr packet.fec.length).status = x.NO_ROUTE
    ∧ (notify x rt packet.senderAddress packet.fec.addr packet.fec.length).fec = packet.fec := by
  refine ⟨?_, ?_, rfl, rfl, rfl⟩
  · intro hc
    unfold processLABEL_REQUEST
    simp only [hf, sendNotify, sendToPeer_ok _ _ _ hc]
  · intro s1 h
    unfold processLABEL_REQUEST at h
    simp only [hf] at h
    split at h
    · cases h
    · rename_i m hm
      obtain ⟨rfl, _⟩ := sendToPeer_eq_ok _ _ _ _ hm
      cases h
      rfl

theorem processLABEL_REQUEST_unknown_witness :
    findFecEntry (afterRun ipv4Ext sessionsUp).fecList requestUnknown.fec.addr
        requestUnknown.fec.length = none
    ∧ connected (afterRun ipv4Ext sessionsUp).myPeers requestUnknown.senderAddress = true
    ∧ processLABEL_REQUEST ipv4Ext rtVia [] requestUnknown (afterRun ipv4Ext sessionsUp)
        = Except.ok { afterRun ipv4Ext sessionsUp with
            sent := (afterRun ipv4Ext sessionsUp).sent ++ [Output.tcp 167772162
              (notify ipv4Ext rtVia 167772162 168361984 16)] } :=
  ⟨by decide, by decide,
   (processLABEL_REQUEST_unknown ipv4Ext rtVia [] requestUnknown (afterRun ipv4Ext sessionsUp)
      (by decide)).1 (by decide)⟩


/-! ### C15: label mappings -/

theorem answerPending_ok (x : Ext) (rt : RoutingTable) (ift : InterfaceTable)
    (myPeers : List peer_info) (it : fec_t) (fromIP : IPAddress) (label : Int) :
    ∀ (l : List pending_req_t) (lt : LIBTable) (pend : List pending_req_t)
      (up : List fec_bind_t) (lt1 : LIBTable) (out : List Output),
      answerPending x rt ift myPeers it fromIP label l lt = Except.ok (pend, up, lt1, out) →
      pend = l.filter (fun q => q.fecid != it.fecid)
      ∧ up.map bindKey = (l.filter (fun q => q.fecid == it.fecid)).map
          (fun q => (it.fecid, q.peer))
      ∧ out = up.map (fun u => Output.tcp u.peer
          { type := LDPType.LABEL_MAPPING, senderAddress := rt.routerId,
            receiverAddress := u.peer, fec := ⟨it.addr, it.length⟩, label := u.label, status := 0 })
      ∧ (∀ u ∈ up, lt.maxLabel < u.label
          ∧ (⟨u.label, findInterfaceFromPeerAddr x rt ift u.peer, swapLabel label,
              findInterfaceFromPeerAddr x rt ift fromIP, x.LDP_USER_TRAFFIC⟩ : LIBEntry)
              ∈ lt1.lib)
      ∧ (up.map (fun u => u.label)).Pairwise (· < ·)
      ∧ (∀ e ∈ lt.lib, e ∈ lt1.lib)
      ∧ lt.maxLabel ≤ lt1.maxLabel := by
  intro l
  induction l with
  | nil =>
    intro lt pend up lt1 out h
    simp only [answerPending, Except.ok.injEq, Prod.mk.injEq] at h
    obtain ⟨rfl, rfl, rfl, rfl⟩ := h
    simp
  | cons pit rest ih =>
    intro lt pend up lt1 out h
    unfold answerPending at h
    dsimp only at h
    split at h
    · rename_i hne
      split at h
      · cases h
      · rename_i pend1 up1 lt2 out1 hrec
        simp only [Except.ok.injEq, Prod.mk.injEq] at h
        obtain ⟨rfl, rfl, rfl, rfl⟩ := h
        obtain ⟨h1, h2, h3, h4, h5, h6, h7⟩ := ih _ _ _ _ _ hrec
        have hne1 : (pit.fecid == it.fecid) = false := by simpa using hne
        refine ⟨?_, ?_, h3, h4, h5, h6, h7⟩
        · simp [List.filter_cons, hne, h1]
        · simp [List.filter_cons, hne1, h2]
    · rename_i hne
      have heq : pit.fecid = it.fecid := by simpa using hne
      split at h
      · cases h
      · rename_i m hm
        split at h
        · cases h
        · rename_i pend1 up1 lt2 out1 hrec
          simp only [Except.ok.injEq, Prod.mk.injEq] at h
          obtain ⟨rfl, rfl, rfl, rfl⟩ := h
          obtain ⟨h1, h2, h3, h4, h5, h6, h7⟩ := ih _ _ _ _ _ hrec
          have hm1 : m = Output.tcp pit.peer (mapping rt LDPType.LABEL_MAPPING pit.peer
              (lt.maxLabel + 1) it.addr it.length) := by
            unfold sendMapping sendToPeer at hm
            split at hm
            · cases hm
            · cases hm
              simp [installLibEntry]
          have hmax : (installLibEntry lt (-1) (findInterfaceFromPeerAddr x rt ift pit.peer)
              (swapLabel label) (findInterfaceFromPeerAddr x rt ift fromIP)
              x.LDP_USER_TRAFFIC).1.maxLabel = lt.maxLabel + 1 := by
            simp [installLibEntry]
          have hlab : (installLibEntry lt (-1) (findInterfaceFromPeerAddr x rt ift pit.peer)
              (swapLabel label) (findInterfaceFromPeerAddr x rt ift fromIP)
              x.LDP_USER_TRAFFIC).2 = lt.maxLabel + 1 := by
            simp [installLibEntry]
          have hlib : (installLibEntry lt (-1) (findInterfaceFromPeerAddr x rt ift pit.peer)
              (swapLabel label) (findInterfaceFromPeerAddr x rt ift fromIP)
              x.LDP_USER_TRAFFIC).1.lib = lt.lib ++
                [⟨lt.maxLabel + 1, findInterfaceFromPeerAddr x rt ift pit.peer, swapLabel label,
                  findInterfaceFromPeerAddr x rt ift fromIP, x.LDP_USER_TRAFFIC⟩] := by
            simp [installLibEntry]
          rw [hmax] at h4 h7
          rw [hlib] at h6
          rw [hlab]
          refine ⟨?_, ?_, ?_, ?_, ?_, ?_, ?_⟩
          · simp [List.filter_cons, heq, h1]
          · simp [List.filter_cons, heq, h2, bindKey]
          · simp [h3, hm1, mapping]
          · intro u hu
            rcases List.mem_cons.mp hu with rfl | hu
            · exact ⟨by simp, h6 _ (by simp)⟩
            · obtain ⟨ha, hb⟩ := h4 u hu
              exact ⟨by omega, hb⟩
          · simp only [List.map_cons, List.pairwise_cons]
            refine ⟨?_, h5⟩
            intro a ha
            obtain ⟨u, hu, rfl⟩ := List.mem_map.mp ha
            exact (h4 u hu).1
          · intro e he
            exact h6 e (by simp [he])
          · omega

theorem answerPending_total (x : Ext) (rt : RoutingTable) (ift : InterfaceTable)
    (myPeers : List peer_info) (it : fec_t) (fromIP : IPAddress) (label : Int) :
    ∀ (l : List pending_req_t) (lt : LIBTable),
      (∀ q ∈ l, q.fecid = it.fecid → connected myPeers q.peer = true) →
      ∃ r, answerPending x rt ift myPeers it fromIP label l lt = Except.ok r := by
  intro l
  induction l with
  | nil => intro lt _; exact ⟨_, rfl⟩
  | cons pit rest ih =>
    intro lt hc
    have hrest : ∀ q ∈ rest, q.fecid = it.fecid → connected myPeers q.peer = true :=
      fun q hq => hc q (by simp [hq])
    unfold answerPending
    dsimp only
    split
    · obtain ⟨r, hr⟩ := ih lt hrest
      rw [hr]
      exact ⟨_, rfl⟩
    · rename_i hne
      have heq : pit.fecid = it.fecid := by simpa using hne
      simp only [sendMapping, sendToPeer_ok _ _ _ (hc pit (by simp) heq)]
      obtain ⟨r, hr⟩ := ih _ hrest
      rw [hr]
      exact ⟨_, rfl⟩


/-- C15. A LABEL_MAPPING from peer P with label L > 0 for a FEC `f` of the FEC
list with no downstream binding (f.id, P). When it is processed to the end:
`fecDown` is the previous one with (f.id, P, L) pushed; for every pending
request (f.id, Q), in their order, one upstream binding (f.id, Q, newLabel)
is pushed, newLabel being a label freshly allocated by the LIB, whose
cross-connect keyed by newLabel swaps to L towards P, and one
LABEL_MAPPING(Q, newLabel, f) is sent to Q; `pending` is the previous one
without the requests of FEC id f.id, the others in their order. It is
processed to the end whenever there is a session to every such Q. -/
theorem processLABEL_MAPPING_accepted (x : Ext) (rt : RoutingTable) (ift : InterfaceTable)
    (packet : LDPPacket) (s : State) (f : fec_t)
    (hl : packet.label > 0)
    (hf : findFecEntry s.fecList packet.fec.addr packet.fec.length = some f)
    (hd : findFecBind s.fecDown f.fecid packet.senderAddress = none) :
    ((∀ q ∈ s.pending, q.fecid = f.fecid → connected s.myPeers q.peer = true) →
      ∃ s1, processLABEL_MAPPING x rt ift packet s = Except.ok s1)
    ∧ (∀ s1, processLABEL_MAPPING x rt ift packet s = Except.ok s1 →
      s1.fecDown = s.fecDown ++ [⟨f.fecid, packet.senderAddress, packet.label⟩]
      ∧ s1.pending = s.pending.filter (fun q => q.fecid != f.fecid)
      ∧ s1.fecList = s.fecList ∧ s1.myPeers = s.myPeers
      ∧ ∃ ups, s1.fecUp = s.fecUp ++ ups
        ∧ ups.map bindKey = (s.pending.filter (fun q => q.fecid == f.fecid)).map
            (fun q => (f.fecid, q.peer))
        ∧ s1.sent = s.sent ++ ups.map (fun u => Output.tcp u.peer
            { type := LDPType.LABEL_MAPPING, senderAddress := rt.routerId,
              receiverAddress := u.peer, fec := ⟨f.addr, f.length⟩, label := u.label, status := 0 })
        ∧ (∀ u ∈ ups, s.lt.maxLabel < u.label
            ∧ (⟨u.label, findInterfaceFromPeerAddr x rt ift u.peer, swapLabel packet.label,
                findInterfaceFromPeerAddr x rt ift packet.senderAddress,
                x.LDP_USER_TRAFFIC⟩ : LIBEntry) ∈ s1.lt.lib)
        ∧ (ups.map (fun u => u.label)).Pairwise (· < ·)) := by
  have hl1 : ¬ ¬ packet.label > 0 := not_not.mpr hl
  constructor
  · intro hc
    obtain ⟨r, hr⟩ := answerPending_total x rt ift s.myPeers f packet.senderAddress
      packet.label s.pending s.lt hc
    obtain ⟨pend, up, lt1, out⟩ := r
    unfold processLABEL_MAPPING
    simp only [hl1, ↓reduceIte, hf, hd, hr]
    exact ⟨_, rfl⟩
  · intro s1 h
    unfold processLABEL_MAPPING at h
    simp only [hl1, ↓reduceIte, hf, hd] at h
    split at h
    · cases h
    · rename_i pend up lt1 out hr
      cases h
      obtain ⟨h1, h2, h3, h4, h5, _, _⟩ := answerPending_ok _ _ _ _ _ _ _ _ _ _ _ _ _ hr
      exact ⟨rfl, h1, rfl, rfl, up, rfl, h2, by rw [h3], h4, h5⟩

theorem processLABEL_MAPPING_accepted_witness :
    mappingFromDown.label > 0
    ∧ findFecEntry (afterRun ipv4Ext requestedOnce).fecList mappingFromDown.fec.addr
        mappingFromDown.fec.length = some ⟨1, 167903232, 16, 167772163⟩
    ∧ findFecBind (afterRun ipv4Ext requestedOnce).fecDown 1 mappingFromDown.senderAddress
        = none
    ∧ (afterRun ipv4Ext requestedOnce).pending = [⟨1, 167772162⟩]
    ∧ processLABEL_MAPPING ipv4Ext rtVia [] mappingFromDown (afterRun ipv4Ext requestedOnce)
        = Except.ok (afterRun ipv4Ext lspUp)
    ∧ (afterRun ipv4Ext lspUp).fecUp = [⟨1, 167772162, 1⟩]
    ∧ (afterRun ipv4Ext lspUp).fecDown
        = (afterRun ipv4Ext requestedOnce).fecDown ++ [⟨1, 167772163, 100⟩]
    ∧ (afterRun ipv4Ext lspUp).pending
        = (afterRun ipv4Ext requestedOnce).pending.filter (fun q => q.fecid != 1) :=
  ⟨by decide, by decide, by decide, by decide, rfl, by decide,
   ((processLABEL_MAPPING_accepted ipv4Ext rtVia [] mappingFromDown
      (afterRun ipv4Ext requestedOnce) ⟨1, 167903232, 16, 167772163⟩
      (by decide) (by decide) (by decide)).2 (afterRun ipv4Ext lspUp) rfl).1,
   ((processLABEL_MAPPING_accepted ipv4Ext rtVia [] mappingFromDown
      (afterRun ipv4Ext requestedOnce) ⟨1, 167903232, 16, 167772163⟩
      (by decide) (by decide) (by decide)).2 (afterRun ipv4Ext lspUp) rfl).2.1⟩


/-! ### C16: label withdraws -/

theorem find?_split {α : Type} (p : α → Bool) :
    ∀ (l : List α) (a : α), l.find? p = some a →
      ∃ l1 l2, l = l1 ++ a :: l2 ∧ (∀ b ∈ l1, p b = false) ∧ l.eraseP p = l1 ++ l2 := by
  intro l
  induction l with
  | nil => intro a h; simp at h
  | cons c rest ih =>
    intro a h
    by_cases hc : p c = true
    · simp only [List.find?_cons, hc, Option.some.injEq] at h
      subst h
      exact ⟨[], rest, rfl, by simp, by simp [List.eraseP_cons, hc]⟩
    · simp only [Bool.not_eq_true] at hc
      simp only [List.find?_cons, hc] at h
      obtain ⟨l1, l2, h1, h2, h3⟩ := ih a h
      refine ⟨c :: l1, l2, by simp [h1], ?_, by simp [List.eraseP_cons, hc, h3]⟩
      intro b hb
      rcases List.mem_cons.mp hb with rfl | hb
      · exact hc
      · exact h2 b hb

theorem eraseFecBind_nodup (fecid : Int) (peer : IPAddress) :
    ∀ l : List fec_bind_t, (l.map bindKey).Nodup →
      eraseFecBind l fecid peer
        = l.filter (fun b => !(b.fecid == fecid && b.peer == peer)) := by
  intro l
  induction l with
  | nil => intro _; rfl
  | cons a rest ih =>
    intro hn
    rw [List.map_cons, List.nodup_cons] at hn
    unfold eraseFecBind at ih ⊢
    by_cases ha : (a.fecid == fecid && a.peer == peer) = true
    · simp only [List.eraseP_cons, ha, cond_true, List.filter_cons, Bool.not_true,
        Bool.false_eq_true, ↓reduceIte]
      symm
      rw [List.filter_eq_self]
      intro b hb
      simp only [Bool.not_eq_true', Bool.and_eq_false_imp, beq_iff_eq]
      intro h1
      simp only [beq_eq_false_iff_ne, ne_eq]
      intro h2
      apply hn.1
      simp only [Bool.and_eq_true, beq_iff_eq] at ha
      have : bindKey a = bindKey b := by simp [bindKey, ha.1, ha.2, h1, h2]
      rw [this]
      exact List.mem_map_of_mem _ hb
    · simp only [Bool.not_eq_true] at ha
      simp only [List.eraseP_cons, ha, cond_false, List.filter_cons, Bool.not_false, ↓reduceIte]
      rw [ih hn.2]

theorem adjustUpstream_withdraw_ok (x : Ext) (rt : RoutingTable) (ift : InterfaceTable)
    (myPeers : List peer_info) (f : fec_t) :
    ∀ (l : List fec_bind_t) (lt : LIBTable) (up : List fec_bind_t) (lt1 : LIBTable)
      (out : List Output),
      adjustUpstream x rt ift myPeers f false none l lt = Except.ok (up, lt1, out) →
      up = l.filter (fun u => u.fecid != f.fecid) ∧ lt1 = lt
      ∧ out = (l.filter (fun u => u.fecid == f.fecid)).map (fun u => Output.tcp u.peer
          { type := LDPType.LABEL_WITHDRAW, senderAddress := rt.routerId,
            receiverAddress := u.peer, fec := ⟨f.addr, f.length⟩, label := u.label, status := 0 })
      ∧ ∀ u ∈ l, u.fecid = f.fecid → connected myPeers u.peer = true := by
  intro l
  induction l with
  | nil =>
    intro lt up lt1 out h
    simp only [adjustUpstream, Except.ok.injEq, Prod.mk.injEq] at h
    obtain ⟨rfl, rfl, rfl⟩ := h
    simp
  | cons uit rest ih =>
    intro lt up lt1 out h
    unfold adjustUpstream at h
    dsimp only at h
    split at h
    · rename_i hne
      split at h
      · cases h
      · rename_i up1 lt2 out1 hrec
        simp only [Except.ok.injEq, Prod.mk.injEq] at h
        obtain ⟨rfl, rfl, rfl⟩ := h
        obtain ⟨h1, h2, h3, h4⟩ := ih _ _ _ _ hrec
        have hne1 : (uit.fecid == f.fecid) = false := by simpa using hne
        refine ⟨by simp [List.filter_cons, hne, h1], h2, by simp [List.filter_cons, hne1, h3], ?_⟩
        intro u hu hk
        rcases List.mem_cons.mp hu with rfl | hu
        · simp [hk] at hne1
        · exact h4 u hu hk
    · rename_i hne
      have heq : uit.fecid = f.fecid := by simpa using hne
      simp only [Bool.false_eq_true, ↓reduceIte] at h
      split at h
      · cases h
      · rename_i m hm
        split at h
        · cases h
        · rename_i up1 lt2 out1 hrec
          simp only [Except.ok.injEq, Prod.mk.injEq] at h
          obtain ⟨rfl, rfl, rfl⟩ := h
          obtain ⟨h1, h2, h3, h4⟩ := ih _ _ _ _ hrec
          obtain ⟨rfl, hc⟩ := sendToPeer_eq_ok _ _ _ _ hm
          refine ⟨by simp [List.filter_cons, heq, h1], h2,
            by simp [List.filter_cons, heq, h3, mapping], ?_⟩
          intro u hu hk
          rcases List.mem_cons.mp hu with rfl | hu
          · exact hc
          · exact h4 u hu hk

theorem adjustUpstream_withdraw_total (x : Ext) (rt : RoutingTable) (ift : InterfaceTable)
    (myPeers : List peer_info) (f : fec_t) :
    ∀ (l : List fec_bind_t) (lt : LIBTable),
      (∀ u ∈ l, u.fecid = f.fecid → connected myPeers u.peer = true) →
      ∃ r, adjustUpstream x rt ift myPeers f false none l lt = Except.ok r := by
  intro l
  induction l with
  | nil => intro lt _; exact ⟨_, rfl⟩
  | cons uit rest ih =>
    intro lt hc
    have hrest : ∀ u ∈ rest, u.fecid = f.fecid → connected myPeers u.peer = true :=
      fun u hu => hc u (by simp [hu])
    obtain ⟨r, hr⟩ := ih lt hrest
    unfold adjustUpstream
    dsimp only
    split
    · rw [hr]; exact ⟨_, rfl⟩
    · rename_i hne
      have heq : uit.fecid = f.fecid := by simpa using hne
      simp only [Bool.false_eq_true, ↓reduceIte, sendMapping,
        sendToPeer_ok _ _ _ (hc uit (by simp) heq), hr]
      exact ⟨_, rfl⟩


/-- Reconciliation of a FEC that is not egress and has no downstream binding by
way of its next hop: every upstream binding of the FEC is withdrawn and
dropped, and the FEC is requested from the next hop. -/
theorem updateFecListEntry_request (x : Ext) (rt : RoutingTable) (ift : InterfaceTable)
    (f : fec_t) (s : State) (he : connected s.myPeers f.nextHop = true)
    (hd : findFecBind s.fecDown f.fecid f.nextHop = none) :
    (∀ s1, updateFecListEntry x rt ift f s = Except.ok s1 →
      s1 = { s with
        fecUp := s.fecUp.filter (fun u => u.fecid != f.fecid)
        sent := s.sent
          ++ (s.fecUp.filter (fun u => u.fecid == f.fecid)).map (fun u => Output.tcp u.peer
              { type := LDPType.LABEL_WITHDRAW, senderAddress := rt.routerId,
                receiverAddress := u.peer, fec := ⟨f.addr, f.length⟩,
                label := u.label, status := 0 })
          ++ [Output.tcp f.nextHop
              { type := LDPType.LABEL_REQUEST, senderAddress := rt.routerId,
                receiverAddress := f.nextHop, fec := ⟨f.addr, f.length⟩,
                label := 0, status := 0 }] })
    ∧ ((∀ u ∈ s.fecUp, u.fecid = f.fecid → connected s.myPeers u.peer = true) →
      ∃ s1, updateFecListEntry x rt ift f s = Except.ok s1) := by
  have hER : (peerSocketSoft s.myPeers f.nextHop).isNone = false := by
    unfold connected at he
    cases hp : peerSocketSoft s.myPeers f.nextHop with
    | none => simp [hp] at he
    | some sk => rfl
  constructor
  · intro s1 h
    unfold updateFecListEntry at h
    simp only [hER, hd, Bool.false_and, Bool.false_eq_true, ↓reduceIte, Bool.not_false,
      Option.isNone_none, Bool.and_self, sendMappingRequest, sendToPeer_ok _ _ _ he] at h
    split at h
    · cases h
    · rename_i up lt1 out hr
      obtain ⟨rfl, rfl, rfl, _⟩ := adjustUpstream_withdraw_ok _ _ _ _ _ _ _ _ _ _ hr
      cases h
      rfl
  · intro hc
    obtain ⟨r, hr⟩ := adjustUpstream_withdraw_total x rt ift s.myPeers f s.fecUp s.lt hc
    obtain ⟨up, lt1, out⟩ := r
    unfold updateFecListEntry
    simp only [hER, hd, Bool.false_and, Bool.false_eq_true, ↓reduceIte, Bool.not_false,
      Option.isNone_none, Bool.and_self, sendMappingRequest, sendToPeer_ok _ _ _ he, hr]
    exact ⟨_, rfl⟩

/-- C16. A LABEL_WITHDRAW from peer P with label L for a FEC `f` of the FEC list
whose downstream binding for (f.id, P) has label L. With a session to P to
send on, processing is reconciliation of `f` on the state in which that
binding is erased from `fecDown` and a LABEL_RELEASE(P, L, f) is logged. When
it is processed to the end, `fecDown` is the previous one without that
binding, and holds no binding for (f.id, P) when its pairs were distinct. In
particular when P is the next hop of `f`: every upstream binding of `f` is
dropped with a LABEL_WITHDRAW sent to its peer, and a LABEL_REQUEST for `f` is
sent to P; this runs to the end whenever there is a session to each of those
peers. -/
theorem processLABEL_WITHDRAW_known (x : Ext) (rt : RoutingTable) (ift : InterfaceTable)
    (packet : LDPPacket) (s : State) (f : fec_t) (dit : fec_bind_t)
    (hf : findFecEntry s.fecList packet.fec.addr packet.fec.length = some f)
    (hd : findFecBind s.fecDown f.fecid packet.senderAddress = some dit)
    (hl : packet.label = dit.label) :
    (packet.label > 0 → connected s.myPeers packet.senderAddress = true →
      processLABEL_WITHDRAW x rt ift packet s =
        updateFecListEntry x rt ift f
          { s with fecDown := eraseFecBind s.fecDown f.fecid packet.senderAddress
                   sent := s.sent ++ [Output.tcp packet.senderAddress
                     { packet with type := LDPType.LABEL_RELEASE }] })
    ∧ (∀ s1, processLABEL_WITHDRAW x rt ift packet s = Except.ok s1 →
      (∃ l1 l2, s.fecDown = l1 ++ dit :: l2 ∧ s1.fecDown = l1 ++ l2)
      ∧ ((s.fecDown.map bindKey).Nodup →
          ∀ b ∈ s1.fecDown, ¬ (b.fecid = f.fecid ∧ b.peer = packet.senderAddress))
      ∧ (∃ out, s1.sent = s.sent ++ Output.tcp packet.senderAddress
            { packet with type := LDPType.LABEL_RELEASE } :: out)
      ∧ s1.fecList = s.fecList ∧ s1.pending = s.pending ∧ s1.myPeers = s.myPeers
      ∧ (f.nextHop = packet.senderAddress → (s.fecDown.map bindKey).Nodup →
          s1.fecUp = s.fecUp.filter (fun u => u.fecid != f.fecid)
          ∧ s1.lt = s.lt
          ∧ s1.sent = s.sent
              ++ [Output.tcp packet.senderAddress { packet with type := LDPType.LABEL_RELEASE }]
              ++ (s.fecUp.filter (fun u => u.fecid == f.fecid)).map (fun u =>
                    Output.tcp u.peer
                        { type := LDPType.LABEL_WITHDRAW, senderAddress := rt.routerId,
                          receiverAddress := u.peer, fec := ⟨f.addr, f.length⟩,
                          label := u.label, status := 0 })
              ++ [Output.tcp packet.senderAddress
                  { type := LDPType.LABEL_REQUEST, senderAddress := rt.routerId,
                    receiverAddress := packet.senderAddress, fec := ⟨f.addr, f.length⟩,
                    label := 0, status := 0 }]))
    ∧ (packet.label > 0 → connected s.myPeers packet.senderAddress = true →
      f.nextHop = packet.senderAddress → (s.fecDown.map bindKey).Nodup →
      (∀ u ∈ s.fecUp, u.fecid = f.fecid → connected s.myPeers u.peer = true) →
      ∃ s1, processLABEL_WITHDRAW x rt ift packet s = Except.ok s1) := by
  have hne : (packet.label != dit.label) = false := by simp [hl]
  have hrun : packet.label > 0 → connected s.myPeers packet.senderAddress = true →
      processLABEL_WITHDRAW x rt ift packet s =
        updateFecListEntry x rt ift f
          { s with fecDown := eraseFecBind s.fecDown f.fecid packet.senderAddress
                   sent := s.sent ++ [Output.tcp packet.senderAddress
                     { packet with type := LDPType.LABEL_RELEASE }] } := by
    intro hpos hc
    have hpos1 : ¬ ¬ packet.label > 0 := not_not.mpr hpos
    unfold processLABEL_WITHDRAW
    simp only [hpos1, ↓reduceIte, hf, hd, hne, Bool.false_eq_true,
      sendToPeer_ok _ _ _ hc]
  have hgone : (s.fecDown.map bindKey).Nodup →
      findFecBind (eraseFecBind s.fecDown f.fecid packet.senderAddress) f.fecid
        packet.senderAddress = none := by
    intro hn
    rw [findFecBind_none_iff, eraseFecBind_nodup _ _ _ hn]
    intro b hb hk
    have := (List.mem_filter.mp hb).2
    simp [hk.1, hk.2] at this
  refine ⟨hrun, ?_, ?_⟩
  · intro s1 h
    have h0 := h
    unfold processLABEL_WITHDRAW at h
    simp only [hf, hd, hne, Bool.false_eq_true, ↓reduceIte] at h
    split at h
    · cases h
    · split at h
      · cases h
      · rename_i m hm
        obtain ⟨rfl, hc⟩ := sendToPeer_eq_ok _ _ _ _ hm
        obtain ⟨up, lt1, out, hs1⟩ := updateFecListEntry_ok _ _ _ _ _ _ h
        obtain ⟨l1, l2, hsplit, _, herase⟩ := find?_split _ _ _ hd
        have hfd : s1.fecDown = eraseFecBind s.fecDown f.fecid packet.senderAddress := by
          rw [hs1]
        refine ⟨⟨l1, l2, hsplit, by rw [hfd]; exact herase⟩, ?_, ⟨out, by rw [hs1]; simp⟩,
          by rw [hs1], by rw [hs1], by rw [hs1], ?_⟩
        · intro hn
          rw [hfd]
          exact (findFecBind_none_iff _ _ _).mp (hgone hn)
        · intro hnh hn
          have he : connected
              ({ s with fecDown := eraseFecBind s.fecDown f.fecid packet.senderAddress
                        sent := s.sent ++ [Output.tcp packet.senderAddress
                          { packet with type := LDPType.LABEL_RELEASE }] } : State).myPeers
              f.nextHop = true := by rw [hnh]; exact hc
          have hd1 : findFecBind
              ({ s with fecDown := eraseFecBind s.fecDown f.fecid packet.senderAddress
                        sent := s.sent ++ [Output.tcp packet.senderAddress
                          { packet with type := LDPType.LABEL_RELEASE }] } : State).fecDown
              f.fecid f.nextHop = none := by rw [hnh]; exact hgone hn
          have := (updateFecListEntry_request x rt ift f _ he hd1).1 s1 h
          rw [this, hnh]
          exact ⟨rfl, rfl, rfl⟩
  · intro hpos hc hnh hn hup
    rw [hrun hpos hc]
    have he : connected
        ({ s with fecDown := eraseFecBind s.fecDown f.fecid packet.senderAddress
                  sent := s.sent ++ [Output.tcp packet.senderAddress
                    { packet with type := LDPType.LABEL_RELEASE }] } : State).myPeers
        f.nextHop = true := by rw [hnh]; exact hc
    have hd1 : findFecBind
        ({ s with fecDown := eraseFecBind s.fecDown f.fecid packet.senderAddress
                  sent := s.sent ++ [Output.tcp packet.senderAddress
                    { packet with type := LDPType.LABEL_RELEASE }] } : State).fecDown
        f.fecid f.nextHop = none := by rw [hnh]; exact hgone hn
    exact (updateFecListEntry_request x rt ift f _ he hd1).2 hup

theorem processLABEL_WITHDRAW_known_witness :
    findFecEntry (afterRun ipv4Ext lspUp).fecList withdrawFromDown.fec.addr
        withdrawFromDown.fec.length = some ⟨1, 167903232, 16, 167772163⟩
    ∧ findFecBind (afterRun ipv4Ext lspUp).fecDown 1 withdrawFromDown.senderAddress
        = some ⟨1, 167772163, 100⟩
    ∧ processLABEL_WITHDRAW ipv4Ext rtVia [] withdrawFromDown (afterRun ipv4Ext lspUp)
        = Except.ok (afterRun ipv4Ext withdrawn)
    ∧ (afterRun ipv4Ext lspUp).fecUp = [⟨1, 167772162, 1⟩]
    ∧ (afterRun ipv4Ext withdrawn).fecUp = []
    ∧ (afterRun ipv4Ext withdrawn).fecDown = []
    ∧ (∃ out, (afterRun ipv4Ext withdrawn).sent = (afterRun ipv4Ext lspUp).sent
          ++ Output.tcp 167772163 { withdrawFromDown with type := LDPType.LABEL_RELEASE }
            :: out) :=
  ⟨by decide, by decide, rfl, by decide, by decide, by decide,
   ((processLABEL_WITHDRAW_known ipv4Ext rtVia [] withdrawFromDown (afterRun ipv4Ext lspUp)
      ⟨1, 167903232, 16, 167772163⟩ ⟨1, 167772163, 100⟩ (by decide) (by decide) rfl).2.1
      (afterRun ipv4Ext withdrawn) rfl).2.2.1⟩


/-! ### C17: label releases -/

/-- C18, as stated, fails: with sessions to 10.0.0.2 and 10.0.0.3 up, a
LABEL_RELEASE and a LABEL_WITHDRAW from 10.0.0.2 with label 0 for
10.9.0.0/16, which is not in the FEC list, stop on `ASSERT(label > 0)`, the
first statement of both handlers. -/
theorem unknown_binding_counterexample :
    Reachable ipv4Ext (afterRun ipv4Ext sessionsUp)
    ∧ findFecEntry (afterRun ipv4Ext sessionsUp).fecList releaseLabelZero.fec.addr
        releaseLabelZero.fec.length = none
    ∧ releaseLabelZero.label = 0
    ∧ processLABEL_RELEASE releaseLabelZero (afterRun ipv4Ext sessionsUp)
        = Except.error Abort.assertLabel
    ∧ processLABEL_WITHDRAW ipv4Ext rtVia []
        { releaseLabelZero with type := LDPType.LABEL_WITHDRAW } (afterRun ipv4Ext sessionsUp)
        = Except.error Abort.assertLabel :=
  ⟨reachable_afterRun ipv4Ext sessionsUp (by decide), by decide, rfl, rfl, rfl⟩

/-- C18, amended. For every state and every LABEL_WITHDRAW (respectively
LABEL_RELEASE) from peer P with label L > 0 for a FEC: if the FEC is not in
the FEC list, or `fecDown` (respectively `fecUp`) has no binding (f.id, P)
with label L, processing returns the state unchanged: it does not fail,
sends nothing, and the FEC list, the bindings, the pending requests and the
LIB are as before. -/
theorem unknown_binding_ignored (x : Ext) (rt : RoutingTable) (ift : InterfaceTable)
    (packet : LDPPacket) (s : State) (hpos : packet.label > 0) :
    ((∀ f, findFecEntry s.fecList packet.fec.addr packet.fec.length = some f →
        ∀ b ∈ s.fecDown, b.fecid = f.fecid → b.peer = packet.senderAddress →
          b.label ≠ packet.label) →
      processLABEL_WITHDRAW x rt ift packet s = Except.ok s)
    ∧ ((∀ f, findFecEntry s.fecList packet.fec.addr packet.fec.length = some f →
        ∀ b ∈ s.fecUp, b.fecid = f.fecid → b.peer = packet.senderAddress →
          b.label ≠ packet.label) →
      processLABEL_RELEASE packet s = Except.ok s) := by
  have hpos1 : ¬ ¬ packet.label > 0 := not_not.mpr hpos
  constructor
  · intro h
    unfold processLABEL_WITHDRAW
    simp only [hpos1, ↓reduceIte]
    cases hf : findFecEntry s.fecList packet.fec.addr packet.fec.length with
    | none => rfl
    | some f =>
      dsimp only
      cases hd : findFecBind s.fecDown f.fecid packet.senderAddress with
      | none => rfl
      | some dit =>
        have hkey := List.find?_some hd
        simp only [Bool.and_eq_true, beq_iff_eq] at hkey
        have hne := h f hf dit (List.mem_of_find?_eq_some hd) hkey.1 hkey.2
        have : (packet.label != dit.label) = true := by
          simp only [bne_iff_ne, ne_eq]
          exact fun he => hne he.symm
        simp only [this, ↓reduceIte]
  · intro h
    unfold processLABEL_RELEASE
    simp only [hpos1, ↓reduceIte]
    cases hf : findFecEntry s.fecList packet.fec.addr packet.fec.length with
    | none => rfl
    | some f =>
      dsimp only
      cases hd : findFecBind s.fecUp f.fecid packet.senderAddress with
      | none => rfl
      | some uit =>
        have hkey := List.find?_some hd
        simp only [Bool.and_eq_true, beq_iff_eq] at hkey
        have hne := h f hf uit (List.mem_of_find?_eq_some hd) hkey.1 hkey.2
        have : (packet.label != uit.label) = true := by
          simp only [bne_iff_ne, ne_eq]
          exact fun he => hne he.symm
        simp only [this, ↓reduceIte]

theorem unknown_binding_ignored_witness :
    (5 : Int) > 0
    ∧ findFecBind (afterRun ipv4Ext lspUp).fecUp 1 167772162 = some ⟨1, 167772162, 1⟩
    ∧ processLABEL_RELEASE { releaseFromUp with label := 5 } (afterRun ipv4Ext lspUp)
        = Except.ok (afterRun ipv4Ext lspUp) :=
  ⟨by decide, by decide,
   (unknown_binding_ignored ipv4Ext rtVia [] { releaseFromUp with label := 5 }
      (afterRun ipv4Ext lspUp) (by decide)).2 (by decide)⟩


/-! ### C19: retry after NO_ROUTE -/

/-- C19, as stated, fails. Router 10.0.0.1 has requested 10.2.0.0/16 from its
next hop 10.0.0.3, which answers NO_ROUTE: the notification is scheduled for
retry. The hello timeout of 10.0.0.3 fires first; the FEC keeps its next hop.
When the retry fires, `sendMappingRequest` stops on `ASSERT(sock)` in
`peerSocket`: no LABEL_REQUEST is sent. -/
theorem noRoute_retry_counterexample :
    Reachable ipv4Ext (afterRun ipv4Ext peerLostBeforeRetry)
    ∧ Output.retryLater notifyFromDown ∈ (afterRun ipv4Ext peerLostBeforeRetry).sent
    ∧ findFecEntry (afterRun ipv4Ext peerLostBeforeRetry).fecList notifyFromDown.fec.addr
        notifyFromDown.fec.length = some ⟨1, 167903232, 16, notifyFromDown.senderAddress⟩
    ∧ handle ipv4Ext rtVia [] (Event.notifyRetry notifyFromDown)
        (afterRun ipv4Ext peerLostBeforeRetry) = Except.error Abort.noSession :=
  ⟨reachable_afterRun ipv4Ext peerLostBeforeRetry (by decide), by decide, by decide, rfl⟩

/-- C19, amended. A NOTIFICATION with status NO_ROUTE from peer P for a FEC
(address, length). If the FEC is in the FEC list with next hop P and the
notification arrived from the network, it is scheduled for retry and nothing
is sent. If it is the retry, the FEC is in the list with next hop P, and
there is an established session to P, exactly one LABEL_REQUEST for the FEC
is sent to P. If the FEC is absent or its next hop is not P, nothing is sent
and nothing is scheduled. Whenever it is processed to the end, only the log
has changed. -/
theorem noRoute_retry (x : Ext) (rt : RoutingTable) (packet : LDPPacket) (s : State)
    (hs : packet.status = x.NO_ROUTE) :
    (∀ f, findFecEntry s.fecList packet.fec.addr packet.fec.length = some f →
      f.nextHop = packet.senderAddress →
      processNOTIFICATION x rt packet false s
        = Except.ok { s with sent := s.sent ++ [Output.retryLater packet] })
    ∧ (∀ f, findFecEntry s.fecList packet.fec.addr packet.fec.length = some f →
      f.nextHop = packet.senderAddress →
      connected s.myPeers packet.senderAddress = true →
      processNOTIFICATION x rt packet true s
        = Except.ok { s with sent := s.sent ++ [Output.tcp packet.senderAddress
            { type := LDPType.LABEL_REQUEST, senderAddress := rt.routerId,
              receiverAddress := packet.senderAddress, fec := ⟨packet.fec.addr, packet.fec.length⟩,
              label := 0, status := 0 }] })
    ∧ ((findFecEntry s.fecList packet.fec.addr packet.fec.length = none
        ∨ ∃ f, findFecEntry s.fecList packet.fec.addr packet.fec.length = some f
            ∧ f.nextHop ≠ packet.senderAddress) →
      ∀ isSelfMessage, processNOTIFICATION x rt packet isSelfMessage s = Except.ok s)
    ∧ (∀ isSelfMessage s1, processNOTIFICATION x rt packet isSelfMessage s = Except.ok s1 →
      s1.fecList = s.fecList ∧ s1.fecDown = s.fecDown ∧ s1.fecUp = s.fecUp
      ∧ s1.pending = s.pending ∧ s1.lt = s.lt ∧ s1.myPeers = s.myPeers) := by
  refine ⟨?_, ?_, ?_, ?_⟩
  · intro f hf hn
    unfold processNOTIFICATION
    simp [hs, hf, hn]
  · intro f hf hn hc
    unfold processNOTIFICATION
    simp [hs, hf, hn, sendMappingRequest, mappingRequest, sendToPeer_ok _ _ _ hc]
  · intro h isSelf
    unfold processNOTIFICATION
    rcases h with h | ⟨f, hf, hn⟩
    · simp [hs, h]
    · simp [hs, hf, hn]
  · intro isSelf s1 h
    obtain ⟨out, rfl⟩ := processNOTIFICATION_ok _ _ _ _ _ _ h
    exact ⟨rfl, rfl, rfl, rfl, rfl, rfl⟩

theorem noRoute_retry_witness :
    notifyFromDown.status = ipv4Ext.NO_ROUTE
    ∧ findFecEntry (afterRun ipv4Ext sessionsUp).fecList notifyFromDown.fec.addr
        notifyFromDown.fec.length = some ⟨1, 167903232, 16, 167772163⟩
    ∧ connected (afterRun ipv4Ext sessionsUp).myPeers notifyFromDown.senderAddress = true
    ∧ processNOTIFICATION ipv4Ext rtVia notifyFromDown false (afterRun ipv4Ext sessionsUp)
        = Except.ok { afterRun ipv4Ext sessionsUp with
            sent := (afterRun ipv4Ext sessionsUp).sent ++ [Output.retryLater notifyFromDown] }
    ∧ processNOTIFICATION ipv4Ext rtVia notifyFromDown true (afterRun ipv4Ext sessionsUp)
        = Except.ok { afterRun ipv4Ext sessionsUp with
            sent := (afterRun ipv4Ext sessionsUp).sent ++ [Output.tcp 167772163
                { type := LDPType.LABEL_REQUEST, senderAddress := rtVia.routerId,
                  receiverAddress := 167772163, fec := ⟨167903232, 16⟩,
                  label := 0, status := 0 }] } :=
  ⟨by decide, by decide, by decide,
   (noRoute_retry ipv4Ext rtVia notifyFromDown (afterRun ipv4Ext sessionsUp) (by decide)).1
      ⟨1, 167903232, 16, 167772163⟩ (by decide) rfl,
   (noRoute_retry ipv4Ext rtVia notifyFromDown (afterRun ipv4Ext sessionsUp) (by decide)).2.1
      ⟨1, 167903232, 16, 167772163⟩ (by decide) rfl (by decide)⟩

/-! ### C20: the purge on hello timeout -/

theorem peerSocketSoft_none_of_absent (l : List peer_info) (a : IPAddress)
    (h : ∀ q ∈ l, q.peerIP ≠ a) : peerSocketSoft l a = none := by
  rw [peerSocketSoft_eq]
  have : l.find? (fun p => p.peerIP == a) = none := by
    rw [List.find?_eq_none]
    intro q hq
    simpa using h q hq
  rw [this]
  rfl

theorem eraseIdx_absent :
    ∀ (l : List peer_info) (i : Nat) (p : peer_info), l[i]? = some p →
      (l.map (fun q => q.peerIP)).Nodup →
      ∀ q ∈ l.eraseIdx i, q.peerIP ≠ p.peerIP := by
  intro l
  induction l with
  | nil => intro i p h; simp at h
  | cons c rest ih =>
    intro i p h hn q hq
    rw [List.map_cons, List.nodup_cons] at hn
    cases i with
    | zero =>
      simp only [List.getElem?_cons_zero, Option.some.injEq] at h
      subst h
      rw [List.eraseIdx_cons_zero] at hq
      intro he
      apply hn.1
      rw [← he]
      exact List.mem_map_of_mem _ hq
    | succ n =>
      simp only [List.getElem?_cons_succ] at h
      rw [List.eraseIdx_cons_succ] at hq
      rcases List.mem_cons.mp hq with rfl | hq
      · intro he
        apply hn.1
        rw [he]
        exact List.mem_map_of_mem _ (List.getElem?_mem h)
      · exact ih n p h hn.2 q hq

/-- The loop of reconciliation for an egress FEC sends nothing and keeps the
pairs (FEC id, peer) of `fecUp`. -/
theorem adjustUpstream_egress (x : Ext) (rt : RoutingTable) (ift : InterfaceTable)
    (myPeers : List peer_info) (f : fec_t) (dit : Option fec_bind_t) :
    ∀ (l : List fec_bind_t) (lt : LIBTable),
      ∃ up lt1, adjustUpstream x rt ift myPeers f true dit l lt = Except.ok (up, lt1, [])
        ∧ up.map bindKey = l.map bindKey := by
  intro l
  induction l with
  | nil => intro lt; exact ⟨[], lt, rfl, rfl⟩
  | cons uit rest ih =>
    intro lt
    unfold adjustUpstream
    dsimp only
    split
    · obtain ⟨up, lt1, h1, h2⟩ := ih lt
      rw [h1]
      exact ⟨uit :: up, lt1, rfl, by simp [h2]⟩
    · simp only [↓reduceIte]
      obtain ⟨up, lt1, h1, h2⟩ := ih
        (installLibEntry lt uit.label (findInterfaceFromPeerAddr x rt ift uit.peer) popLabel
          (findInterfaceFromPeerAddr x rt ift f.nextHop) x.LDP_USER_TRAFFIC).1
      rw [h1]
      exact ⟨_ :: up, lt1, rfl, by simp [h2, bindKey]⟩

/-- Reconciliation of an egress FEC (no session to the next hop, no downstream
binding by way of it) runs to the end, sends nothing, and writes `fecUp` and
the LIB only, keeping the pairs (FEC id, peer) of `fecUp`. -/
theorem updateFecListEntry_egress (x : Ext) (rt : RoutingTable) (ift : InterfaceTable)
    (f : fec_t) (s : State) (he : peerSocketSoft s.myPeers f.nextHop = none)
    (hd : findFecBind s.fecDown f.fecid f.nextHop = none) :
    ∃ up lt1, updateFecListEntry x rt ift f s = Except.ok { s with fecUp := up, lt := lt1 }
      ∧ up.map bindKey = s.fecUp.map bindKey := by
  obtain ⟨up, lt1, h1, h2⟩ := adjustUpstream_egress x rt ift s.myPeers f none s.fecUp s.lt
  refine ⟨up, lt1, ?_, h2⟩
  unfold updateFecListEntry
  simp [he, hd, h1]

theorem updateFecListLoop_egress (x : Ext) (rt : RoutingTable) (ift : InterfaceTable)
    (nextHop : IPAddress) :
    ∀ (l : List fec_t) (s : State), peerSocketSoft s.myPeers nextHop = none →
      (∀ b ∈ s.fecDown, b.peer ≠ nextHop) →
      ∃ up lt1, updateFecListLoop x rt ift nextHop l s
          = Except.ok { s with fecUp := up, lt := lt1 }
        ∧ up.map bindKey = s.fecUp.map bindKey := by
  intro l
  induction l with
  | nil => intro s _ _; exact ⟨s.fecUp, s.lt, rfl, rfl⟩
  | cons it rest ih =>
    intro s he hd
    unfold updateFecListLoop
    split
    · exact ih s he hd
    · rename_i hnh
      have hnh1 : it.nextHop = nextHop := by simpa using hnh
      have hd1 : findFecBind s.fecDown it.fecid it.nextHop = none := by
        rw [findFecBind_none_iff]
        intro b hb hk
        exact hd b hb (hk.2.trans hnh1)
      obtain ⟨up, lt1, h1, h2⟩ := updateFecListEntry_egress x rt ift it s (by rw [hnh1]; exact he) hd1
      rw [h1]
      obtain ⟨up2, lt2, h3, h4⟩ := ih { s with fecUp := up, lt := lt1 } he hd
      exact ⟨up2, lt2, h3, h4.trans h2⟩

/-- C20 fails on the code. Router 10.0.0.9 has heard the hello of 10.0.0.2,
for which it has the passive role: `processLDPHello` has put the peer in the
peer table without a socket and has scheduled its hello timeout. When that
timeout fires before the peer has connected, `processHelloTimeout` stops on
`ASSERT(myPeers[i].socket)`: the peer is not erased and nothing is purged. -/
theorem helloTimeout_of_passive_peer_stops :
    Reachable ipv4Ext (afterRun ipv4Ext passiveHello)
    ∧ (afterRun ipv4Ext passiveHello).myPeers = [⟨167772162, "ppp0", false, none, 0⟩]
    ∧ processHelloTimeout ipv4Ext rtNine [] 0 (afterRun ipv4Ext passiveHello)
        = Except.error Abort.assertSocket :=
  ⟨reachable_afterRun ipv4Ext passiveHello (by decide), by decide, rfl⟩

/-- The purge of a peer that has a socket. In every state whose peer table has
at most one entry per peer address, for every peer P of the table that has
a socket: when the
hello timeout of P fires, `processHelloTimeout` runs to the end; afterwards
the entry of P is erased and the peer table holds no entry for P, `fecDown`
is the previous one without the bindings of peer P, `fecUp` has no binding
of peer P, and nothing is sent to any peer: the log only gains the link
state change for the TED. -/
theorem helloTimeout_purge (x : Ext) (rt : RoutingTable) (ift : InterfaceTable) (msg : Nat)
    (s : State) (i : Nat) (p : peer_info) (sock : TCPSocket)
    (hown : findTimeoutOwner s.myPeers msg = some i)
    (hp : s.myPeers[i]? = some p)
    (hsock : p.socket = some sock)
    (huniq : (s.myPeers.map (fun q => q.peerIP)).Nodup) :
    ∃ s1, processHelloTimeout x rt ift msg s = Except.ok s1
      ∧ s1.myPeers = s.myPeers.eraseIdx i
      ∧ (∀ q ∈ s1.myPeers, q.peerIP ≠ p.peerIP)
      ∧ s1.fecDown = s.fecDown.filter (fun b => b.peer != p.peerIP)
      ∧ (∀ b ∈ s1.fecUp, b.peer ≠ p.peerIP)
      ∧ s1.sent = s.sent ++
          [Output.tedLinkState rt.routerId p.peerIP false,
           Output.announceLinkChange rt.routerId p.peerIP,
           Output.rebuildRoutingTable]
      ∧ s1.fecList = s.fecList ∧ s1.pending = s.pending := by
  have habs := eraseIdx_absent s.myPeers i p hp huniq
  have hnone : peerSocketSoft (s.myPeers.eraseIdx i) p.peerIP = none :=
    peerSocketSoft_none_of_absent _ _ habs
  have hdown : ∀ b ∈ s.fecDown.filter (fun dit => dit.peer != p.peerIP), b.peer ≠ p.peerIP := by
    intro b hb
    simpa using (List.mem_filter.mp hb).2
  obtain ⟨up, lt1, hloop, hkeys⟩ := updateFecListLoop_egress x rt ift p.peerIP s.fecList
    { s with myPeers := s.myPeers.eraseIdx i,
             fecDown := s.fecDown.filter (fun dit => dit.peer != p.peerIP),
             fecUp := s.fecUp.filter (fun uit => uit.peer != p.peerIP) } hnone hdown
  refine ⟨{ s with myPeers := s.myPeers.eraseIdx i,
                    fecDown := s.fecDown.filter (fun dit => dit.peer != p.peerIP),
                    fecUp := up,
                    lt := lt1,
                    sent := s.sent ++
                      [Output.tedLinkState rt.routerId p.peerIP false,
                       Output.announceLinkChange rt.routerId p.peerIP,
                       Output.rebuildRoutingTable] },
    ?_, rfl, habs, rfl, ?_, rfl, rfl, rfl⟩
  · unfold processHelloTimeout
    simp only [hown, hp, hsock, updateFecList, hloop]
  · intro b hb
    have hb1 : bindKey b ∈ up.map bindKey := List.mem_map_of_mem _ hb
    rw [hkeys] at hb1
    obtain ⟨c, hc, hcb⟩ := List.mem_map.mp hb1
    have hc2 : c.peer ≠ p.peerIP := by simpa using (List.mem_filter.mp hc).2
    simp only [bindKey, Prod.mk.injEq] at hcb
    rw [← hcb.2]
    exact hc2

theorem helloTimeout_purge_witness :
    findTimeoutOwner (afterRun ipv4Ext lspUp).myPeers 0 = some 0
    ∧ (afterRun ipv4Ext lspUp).myPeers[0]?
        = some ⟨167772162, "ppp0", true, some ⟨SockState.CONNECTED, 0⟩, 0⟩
    ∧ ((afterRun ipv4Ext lspUp).myPeers.map (fun q => q.peerIP)).Nodup
    ∧ (afterRun ipv4Ext lspUp).fecUp = [⟨1, 167772162, 1⟩]
    ∧ ∃ s1, processHelloTimeout ipv4Ext rtVia [] 0 (afterRun ipv4Ext lspUp) = Except.ok s1
        ∧ (∀ q ∈ s1.myPeers, q.peerIP ≠ 167772162)
        ∧ s1.fecDown = (afterRun ipv4Ext lspUp).fecDown.filter (fun b => b.peer != 167772162)
        ∧ (∀ b ∈ s1.fecUp, b.peer ≠ 167772162) :=
  ⟨by decide, by decide, by decide, by decide,
   (helloTimeout_purge ipv4Ext rtVia [] 0 (afterRun ipv4Ext lspUp) 0
      ⟨167772162, "ppp0", true, some ⟨SockState.CONNECTED, 0⟩, 0⟩ ⟨SockState.CONNECTED, 0⟩
      (by decide) (by decide) rfl (by decide)).imp
      (fun s1 h => ⟨h.1, h.2.2.1, h.2.2.2.1, h.2.2.2.2.1⟩)⟩


/-! ### C24: reconciliation of a FEC that is egress or has a downstream binding -/

theorem adjustUpstream_pop (x : Ext) (rt : RoutingTable) (ift : InterfaceTable)
    (myPeers : List peer_info) (f : fec_t) (dit : Option fec_bind_t) :
    ∀ (l : List fec_bind_t) (lt : LIBTable),
      adjustUpstream x rt ift myPeers f true dit l lt
        = Except.ok ((programUpstream x rt ift f popLabel l lt).1,
                     (programUpstream x rt ift f popLabel l lt).2, []) := by
  intro l
  induction l with
  | nil => intro lt; rfl
  | cons uit rest ih =>
    intro lt
    unfold adjustUpstream programUpstream
    by_cases h : uit.fecid = f.fecid
    · simp only [h, bne_self_eq_false, Bool.false_eq_true, ↓reduceIte, ih]
    · have h1 : (uit.fecid != f.fecid) = true := by simpa using h
      simp only [h1, ↓reduceIte, ih, h]

theorem adjustUpstream_swap (x : Ext) (rt : RoutingTable) (ift : InterfaceTable)
    (myPeers : List peer_info) (f : fec_t) (d : fec_bind_t) :
    ∀ (l : List fec_bind_t) (lt : LIBTable),
      adjustUpstream x rt ift myPeers f false (some d) l lt
        = Except.ok ((programUpstream x rt ift f (swapLabel d.label) l lt).1,
                     (programUpstream x rt ift f (swapLabel d.label) l lt).2, []) := by
  intro l
  induction l with
  | nil => intro lt; rfl
  | cons uit rest ih =>
    intro lt
    unfold adjustUpstream programUpstream
    by_cases h : uit.fecid = f.fecid
    · simp only [h, bne_self_eq_false, Bool.false_eq_true, ↓reduceIte, ih]
    · have h1 : (uit.fecid != f.fecid) = true := by simpa using h
      simp only [h1, ↓reduceIte, ih, h]

/-- Programming keeps the pairs (FEC id, peer), leaves the bindings of other
FECs as they are, and gives each binding of the FEC the label its install
returns. -/
theorem programUpstream_bindings (x : Ext) (rt : RoutingTable) (ift : InterfaceTable)
    (f : fec_t) (op : LabelOpVector) :
    ∀ (l : List fec_bind_t) (lt : LIBTable),
      List.Forall₂
        (fun u u1 : fec_bind_t => u1.fecid = u.fecid ∧ u1.peer = u.peer
          ∧ (u.fecid ≠ f.fecid → u1 = u)
          ∧ (u.fecid = f.fecid → ∃ lt0, u1.label = (installLibEntry lt0 u.label
                (findInterfaceFromPeerAddr x rt ift u.peer) op
                (findInterfaceFromPeerAddr x rt ift f.nextHop) x.LDP_USER_TRAFFIC).2))
        l (programUpstream x rt ift f op l lt).1 := by
  intro l
  induction l with
  | nil => intro lt; exact List.Forall₂.nil
  | cons u rest ih =>
    intro lt
    unfold programUpstream
    split
    · rename_i h
      exact List.Forall₂.cons ⟨rfl, rfl, fun hn => absurd h hn, fun _ => ⟨lt, rfl⟩⟩ (ih _)
    · rename_i h
      exact List.Forall₂.cons ⟨rfl, rfl, fun _ => rfl, fun he => absurd he h⟩ (ih _)

theorem programUpstream_keys (x : Ext) (rt : RoutingTable) (ift : InterfaceTable)
    (f : fec_t) (op : LabelOpVector) :
    ∀ (l : List fec_bind_t) (lt : LIBTable),
      (programUpstream x rt ift f op l lt).1.map bindKey = l.map bindKey
      ∧ (programUpstream x rt ift f op l lt).1.filter (fun u => u.fecid != f.fecid)
          = l.filter (fun u => u.fecid != f.fecid) := by
  intro l
  induction l with
  | nil => intro lt; exact ⟨rfl, rfl⟩
  | cons u rest ih =>
    intro lt
    unfold programUpstream
    split
    · rename_i h
      have h1 : (u.fecid != f.fecid) = false := by simp [h]
      refine ⟨?_, ?_⟩
      · simp only [List.map_cons, (ih _).1]
        rfl
      · simp only [List.filter_cons, h1, Bool.false_eq_true, ↓reduceIte, (ih _).2]
    · rename_i h
      have h1 : (u.fecid != f.fecid) = true := by simpa using h
      refine ⟨?_, ?_⟩
      · simp only [List.map_cons, (ih _).1]
      · simp only [List.filter_cons, h1, ↓reduceIte, (ih _).2]

theorem installLibEntry_label (lt : LIBTable) (inLabel : Int) (inInterface : String)
    (outLabel : LabelOpVector) (outInterface : String) (color : Int) (h : inLabel ≠ -1) :
    (installLibEntry lt inLabel inInterface outLabel outInterface color).2 = inLabel := by
  unfold installLibEntry
  simp [h]

/-- Bindings that carry a label keep it. -/
theorem programUpstream_labels (x : Ext) (rt : RoutingTable) (ift : InterfaceTable)
    (f : fec_t) (op : LabelOpVector) :
    ∀ (l : List fec_bind_t) (lt : LIBTable),
      (∀ u ∈ l, u.fecid = f.fecid → u.label ≠ -1) →
      (programUpstream x rt ift f op l lt).1 = l := by
  intro l
  induction l with
  | nil => intro lt _; rfl
  | cons u rest ih =>
    intro lt hl
    have hrest : ∀ v ∈ rest, v.fecid = f.fecid → v.label ≠ -1 :=
      fun v hv => hl v (by simp [hv])
    unfold programUpstream
    split
    · rename_i h
      simp only [installLibEntry_label _ _ _ _ _ _ (hl u (by simp) h), ih _ hrest]
    · simp only [ih _ hrest]

/-- After programming, the LIB holds for every binding of the FEC a
cross-connect keyed by the label of the binding, with the label operation
`op` towards the interface of the next hop. -/
theorem programUpstream_lib (x : Ext) (rt : RoutingTable) (ift : InterfaceTable)
    (f : fec_t) (op : LabelOpVector) :
    ∀ (l : List fec_bind_t) (lt : LIBTable),
      (∀ u1 ∈ (programUpstream x rt ift f op l lt).1, u1.fecid = f.fecid →
        ∃ e ∈ (programUpstream x rt ift f op l lt).2.lib, e.inLabel = u1.label
          ∧ e.outLabel = op
          ∧ e.outInterface = findInterfaceFromPeerAddr x rt ift f.nextHop
          ∧ e.color = x.LDP_USER_TRAFFIC)
      ∧ (∀ k, (∃ e ∈ lt.lib, e.inLabel = k ∧ e.outLabel = op
            ∧ e.outInterface = findInterfaceFromPeerAddr x rt ift f.nextHop
            ∧ e.color = x.LDP_USER_TRAFFIC) →
          ∃ e ∈ (programUpstream x rt ift f op l lt).2.lib, e.inLabel = k ∧ e.outLabel = op
            ∧ e.outInterface = findInterfaceFromPeerAddr x rt ift f.nextHop
            ∧ e.color = x.LDP_USER_TRAFFIC) := by
  intro l
  induction l with
  | nil =>
    intro lt
    exact ⟨fun u1 h => by simp [programUpstream] at h, fun k h => h⟩
  | cons u rest ih =>
    intro lt
    unfold programUpstream
    split
    · rename_i hu
      dsimp only
      have hnew : ∃ e ∈ (installLibEntry lt u.label (findInterfaceFromPeerAddr x rt ift u.peer) op
            (findInterfaceFromPeerAddr x rt ift f.nextHop) x.LDP_USER_TRAFFIC).1.lib,
          e.inLabel = (installLibEntry lt u.label (findInterfaceFromPeerAddr x rt ift u.peer) op
            (findInterfaceFromPeerAddr x rt ift f.nextHop) x.LDP_USER_TRAFFIC).2
          ∧ e.outLabel = op
          ∧ e.outInterface = findInterfaceFromPeerAddr x rt ift f.nextHop
          ∧ e.color = x.LDP_USER_TRAFFIC := by
        unfold installLibEntry
        split
        · exact ⟨⟨lt.maxLabel + 1, findInterfaceFromPeerAddr x rt ift u.peer, op,
            findInterfaceFromPeerAddr x rt ift f.nextHop, x.LDP_USER_TRAFFIC⟩,
            by simp, rfl, rfl, rfl, rfl⟩
        · exact ⟨⟨u.label, findInterfaceFromPeerAddr x rt ift u.peer, op,
            findInterfaceFromPeerAddr x rt ift f.nextHop, x.LDP_USER_TRAFFIC⟩,
            by simp, rfl, rfl, rfl, rfl⟩
      have hkeep : ∀ k, (∃ e ∈ lt.lib, e.inLabel = k ∧ e.outLabel = op
            ∧ e.outInterface = findInterfaceFromPeerAddr x rt ift f.nextHop
            ∧ e.color = x.LDP_USER_TRAFFIC) →
          ∃ e ∈ (installLibEntry lt u.label (findInterfaceFromPeerAddr x rt ift u.peer) op
            (findInterfaceFromPeerAddr x rt ift f.nextHop) x.LDP_USER_TRAFFIC).1.lib,
            e.inLabel = k ∧ e.outLabel = op
            ∧ e.outInterface = findInterfaceFromPeerAddr x rt ift f.nextHop
            ∧ e.color = x.LDP_USER_TRAFFIC := by
        intro k ⟨e, he, h1, h2, h3, h4⟩
        unfold installLibEntry
        split
        · exact ⟨e, by simp [he], h1, h2, h3, h4⟩
        · by_cases hk : k = u.label
          · exact ⟨⟨u.label, findInterfaceFromPeerAddr x rt ift u.peer, op,
              findInterfaceFromPeerAddr x rt ift f.nextHop, x.LDP_USER_TRAFFIC⟩,
              by simp, hk.symm, rfl, rfl, rfl⟩
          · refine ⟨e, ?_, h1, h2, h3, h4⟩
            simp only [List.mem_append, List.mem_filter, bne_iff_ne, ne_eq, List.mem_singleton]
            left
            exact ⟨he, by rw [h1]; exact hk⟩
      obtain ⟨ih1, ih2⟩ := ih (installLibEntry lt u.label
        (findInterfaceFromPeerAddr x rt ift u.peer) op
        (findInterfaceFromPeerAddr x rt ift f.nextHop) x.LDP_USER_TRAFFIC).1
      refine ⟨?_, fun k hk => ih2 k (hkeep k hk)⟩
      intro u1 hu1 hf1
      rcases List.mem_cons.mp hu1 with rfl | hu1
      · exact ih2 _ hnew
      · exact ih1 u1 hu1 hf1
    · rename_i hu
      dsimp only
      obtain ⟨ih1, ih2⟩ := ih lt
      refine ⟨?_, ih2⟩
      intro u1 hu1 hf1
      rcases List.mem_cons.mp hu1 with rfl | hu1
      · exact absurd hf1 hu
      · exact ih1 u1 hu1 hf1

/-- C24. Reconciliation (`updateFecListEntry`) of a FEC `f` that is egress (no
established session to `f.nextHop`, `op` = pop), or that has a downstream
binding (f.id, f.nextHop, Ld) by way of a session (`op` = swap to Ld). It
runs to the end and the state afterwards differs from the previous one in
`fecUp` and the LIB only: nothing is sent, and the downstream bindings, the
pending requests and the FEC list are as before. In `fecUp` the pairs
(FEC id, peer) are the same in the same order, the bindings of other FECs
are untouched, and every binding `u` of `f` has had one LIB install keyed by
its label with the operation `op`, whose returned label is stored in
`u.label` (the same label unless it was -1); afterwards the LIB holds a
cross-connect with `op` towards the interface of the next hop for the label
of every binding of `f`. -/
theorem updateFecListEntry_reinstall (x : Ext) (rt : RoutingTable) (ift : InterfaceTable)
    (f : fec_t) (s : State) (op : LabelOpVector)
    (h : ((peerSocketSoft s.myPeers f.nextHop).isNone = true
            ∧ findFecBind s.fecDown f.fecid f.nextHop = none ∧ op = popLabel)
         ∨ (∃ d, (peerSocketSoft s.myPeers f.nextHop).isNone = false
            ∧ findFecBind s.fecDown f.fecid f.nextHop = some d ∧ op = swapLabel d.label)) :
    ∃ up lt1,
      updateFecListEntry x rt ift f s = Except.ok { s with fecUp := up, lt := lt1 }
      ∧ (up, lt1) = programUpstream x rt ift f op s.fecUp s.lt
      ∧ up.map bindKey = s.fecUp.map bindKey
      ∧ up.filter (fun u => u.fecid != f.fecid) = s.fecUp.filter (fun u => u.fecid != f.fecid)
      ∧ List.Forall₂
          (fun u u1 : fec_bind_t => u1.fecid = u.fecid ∧ u1.peer = u.peer
            ∧ (u.fecid ≠ f.fecid → u1 = u)
            ∧ (u.fecid = f.fecid → ∃ lt0, u1.label = (installLibEntry lt0 u.label
                  (findInterfaceFromPeerAddr x rt ift u.peer) op
                  (findInterfaceFromPeerAddr x rt ift f.nextHop) x.LDP_USER_TRAFFIC).2))
          s.fecUp up
      ∧ ((∀ u ∈ s.fecUp, u.fecid = f.fecid → u.label ≠ -1) → up = s.fecUp)
      ∧ (∀ u1 ∈ up, u1.fecid = f.fecid →
          ∃ e ∈ lt1.lib, e.inLabel = u1.label ∧ e.outLabel = op
            ∧ e.outInterface = findInterfaceFromPeerAddr x rt ift f.nextHop
            ∧ e.color = x.LDP_USER_TRAFFIC) := by
  refine ⟨(programUpstream x rt ift f op s.fecUp s.lt).1,
    (programUpstream x rt ift f op s.fecUp s.lt).2, ?_, rfl,
    (programUpstream_keys x rt ift f op _ _).1, (programUpstream_keys x rt ift f op _ _).2,
    programUpstream_bindings x rt ift f op _ _, programUpstream_labels x rt ift f op _ _,
    (programUpstream_lib x rt ift f op _ _).1⟩
  rcases h with ⟨he, hd, rfl⟩ | ⟨d, he, hd, rfl⟩
  · unfold updateFecListEntry
    simp only [he, hd, Option.isSome_none, Bool.and_false, Bool.false_eq_true, ↓reduceIte,
      adjustUpstream_pop, Bool.not_true, Bool.false_and, List.append_nil]
  · unfold updateFecListEntry
    simp only [he, hd, Bool.false_and, Bool.false_eq_true, ↓reduceIte, adjustUpstream_swap,
      Bool.not_false, Option.isNone_some, Bool.and_false, List.append_nil]

theorem updateFecListEntry_reinstall_witness :
    (∃ d, (peerSocketSoft (afterRun ipv4Ext lspUp).myPeers 167772163).isNone = false
        ∧ findFecBind (afterRun ipv4Ext lspUp).fecDown 1 167772163 = some d
        ∧ swapLabel 100 = swapLabel d.label)
    ∧ ∃ up lt1,
      updateFecListEntry ipv4Ext rtVia [] ⟨1, 167903232, 16, 167772163⟩ (afterRun ipv4Ext lspUp)
        = Except.ok { afterRun ipv4Ext lspUp with fecUp := up, lt := lt1 }
      ∧ up = [⟨1, 167772162, 1⟩]
      ∧ lt1.lib = [⟨1, "ppp0", [LabelOp.swap 100], "ppp0", 1⟩] :=
  ⟨⟨⟨1, 167772163, 100⟩, by decide, by decide, rfl⟩,
   (updateFecListEntry_reinstall ipv4Ext rtVia [] ⟨1, 167903232, 16, 167772163⟩
      (afterRun ipv4Ext lspUp) (swapLabel 100)
      (Or.inr ⟨⟨1, 167772163, 100⟩, by decide, by decide, rfl⟩)).imp
    (fun up h => h.imp (fun lt1 h1 =>
      ⟨h1.1, congrArg Prod.fst h1.2.1, congrArg (fun p => p.2.lib) h1.2.1⟩))⟩


/-! ### C23: reconciliation of a FEC without downstream binding -/

/-- Reconciliation of a FEC that is egress or has a downstream binding by way
of its next hop leaves the log as it is. -/
theorem updateFecListEntry_silent (x : Ext) (rt : RoutingTable) (ift : InterfaceTable)
    (f : fec_t) (s s1 : State)
    (h : (peerSocketSoft s.myPeers f.nextHop).isNone = true
          ∨ (findFecBind s.fecDown f.fecid f.nextHop).isSome = true)
    (h1 : updateFecListEntry x rt ift f s = Except.ok s1) : s1.sent = s.sent := by
  unfold updateFecListEntry at h1
  cases he : (peerSocketSoft s.myPeers f.nextHop).isNone with
  | true =>
    cases hd : findFecBind s.fecDown f.fecid f.nextHop with
    | some d => simp [he, hd] at h1
    | none =>
      simp only [he, hd, Option.isSome_none, Bool.and_false, Bool.false_eq_true, ↓reduceIte,
        adjustUpstream_pop, Bool.not_true, Bool.false_and, List.append_nil] at h1
      cases h1
      rfl
  | false =>
    cases hd : findFecBind s.fecDown f.fecid f.nextHop with
    | none => simp [he, hd] at h
    | some d =>
      simp only [he, hd, Bool.false_and, Bool.false_eq_true, ↓reduceIte, adjustUpstream_swap,
        Bool.not_false, Option.isNone_some, Bool.and_false, List.append_nil] at h1
      cases h1
      rfl

/-- C23. Reconciliation (`updateFecListEntry`) of a FEC `f` that is not egress
(there is an established session to `f.nextHop`) and has no downstream
binding (f.id, f.nextHop). Whenever it runs to the end, and it does when
every peer with an upstream binding of `f` has an established session:
`fecUp` is the previous one without the bindings of FEC id f.id, the
bindings of other FECs in their order; the log gains one
LABEL_WITHDRAW(Q, L, f.addr, f.length) for each removed binding (f.id, Q, L),
in their order, and then one LABEL_REQUEST for (f.addr, f.length) to
`f.nextHop`; nothing else changes. Conversely, when `f` is egress or has a
downstream binding by way of `f.nextHop`, the log is as before: no
LABEL_REQUEST is sent. -/
theorem updateFecListEntry_withdraws (x : Ext) (rt : RoutingTable) (ift : InterfaceTable)
    (f : fec_t) (s : State) :
    (connected s.myPeers f.nextHop = true →
      findFecBind s.fecDown f.fecid f.nextHop = none →
      ((∀ u ∈ s.fecUp, u.fecid = f.fecid → connected s.myPeers u.peer = true) →
        updateFecListEntry x rt ift f s = Except.ok
          { s with
            fecUp := s.fecUp.filter (fun u => u.fecid != f.fecid)
            sent := s.sent
              ++ (s.fecUp.filter (fun u => u.fecid == f.fecid)).map (fun u =>
                    Output.tcp u.peer
                        { type := LDPType.LABEL_WITHDRAW, senderAddress := rt.routerId,
                          receiverAddress := u.peer, fec := ⟨f.addr, f.length⟩,
                          label := u.label, status := 0 })
              ++ [Output.tcp f.nextHop
                  { type := LDPType.LABEL_REQUEST, senderAddress := rt.routerId,
                    receiverAddress := f.nextHop, fec := ⟨f.addr, f.length⟩,
                    label := 0, status := 0 }] })
      ∧ (∀ s1, updateFecListEntry x rt ift f s = Except.ok s1 →
          s1 = { s with
            fecUp := s.fecUp.filter (fun u => u.fecid != f.fecid)
            sent := s.sent
              ++ (s.fecUp.filter (fun u => u.fecid == f.fecid)).map (fun u =>
                    Output.tcp u.peer
                        { type := LDPType.LABEL_WITHDRAW, senderAddress := rt.routerId,
                          receiverAddress := u.peer, fec := ⟨f.addr, f.length⟩,
                          label := u.label, status := 0 })
              ++ [Output.tcp f.nextHop
                  { type := LDPType.LABEL_REQUEST, senderAddress := rt.routerId,
                    receiverAddress := f.nextHop, fec := ⟨f.addr, f.length⟩,
                    label := 0, status := 0 }] })
      ∧ (∀ u ∈ s.fecUp.filter (fun u => u.fecid != f.fecid), u.fecid ≠ f.fecid))
    ∧ ((peerSocketSoft s.myPeers f.nextHop).isNone = true
          ∨ (findFecBind s.fecDown f.fecid f.nextHop).isSome = true →
        ∀ s1, updateFecListEntry x rt ift f s = Except.ok s1 → s1.sent = s.sent) := by
  refine ⟨?_, fun h s1 h1 => updateFecListEntry_silent x rt ift f s s1 h h1⟩
  intro he hd
  obtain ⟨h1, h2⟩ := updateFecListEntry_request x rt ift f s he hd
  refine ⟨?_, h1, ?_⟩
  · intro hc
    obtain ⟨s1, hs1⟩ := h2 hc
    rw [hs1, h1 s1 hs1]
  · intro u hu
    simpa using (List.mem_filter.mp hu).2

theorem updateFecListEntry_withdraws_witness :
    connected stateNoDownstream.myPeers 167772163 = true
    ∧ findFecBind stateNoDownstream.fecDown 1 167772163 = none
    ∧ stateNoDownstream.fecUp = [⟨1, 167772162, 1⟩]
    ∧ updateFecListEntry ipv4Ext rtVia [] ⟨1, 167903232, 16, 167772163⟩ stateNoDownstream
        = Except.ok { stateNoDownstream with
            fecUp := []
            sent := stateNoDownstream.sent
              ++ [Output.tcp 167772162
                  { type := LDPType.LABEL_WITHDRAW, senderAddress := rtVia.routerId,
                    receiverAddress := 167772162, fec := ⟨167903232, 16⟩, label := 1, status := 0 },
                  Output.tcp 167772163
                      { type := LDPType.LABEL_REQUEST, senderAddress := rtVia.routerId,
                        receiverAddress := 167772163, fec := ⟨167903232, 16⟩,
                        label := 0, status := 0 }] } :=
  ⟨by decide, by decide, by decide,
   ((updateFecListEntry_withdraws ipv4Ext rtVia [] ⟨1, 167903232, 16, 167772163⟩
      stateNoDownstream).1 (by decide) (by decide)).1 (by decide)⟩


/-! ### C21: upstream bindings after the loss of the next hop -/

theorem forall₂_and_right {α β : Type} {R : α → β → Prop} {P : β → Prop} :
    ∀ {l1 : List α} {l2 : List β}, List.Forall₂ R l1 l2 → (∀ b ∈ l2, P b) →
      List.Forall₂ (fun a b => R a b ∧ P b) l1 l2 := by
  intro l1 l2 h
  induction h with
  | nil => intro _; exact List.Forall₂.nil
  | cons hab _ ih =>
    intro hp
    exact List.Forall₂.cons ⟨hab, hp _ (by simp)⟩ (ih (fun b hb => hp b (by simp [hb])))

theorem forall₂_compose {α β γ : Type} {R : α → β → Prop} {S : β → γ → Prop}
    {T : α → γ → Prop} (hT : ∀ a b c, R a b → S b c → T a c) :
    ∀ {l1 : List α} {l2 : List β} {l3 : List γ}, List.Forall₂ R l1 l2 → List.Forall₂ S l2 l3 →
      List.Forall₂ T l1 l3 := by
  intro l1 l2 l3 h
  induction h generalizing l3 with
  | nil => intro h2; cases h2; exact List.Forall₂.nil
  | cons hab _ ih =>
    intro h2
    cases h2 with
    | cons hbc hrest => exact List.Forall₂.cons (hT _ _ _ hab hbc) (ih hrest)

theorem forall₂_mem_right {α β : Type} {R : α → β → Prop} :
    ∀ {l1 : List α} {l2 : List β}, List.Forall₂ R l1 l2 → ∀ b ∈ l2, ∃ a ∈ l1, R a b := by
  intro l1 l2 h
  induction h with
  | nil => intro b hb; simp at hb
  | cons hab _ ih =>
    intro b hb
    rcases List.mem_cons.mp hb with rfl | hb
    · exact ⟨_, by simp, hab⟩
    · obtain ⟨a, ha, hr⟩ := ih b hb
      exact ⟨a, by simp [ha], hr⟩

theorem forall₂_same {α : Type} {R : α → α → Prop} (hR : ∀ a, R a a) :
    ∀ l : List α, List.Forall₂ R l l := by
  intro l
  induction l with
  | nil => exact List.Forall₂.nil
  | cons a rest ih => exact List.Forall₂.cons (hR a) ih

theorem forall₂_eq_of {α : Type} {R : α → α → Prop} :
    ∀ {l1 l2 : List α}, List.Forall₂ R l1 l2 → (∀ a ∈ l1, ∀ b, R a b → b = a) → l2 = l1 := by
  intro l1 l2 h
  induction h with
  | nil => intro _; rfl
  | cons hab _ ih =>
    intro hR
    rw [hR _ (by simp) _ hab, ih (fun a ha => hR a (by simp [ha]))]

theorem forall₂_map_eq {α β : Type} (g : α → β) :
    ∀ {l1 l2 : List α}, List.Forall₂ (fun a b => g b = g a) l1 l2 → l2.map g = l1.map g := by
  intro l1 l2 h
  induction h with
  | nil => rfl
  | cons hab _ ih => simp only [List.map_cons, hab, ih]

/-- Reconciliation of an egress FEC programs a pop for every upstream binding
of the FEC. -/
theorem updateFecListEntry_pop (x : Ext) (rt : RoutingTable) (ift : InterfaceTable)
    (f : fec_t) (s : State) (he : peerSocketSoft s.myPeers f.nextHop = none)
    (hd : findFecBind s.fecDown f.fecid f.nextHop = none) :
    updateFecListEntry x rt ift f s = Except.ok
      { s with fecUp := (programUpstream x rt ift f popLabel s.fecUp s.lt).1,
               lt := (programUpstream x rt ift f popLabel s.fecUp s.lt).2 } := by
  unfold updateFecListEntry
  simp only [he, hd, Option.isNone_none, Option.isSome_none, Bool.and_false, Bool.false_eq_true,
    ↓reduceIte, adjustUpstream_pop, Bool.not_true, Bool.false_and, List.append_nil]

/-- The loop of `updateFecList` for a next hop without session: every FEC by
way of that next hop is reconciled as egress. A binding is left as it is, or
had the label -1 and got the label of its new LIB entry; afterwards the LIB
pops the label of every binding of such a FEC. -/
theorem updateFecListLoop_pop (x : Ext) (rt : RoutingTable) (ift : InterfaceTable)
    (nextHop : IPAddress) :
    ∀ (l : List fec_t) (s : State), peerSocketSoft s.myPeers nextHop = none →
      (∀ b ∈ s.fecDown, b.peer ≠ nextHop) →
      ∃ up lt1, updateFecListLoop x rt ift nextHop l s
          = Except.ok { s with fecUp := up, lt := lt1 }
        ∧ List.Forall₂ (fun u u1 : fec_bind_t => u1.fecid = u.fecid ∧ u1.peer = u.peer
            ∧ (u1 = u ∨ (u.label = -1 ∧ ∃ e ∈ lt1.lib, e.inLabel = u1.label
                ∧ e.outLabel = popLabel
                ∧ e.outInterface = findInterfaceFromPeerAddr x rt ift nextHop
                ∧ e.color = x.LDP_USER_TRAFFIC))
            ∧ ((∃ f ∈ l, f.nextHop = nextHop ∧ f.fecid = u.fecid) →
                ∃ e ∈ lt1.lib, e.inLabel = u1.label ∧ e.outLabel = popLabel
                  ∧ e.outInterface = findInterfaceFromPeerAddr x rt ift nextHop
                  ∧ e.color = x.LDP_USER_TRAFFIC)) s.fecUp up
        ∧ (∀ k, (∃ e ∈ s.lt.lib, e.inLabel = k ∧ e.outLabel = popLabel
              ∧ e.outInterface = findInterfaceFromPeerAddr x rt ift nextHop
              ∧ e.color = x.LDP_USER_TRAFFIC) →
            ∃ e ∈ lt1.lib, e.inLabel = k ∧ e.outLabel = popLabel
              ∧ e.outInterface = findInterfaceFromPeerAddr x rt ift nextHop
              ∧ e.color = x.LDP_USER_TRAFFIC) := by
  intro l
  induction l with
  | nil =>
    intro s _ _
    refine ⟨s.fecUp, s.lt, rfl, forall₂_same ?_ _, fun k h => h⟩
    intro u
    exact ⟨rfl, rfl, Or.inl rfl, fun ⟨f, hf, _⟩ => by simp at hf⟩
  | cons it rest ih =>
    intro s he hd
    unfold updateFecListLoop
    split
    · rename_i hnh
      have hnh1 : it.nextHop ≠ nextHop := by simpa using hnh
      obtain ⟨up, lt1, h1, h2, h3⟩ := ih s he hd
      refine ⟨up, lt1, h1, h2.imp ?_, h3⟩
      intro u u1 ⟨a1, a2, a3, a4⟩
      refine ⟨a1, a2, a3, ?_⟩
      intro ⟨f, hf, hn, hi⟩
      rcases List.mem_cons.mp hf with rfl | hf
      · exact absurd hn hnh1
      · exact a4 ⟨f, hf, hn, hi⟩
    · rename_i hnh
      have hnh1 : it.nextHop = nextHop := by simpa using hnh
      have hd1 : findFecBind s.fecDown it.fecid it.nextHop = none := by
        rw [findFecBind_none_iff]
        intro b hb hk
        exact hd b hb (hk.2.trans hnh1)
      rw [updateFecListEntry_pop x rt ift it s (by rw [hnh1]; exact he) hd1]
      dsimp only
      obtain ⟨up2, lt2, h1, h2, h3⟩ := ih
        { s with fecUp := (programUpstream x rt ift it popLabel s.fecUp s.lt).1,
                 lt := (programUpstream x rt ift it popLabel s.fecUp s.lt).2 } he hd
      refine ⟨up2, lt2, h1, ?_, ?_⟩
      · have hb := forall₂_and_right (programUpstream_bindings x rt ift it popLabel s.fecUp s.lt)
          (P := fun u1 => u1.fecid = it.fecid →
            ∃ e ∈ (programUpstream x rt ift it popLabel s.fecUp s.lt).2.lib,
              e.inLabel = u1.label ∧ e.outLabel = popLabel
              ∧ e.outInterface = findInterfaceFromPeerAddr x rt ift it.nextHop
              ∧ e.color = x.LDP_USER_TRAFFIC)
          (programUpstream_lib x rt ift it popLabel s.fecUp s.lt).1
        refine forall₂_compose ?_ hb h2
        intro u u1 u2 ⟨⟨a1, a2, a3, a4⟩, a5⟩ ⟨b1, b2, b3, b4⟩
        rw [hnh1] at a5
        dsimp only at h3
        have hfirst : u1 = u ∨ (u.label = -1 ∧ ∃ e ∈
            (programUpstream x rt ift it popLabel s.fecUp s.lt).2.lib,
              e.inLabel = u1.label ∧ e.outLabel = popLabel
              ∧ e.outInterface = findInterfaceFromPeerAddr x rt ift nextHop
              ∧ e.color = x.LDP_USER_TRAFFIC) := by
          by_cases hfe : u.fecid = it.fecid
          · by_cases hl : u.label = -1
            · exact Or.inr ⟨hl, a5 (a1.trans hfe)⟩
            · left
              obtain ⟨lt0, hlab⟩ := a4 hfe
              rw [installLibEntry_label _ _ _ _ _ _ hl] at hlab
              cases u; cases u1
              simp only at a1 a2 hlab
              simp [a1, a2, hlab]
          · exact Or.inl (a3 hfe)
        refine ⟨b1.trans a1, b2.trans a2, ?_, ?_⟩
        · rcases hfirst with rfl | ⟨hl, hq⟩
          · exact b3
          · rcases b3 with rfl | ⟨_, hq2⟩
            · exact Or.inr ⟨hl, h3 _ hq⟩
            · exact Or.inr ⟨hl, hq2⟩
        · intro ⟨f, hf, hn, hi⟩
          rcases List.mem_cons.mp hf with rfl | hf
          · have hq := a5 (a1.trans hi.symm)
            rcases b3 with rfl | ⟨_, hq2⟩
            · exact h3 _ hq
            · exact hq2
          · exact b4 ⟨f, hf, hn, hi.trans a1.symm⟩
      · intro k hk
        apply h3
        have := (programUpstream_lib x rt ift it popLabel s.fecUp s.lt).2 k
        rw [hnh1] at this
        exact this hk

/-- C21, as stated, fails. After `lspUp`, FEC 1 (10.2.0.0/16) has next hop
10.0.0.3 and the upstream binding (FEC 1, 10.0.0.2, label 1). When the hello
timeout of 10.0.0.3 fires, the router is egress for FEC 1: reconciliation
programs a pop for label 1 and keeps the binding in `fecUp`. -/
theorem peer_loss_counterexample :
    Reachable ipv4Ext (afterRun ipv4Ext lspUp)
    ∧ (afterRun ipv4Ext lspUp).fecList = [⟨1, 167903232, 16, 167772163⟩]
    ∧ (afterRun ipv4Ext lspUp).fecUp = [⟨1, 167772162, 1⟩]
    ∧ ∃ s1, handle ipv4Ext rtVia [] (Event.helloTimeout 1) (afterRun ipv4Ext lspUp)
          = Except.ok s1
        ∧ s1.fecList = [⟨1, 167903232, 16, 167772163⟩]
        ∧ connected s1.myPeers 167772163 = false
        ∧ s1.fecUp = [⟨1, 167772162, 1⟩]
        ∧ s1.lt.lib = [⟨1, "ppp0", [LabelOp.pop], "ppp0", 1⟩] :=
  ⟨reachable_afterRun ipv4Ext lspUp (by decide), by decide, by decide,
   _, rfl, by decide, by decide, by decide⟩

/-- C21, amended. In a state whose peer table has at most one entry per peer
address, when the hello timeout of a peer P with a socket fires:
`processHelloTimeout` runs to the end; there is no session to P any more, so
the router is egress for every FEC of the FEC list whose next hop is P; the
upstream bindings of peer P are erased and every other upstream binding is
kept, with its pair (FEC id, peer) and, unless the label was -1, its label;
for every upstream binding left of a FEC whose next hop is P the LIB pops the
label towards the interface of P; and nothing is sent to any peer, so no
LABEL_WITHDRAW. -/
theorem helloTimeout_egress (x : Ext) (rt : RoutingTable) (ift : InterfaceTable) (msg : Nat)
    (s : State) (i : Nat) (p : peer_info) (sock : TCPSocket)
    (hown : findTimeoutOwner s.myPeers msg = some i)
    (hp : s.myPeers[i]? = some p)
    (hsock : p.socket = some sock)
    (huniq : (s.myPeers.map (fun q => q.peerIP)).Nodup) :
    ∃ s1, processHelloTimeout x rt ift msg s = Except.ok s1
      ∧ s1.fecList = s.fecList
      ∧ connected s1.myPeers p.peerIP = false
      ∧ s1.fecUp.map bindKey = (s.fecUp.filter (fun u => u.peer != p.peerIP)).map bindKey
      ∧ ((∀ u ∈ s.fecUp, u.label ≠ -1) →
          s1.fecUp = s.fecUp.filter (fun u => u.peer != p.peerIP))
      ∧ (∀ f ∈ s1.fecList, f.nextHop = p.peerIP → ∀ u1 ∈ s1.fecUp, u1.fecid = f.fecid →
          ∃ e ∈ s1.lt.lib, e.inLabel = u1.label ∧ e.outLabel = popLabel
            ∧ e.outInterface = findInterfaceFromPeerAddr x rt ift p.peerIP
            ∧ e.color = x.LDP_USER_TRAFFIC)
      ∧ s1.sent = s.sent ++
          [Output.tedLinkState rt.routerId p.peerIP false,
           Output.announceLinkChange rt.routerId p.peerIP,
           Output.rebuildRoutingTable] := by
  have habs := eraseIdx_absent s.myPeers i p hp huniq
  have hnone : peerSocketSoft (s.myPeers.eraseIdx i) p.peerIP = none :=
    peerSocketSoft_none_of_absent _ _ habs
  have hdown : ∀ b ∈ s.fecDown.filter (fun dit => dit.peer != p.peerIP), b.peer ≠ p.peerIP := by
    intro b hb
    simpa using (List.mem_filter.mp hb).2
  obtain ⟨up, lt1, hloop, hrel, _⟩ := updateFecListLoop_pop x rt ift p.peerIP s.fecList
    { s with myPeers := s.myPeers.eraseIdx i,
             fecDown := s.fecDown.filter (fun dit => dit.peer != p.peerIP),
             fecUp := s.fecUp.filter (fun uit => uit.peer != p.peerIP) } hnone hdown
  dsimp only at hrel
  refine ⟨{ s with myPeers := s.myPeers.eraseIdx i,
                    fecDown := s.fecDown.filter (fun dit => dit.peer != p.peerIP),
                    fecUp := up,
                    lt := lt1,
                    sent := s.sent ++
                      [Output.tedLinkState rt.routerId p.peerIP false,
                       Output.announceLinkChange rt.routerId p.peerIP,
                       Output.rebuildRoutingTable] },
    ?_, rfl, ?_, ?_, ?_, ?_, rfl⟩
  · unfold processHelloTimeout
    simp only [hown, hp, hsock, updateFecList, hloop]
  · unfold connected
    rw [hnone]
    rfl
  · have hk : List.Forall₂ (fun u u1 : fec_bind_t => bindKey u1 = bindKey u)
        (s.fecUp.filter (fun uit => uit.peer != p.peerIP)) up :=
      hrel.imp (fun u u1 h => by simp [bindKey, h.1, h.2.1])
    exact forall₂_map_eq bindKey hk
  · intro hl
    show up = _
    refine forall₂_eq_of hrel ?_
    intro u hu u1 h
    rcases h.2.2.1 with h1 | ⟨h1, _⟩
    · exact h1
    · exact absurd h1 (hl u (List.mem_filter.mp hu).1)
  · intro f hf hn u1 hu1 hfe
    obtain ⟨u, _, hr⟩ := forall₂_mem_right hrel u1 hu1
    exact hr.2.2.2 ⟨f, hf, hn, hfe.symm.trans hr.1⟩

theorem helloTimeout_egress_witness :
    findTimeoutOwner (afterRun ipv4Ext lspUp).myPeers 1 = some 1
    ∧ (afterRun ipv4Ext lspUp).myPeers[1]?
        = some ⟨167772163, "ppp0", true, some ⟨SockState.CONNECTED, 1⟩, 1⟩
    ∧ ((afterRun ipv4Ext lspUp).myPeers.map (fun q => q.peerIP)).Nodup
    ∧ (afterRun ipv4Ext lspUp).fecUp = [⟨1, 167772162, 1⟩]
    ∧ ∃ s1, processHelloTimeout ipv4Ext rtVia [] 1 (afterRun ipv4Ext lspUp) = Except.ok s1
        ∧ connected s1.myPeers 167772163 = false
        ∧ s1.fecUp.map bindKey = [(1, 167772162)] :=
  ⟨by decide, by decide, by decide, by decide,
   (helloTimeout_egress ipv4Ext rtVia [] 1 (afterRun ipv4Ext lspUp) 1
      ⟨167772163, "ppp0", true, some ⟨SockState.CONNECTED, 1⟩, 1⟩ ⟨SockState.CONNECTED, 1⟩
      (by decide) (by decide) rfl (by decide)).imp
      (fun s1 h => ⟨h.1, h.2.2.1, h.2.2.2.1⟩)⟩


/-! ### C22: the ids of the FECs -/

theorem findFecEntry_key (l : List fec_t) (addr : IPAddress) (length : Int) (it : fec_t)
    (h : findFecEntry l addr length = some it) : it.addr = addr ∧ it.length = length := by
  have hkey := List.find?_some h
  simp only [Bool.and_eq_true, beq_iff_eq] at hkey
  exact ⟨hkey.2, hkey.1⟩

theorem findFecEntry_split (l : List fec_t) (addr : IPAddress) (length : Int) (it : fec_t)
    (h : findFecEntry l addr length = some it) :
    ∃ l1 l2, l = l1 ++ it :: l2 ∧ eraseFecEntry l addr length = l1 ++ l2 := by
  obtain ⟨l1, l2, h1, _, h2⟩ := find?_split _ l it h
  exact ⟨l1, l2, h1, h2⟩

theorem eraseFecEntry_none (l : List fec_t) (addr : IPAddress) (length : Int)
    (h : findFecEntry l addr length = none) : eraseFecEntry l addr length = l := by
  unfold findFecEntry at h
  unfold eraseFecEntry
  rw [List.find?_eq_none] at h
  exact List.eraseP_of_forall_not h

/-- Below INT_MAX, `++maxFecid` is the successor. -/
theorem nextFecid_eq (m : Int) (h0 : 0 ≤ m) (h : m < 2147483647) : nextFecid m = m + 1 := by
  unfold nextFecid
  omega

theorem nodup_map_append_ne {α β : Type} (φ : α → β) (A B : List α)
    (h : ((A ++ B).map φ).Nodup) (a b : α) (ha : a ∈ A) (hb : b ∈ B) : φ b ≠ φ a := by
  rw [List.map_append, List.nodup_append] at h
  intro he
  exact h.2.2 (List.mem_map_of_mem φ ha) (he ▸ List.mem_map_of_mem φ hb)

theorem buildStep_idsInRange {b b1 : List fec_t × List fec_t × Int} (h : BuildStep b b1)
    (hi : idsInRange b) : idsInRange b1 := by
  obtain ⟨hn, hb, h0⟩ := hi
  cases h with
  | create old fl m addr length nextHop hm0 hm hfind =>
    rw [nextFecid_eq m hm0 hm]
    dsimp only at hn hb h0 ⊢
    refine ⟨?_, ?_, by dsimp only; omega⟩
    · dsimp only
      rw [← List.append_assoc, List.map_append, List.map_singleton]
      refine List.Nodup.append hn (List.nodup_singleton _) ?_
      intro k hk hk1
      simp only [List.mem_singleton] at hk1
      obtain ⟨f, hf, rfl⟩ := List.mem_map.mp hk
      have := (hb f hf).2
      omega
    · dsimp only
      intro f hf
      rw [← List.append_assoc] at hf
      rcases List.mem_append.mp hf with hf | hf
      · have := hb f hf
        omega
      · simp only [List.mem_singleton] at hf
        subst hf
        dsimp only
        omega
  | move old fl m it nextHop hfind =>
    dsimp only at hn hb h0 ⊢
    obtain ⟨l1, l2, h1, h2⟩ := findFecEntry_split old _ _ it hfind
    have hperm : (eraseFecEntry old it.addr it.length ++ (fl ++ [{ it with nextHop := nextHop }])).Perm
        ({ it with nextHop := nextHop } :: (l1 ++ l2 ++ fl)) := by
      rw [h2, ← List.append_assoc]
      exact List.perm_append_singleton _ _
    have hperm2 : (old ++ fl).Perm (it :: (l1 ++ l2 ++ fl)) := by
      rw [h1]
      simp only [List.append_assoc, List.cons_append]
      exact List.perm_middle
    refine ⟨?_, ?_, h0⟩
    · dsimp only
      rw [(hperm.map _).nodup_iff, List.map_cons]
      have := (hperm2.map (fun f : fec_t => f.fecid)).nodup_iff.mp hn
      rw [List.map_cons] at this
      exact this
    · dsimp only
      intro f hf
      rcases List.mem_cons.mp (hperm.mem_iff.mp hf) with rfl | hf
      · exact hb it (hperm2.mem_iff.mpr (by simp))
      · exact hb f (hperm2.mem_iff.mpr (List.mem_cons_of_mem _ hf))

theorem buildSummary_refl (b : List fec_t × List fec_t × Int) : buildSummary b b :=
  ⟨le_refl _, List.Sublist.refl _, ⟨[], by simp, by simp⟩, fun k h1 h2 => by omega,
   fun g hg => Or.inl hg⟩

theorem buildSummary_step {b b1 b2 : List fec_t × List fec_t × Int}
    (h : buildSummary b b1) (hs : BuildStep b1 b2) : buildSummary b b2 := by
  obtain ⟨h1, h2, ⟨F, hF, hFc⟩, h4, h5⟩ := h
  cases hs with
  | create old fl m addr length nextHop hm0 hm hfind =>
    rw [nextFecid_eq m hm0 hm]
    dsimp only at h1 h2 hF h4 h5 ⊢
    refine ⟨by dsimp only; omega, h2, ⟨F ++ [⟨m + 1, addr, length, nextHop⟩], ?_, ?_⟩, ?_, ?_⟩
    · dsimp only
      rw [hF, List.append_assoc]
    · intro f hf
      rcases List.mem_append.mp hf with hf | hf
      · rcases hFc f hf with hc | hc
        · exact Or.inl hc
        · dsimp only at hc ⊢
          exact Or.inr ⟨hc.1, by omega⟩
      · simp only [List.mem_singleton] at hf
        subst hf
        dsimp only
        exact Or.inr ⟨by omega, le_refl _⟩
    · dsimp only
      intro k hk1 hk2
      by_cases hk : k ≤ m
      · obtain ⟨f, hf, hfk⟩ := h4 k hk1 hk
        exact ⟨f, by simp [hf], hfk⟩
      · exact ⟨⟨m + 1, addr, length, nextHop⟩, by simp, by dsimp only; omega⟩
    · dsimp only
      intro g hg
      rcases h5 g hg with hc | ⟨f, hf, hfk⟩
      · exact Or.inl hc
      · exact Or.inr ⟨f, by simp [hf], hfk⟩
  | move old fl m it nextHop hfind =>
    dsimp only at h1 h2 hF h4 h5 ⊢
    obtain ⟨l1, l2, hsplit, herase⟩ := findFecEntry_split old _ _ it hfind
    have hsub : (eraseFecEntry old it.addr it.length).Sublist old := by
      unfold eraseFecEntry
      exact List.eraseP_sublist _
    have hit : it ∈ old := by rw [hsplit]; simp
    refine ⟨h1, hsub.trans h2, ⟨F ++ [{ it with nextHop := nextHop }], ?_, ?_⟩, ?_, ?_⟩
    · dsimp only
      rw [hF, List.append_assoc]
    · intro f hf
      rcases List.mem_append.mp hf with hf | hf
      · exact hFc f hf
      · simp only [List.mem_singleton] at hf
        subst hf
        exact Or.inl ⟨it, h2.subset hit, rfl, rfl⟩
    · dsimp only
      intro k hk1 hk2
      obtain ⟨f, hf, hfk⟩ := h4 k hk1 hk2
      exact ⟨f, by simp [hf], hfk⟩
    · dsimp only
      intro g hg
      rcases h5 g hg with hc | ⟨f, hf, hfk⟩
      · rw [hsplit] at hc
        rw [herase]
        simp only [List.mem_append, List.mem_cons] at hc
        rcases hc with hc | rfl | hc
        · exact Or.inl (by simp [hc])
        · exact Or.inr ⟨{ g with nextHop := nextHop }, by simp, rfl⟩
        · exact Or.inl (by simp [hc])
      · exact Or.inr ⟨f, by simp [hf], hfk⟩

theorem buildSteps_summary {b b1 : List fec_t × List fec_t × Int}
    (h : Relation.ReflTransGen BuildStep b b1) :
    buildSummary b b1 ∧ (idsInRange b → idsInRange b1) := by
  induction h with
  | refl => exact ⟨buildSummary_refl _, fun h => h⟩
  | tail _ hs ih => exact ⟨buildSummary_step ih.1 hs, fun h => buildStep_idsInRange hs (ih.2 h)⟩

/-- The loop over the routing entries, while the counter stays within the
range of `int`, as a sequence of passes; what it leaves of the previous list;
and the value of the counter after it. -/
theorem rebuildRoutes_steps (x : Ext) (rt : RoutingTable) (ift : InterfaceTable) :
    ∀ (es : List RoutingEntry) (old : List fec_t) (s : State) (old1 : List fec_t) (s1 : State),
      rebuildRoutes x rt ift es old s = Except.ok (old1, s1) →
      old1 = oldAfterRoutes x old es
      ∧ (0 ≤ s.maxFecid → s.maxFecid + createdByRoutes x es old ≤ 2147483647 →
          Relation.ReflTransGen BuildStep (old, s.fecList, s.maxFecid)
            (old1, s1.fecList, s1.maxFecid)
          ∧ s1.maxFecid = s.maxFecid + createdByRoutes x es old) := by
  intro es
  induction es with
  | nil =>
    intro old s old1 s1 h
    simp only [rebuildRoutes, Except.ok.injEq, Prod.mk.injEq] at h
    obtain ⟨rfl, rfl⟩ := h
    exact ⟨rfl, fun _ _ => ⟨Relation.ReflTransGen.refl, by simp [createdByRoutes]⟩⟩
  | cons re rest ih =>
    intro old s old1 s1 h
    unfold rebuildRoutes at h
    unfold oldAfterRoutes createdByRoutes
    split at h
    · rename_i hm
      simp only [hm, ↓reduceIte]
      exact ih _ _ _ _ h
    · rename_i hm
      simp only [hm, ↓reduceIte]
      dsimp only at h
      split at h
      · cases h
      · split at h
        · rename_i hfind
          split at h
          · cases h
          · rename_i sa hupd
            obtain ⟨_, hla, hma⟩ := updateFecListEntry_frame _ _ _ _ _ _ hupd
            obtain ⟨ho, hs⟩ := ih _ _ _ _ h
            dsimp only at hs hla hma
            rw [hla, hma] at hs
            rw [eraseFecEntry_none _ _ _ hfind]
            refine ⟨ho, ?_⟩
            intro h0 hr
            have hr1 : s.maxFecid < 2147483647 := by push_cast at hr; omega
            have hnx := nextFecid_eq s.maxFecid h0 hr1
            rw [hnx] at hs
            obtain ⟨hsteps, hmax⟩ := hs (by omega) (by push_cast at hr; omega)
            refine ⟨Relation.ReflTransGen.head ?_ hsteps, by rw [hmax]; push_cast; omega⟩
            have := BuildStep.create old s.fecList s.maxFecid re.host re.netmaskLength
                (routeNextHop re) h0 hr1 hfind
            rw [hnx] at this
            exact this
        · rename_i it hfind
          obtain ⟨hka, hkl⟩ := findFecEntry_key _ _ _ _ hfind
          have hfind1 : findFecEntry old it.addr it.length = some it := by rw [hka, hkl]; exact hfind
          split at h
          · split at h
            · cases h
            · rename_i sa hupd
              obtain ⟨_, hla, hma⟩ := updateFecListEntry_frame _ _ _ _ _ _ hupd
              obtain ⟨ho, hs⟩ := ih _ _ _ _ h
              dsimp only at hs
              rw [hla, hma] at hs
              refine ⟨ho, fun h0 hr => ?_⟩
              obtain ⟨hsteps, hmax⟩ := hs h0 hr
              rw [← hka, ← hkl] at hsteps
              exact ⟨Relation.ReflTransGen.head
                (BuildStep.move old s.fecList s.maxFecid it (routeNextHop re) hfind1) hsteps, hmax⟩
          · obtain ⟨ho, hs⟩ := ih _ _ _ _ h
            dsimp only at hs
            refine ⟨ho, fun h0 hr => ?_⟩
            obtain ⟨hsteps, hmax⟩ := hs h0 hr
            rw [← hka, ← hkl] at hsteps
            exact ⟨Relation.ReflTransGen.head
              (BuildStep.move old s.fecList s.maxFecid it it.nextHop hfind1) hsteps, hmax⟩

theorem rebuildInterfaces_steps :
    ∀ (ifs : List InterfaceEntry) (old : List fec_t) (s : State),
      (rebuildInterfaces ifs old s).1 = oldAfterInterfaces old ifs
      ∧ (0 ≤ s.maxFecid → s.maxFecid + createdByInterfaces ifs old ≤ 2147483647 →
          Relation.ReflTransGen BuildStep (old, s.fecList, s.maxFecid)
            ((rebuildInterfaces ifs old s).1, (rebuildInterfaces ifs old s).2.fecList,
              (rebuildInterfaces ifs old s).2.maxFecid)
          ∧ (rebuildInterfaces ifs old s).2.maxFecid
              = s.maxFecid + createdByInterfaces ifs old) := by
  intro ifs
  induction ifs with
  | nil =>
    intro old s
    exact ⟨rfl, fun _ _ => ⟨Relation.ReflTransGen.refl, by simp [createdByInterfaces, rebuildInterfaces]⟩⟩
  | cons ie rest ih =>
    intro old s
    unfold rebuildInterfaces oldAfterInterfaces createdByInterfaces
    split
    · exact ih old s
    · split
      · rename_i hfind
        dsimp only
        have hih := ih old
          { s with maxFecid := nextFecid s.maxFecid,
                   fecList := s.fecList ++ [⟨nextFecid s.maxFecid, ie.inetAddress, 32,
                     ie.inetAddress⟩] }
        obtain ⟨ho, hs⟩ := hih
        rw [eraseFecEntry_none _ _ _ hfind]
        refine ⟨ho, fun h0 hr => ?_⟩
        have hr1 : s.maxFecid < 2147483647 := by push_cast at hr; omega
        have hnx := nextFecid_eq s.maxFecid h0 hr1
        dsimp only at hs
        obtain ⟨hsteps, hmax⟩ := hs (by omega) (by rw [hnx]; push_cast at hr; omega)
        refine ⟨Relation.ReflTransGen.head (BuildStep.create old s.fecList s.maxFecid
          ie.inetAddress 32 ie.inetAddress h0 hr1 hfind) hsteps, ?_⟩
        rw [hmax, hnx]
        push_cast
        omega
      · rename_i it hfind
        obtain ⟨hka, hkl⟩ := findFecEntry_key _ _ _ _ hfind
        have hfind1 : findFecEntry old it.addr it.length = some it := by rw [hka, hkl]; exact hfind
        have hkey : eraseFecEntry old ie.inetAddress 32 = eraseFecEntry old it.addr it.length := by
          rw [hka, hkl]
        obtain ⟨ho, hs⟩ := ih (eraseFecEntry old ie.inetAddress 32)
          ({ s with fecList := s.fecList ++ [it] })
        refine ⟨ho, fun h0 hr => ?_⟩
        obtain ⟨hsteps, hmax⟩ := hs h0 hr
        rw [hkey] at hsteps hmax ⊢
        exact ⟨Relation.ReflTransGen.head
          (BuildStep.move old s.fecList s.maxFecid it it.nextHop hfind1) hsteps, hmax⟩


/-- The two loops of `rebuildFecList`, while the counter stays within the range
of `int`, as a sequence of passes, from the previous list to what is left of
it and the list before sorting. -/
theorem rebuildFecList_steps (x : Ext) (rt : RoutingTable) (ift : InterfaceTable)
    (s s1 : State) (h : rebuildFecList x rt ift s = Except.ok s1)
    (h0 : 0 ≤ s.maxFecid) (hr : counterInRange x rt ift s) :
    ∃ L, Relation.ReflTransGen BuildStep (s.fecList, [], s.maxFecid)
        (deprecatedFecs x rt ift s.fecList, L, s1.maxFecid)
      ∧ s1.fecList = x.stdSort L
      ∧ s1.maxFecid = s.maxFecid + fecsCreated x rt ift s.fecList := by
  obtain ⟨old1, sa, sb, h1, h2, rfl⟩ := rebuildFecList_ok x rt ift s s1 h
  obtain ⟨lt1, out, rfl⟩ := removeDeprecated_ok rt _ _ _ h2
  unfold counterInRange fecsCreated at hr
  push_cast at hr
  obtain ⟨ho, hs⟩ := rebuildRoutes_steps x rt ift _ _ _ _ _ h1
  subst ho
  obtain ⟨hsteps, hmax⟩ := hs h0 (by dsimp only; omega)
  dsimp only at hsteps hmax
  obtain ⟨ho2, hs2⟩ := rebuildInterfaces_steps ift (oldAfterRoutes x s.fecList rt.entries) sa
  obtain ⟨hsteps2, hmax2⟩ := hs2 (by omega) (by rw [hmax]; omega)
  refine ⟨_, ?_, rfl, ?_⟩
  · have := hsteps.trans hsteps2
    rw [ho2] at this
    exact this
  · show (rebuildInterfaces ift _ sa).2.maxFecid = _
    rw [hmax2, hmax]
    unfold fecsCreated
    push_cast
    omega

/-- What one call of `rebuildFecList` that keeps the counter within the range
of `int` does to the ids: it keeps them pairwise distinct and between 1 and
`maxFecid`; `maxFecid` does not decrease; a FEC of the new list carries the id
and key of a FEC of the previous list or an id above the previous `maxFecid`;
every id between the previous and the new `maxFecid` is the id of a FEC of the
new list; and a FEC of the previous list is deprecated or its id is in the
new list. -/
theorem rebuildFecList_ids (x : Ext) (rt : RoutingTable) (ift : InterfaceTable)
    (s s1 : State) (h : rebuildFecList x rt ift s = Except.ok s1)
    (h0 : 0 ≤ s.maxFecid) (hr : counterInRange x rt ift s) :
    (idsInRange (s.fecList, [], s.maxFecid) → idsInRange (s1.fecList, [], s1.maxFecid))
    ∧ s.maxFecid ≤ s1.maxFecid
    ∧ (∀ f ∈ s1.fecList, (∃ g ∈ s.fecList, g.fecid = f.fecid ∧ fecKey g = fecKey f)
          ∨ (s.maxFecid < f.fecid ∧ f.fecid ≤ s1.maxFecid))
    ∧ (∀ k, s.maxFecid < k → k ≤ s1.maxFecid → ∃ f ∈ s1.fecList, f.fecid = k)
    ∧ (idsInRange (s.fecList, [], s.maxFecid) → ∀ f ∈ s.fecList,
        (f ∈ deprecatedFecs x rt ift s.fecList ↔ ∀ g ∈ s1.fecList, g.fecid ≠ f.fecid)) := by
  obtain ⟨L, hsteps, hL, _⟩ := rebuildFecList_steps x rt ift s s1 h h0 hr
  obtain ⟨⟨h1, _, ⟨F, hF, hFc⟩, h4, hgone⟩, hids⟩ := buildSteps_summary hsteps
  dsimp only at h1 hF hFc h4 hgone
  simp only [List.nil_append] at hF
  subst hF
  have hmem : ∀ f, f ∈ s1.fecList ↔ f ∈ L := by
    intro f
    rw [hL]
    exact (x.stdSort_perm L).mem_iff
  refine ⟨?_, h1, ?_, ?_, ?_⟩
  · intro hi
    have hi0 : idsInRange (s.fecList, [], s.maxFecid) := hi
    obtain ⟨hn, hb, h0⟩ := hids hi0
    dsimp only at hn hb h0
    refine ⟨?_, ?_, h0⟩
    · dsimp only
      rw [List.append_nil, hL, ((x.stdSort_perm L).map _).nodup_iff]
      rw [List.map_append] at hn
      exact (List.nodup_append.mp hn).2.1
    · dsimp only
      intro f hf
      rw [List.append_nil] at hf
      exact hb f (List.mem_append_right _ ((hmem f).mp hf))
  · intro f hf
    exact hFc f ((hmem f).mp hf)
  · intro k hk1 hk2
    obtain ⟨f, hf, hfk⟩ := h4 k hk1 hk2
    exact ⟨f, (hmem f).mpr hf, hfk⟩
  · intro hi f hf
    have hi1 := hids hi
    constructor
    · intro hfD g hg
      exact nodup_map_append_ne (fun f : fec_t => f.fecid) _ _ hi1.1 f g hfD ((hmem g).mp hg)
    · intro hno
      rcases hgone f hf with hfD | ⟨g, hg, hgf⟩
      · exact hfD
      · exact absurd hgf (hno g ((hmem g).mpr hg))

theorem afterRebuildInRange_idsInRange (x : Ext) (rt : RoutingTable) (ift : InterfaceTable)
    (s : State) (h : AfterRebuildInRange x rt ift s) :
    idsInRange (s.fecList, [], s.maxFecid) := by
  induction h with
  | init rt ift s hr h0 =>
    refine (rebuildFecList_ids x rt ift _ s h0 (le_refl _) hr).1 ?_
    exact ⟨by simp [State.empty], by simp [State.empty], by simp [State.empty]⟩
  | again rt0 ift0 s rt ift s1 _ hr h0 ih =>
    exact (rebuildFecList_ids x rt ift s s1 h0 ih.2.2 hr).1 ih

/-- Any number of calls of `rebuildFecList` in a row that keep the counter
within the range of `int`: `maxFecid` does not decrease, and a FEC of the last
list carries the id and key of a FEC of the first list or an id above the
first `maxFecid`. -/
theorem rebuilds_ids (x : Ext) {s s1 : State}
    (h : Relation.ReflTransGen (rebuildsInRange x) s s1) (h0 : 0 ≤ s.maxFecid) :
    s.maxFecid ≤ s1.maxFecid
    ∧ ∀ f ∈ s1.fecList, (∃ g ∈ s.fecList, g.fecid = f.fecid ∧ fecKey g = fecKey f)
        ∨ s.maxFecid < f.fecid := by
  induction h with
  | refl => exact ⟨le_refl _, fun f hf => Or.inl ⟨f, hf, rfl, rfl⟩⟩
  | tail _ hstep ih =>
    obtain ⟨rt, ift, hr, hreb⟩ := hstep
    obtain ⟨_, h2, h3, _⟩ := rebuildFecList_ids x rt ift _ _ hreb (le_trans h0 ih.1) hr
    refine ⟨le_trans ih.1 h2, ?_⟩
    intro f hf
    rcases h3 f hf with ⟨g1, hg1, hid, hkey⟩ | hnew
    · rcases ih.2 g1 hg1 with ⟨g, hg, hid0, hkey0⟩ | hnew0
      · exact Or.inl ⟨g, hg, hid0.trans hid, hkey0.trans hkey⟩
      · exact Or.inr (by rw [← hid]; exact hnew0)
    · exact Or.inr (lt_of_le_of_lt ih.1 hnew.1)

/-- With the route to 10.2.0.0/16 appearing, the module with empty tables
creates one FEC with the next id. -/
theorem flap_up (m : Int) :
    rebuildFecList ipv4Ext rtVia [] (stateAfterFlaps m)
      = Except.ok { stateAfterFlaps m with
          fecList := [⟨nextFecid m, 167903232, 16, 167772163⟩], maxFecid := nextFecid m } := rfl

/-- With the route disappearing again, the FEC is removed. -/
theorem flap_down (m m1 : Int) :
    rebuildFecList ipv4Ext rtNone []
        { stateAfterFlaps m with
          fecList := [⟨m1, 167903232, 16, 167772163⟩], maxFecid := m1 }
      = Except.ok (stateAfterFlaps m1) := rfl

/-- A route that appears and disappears `n` times after `initialize` leaves
`maxFecid = n`. -/
theorem flaps_reachable (n : Nat) (h : (n : Int) ≤ 2147483647) :
    AfterRebuild ipv4Ext rtNone [] (stateAfterFlaps n) := by
  induction n with
  | zero => exact AfterRebuild.init rtNone [] _ rfl
  | succ k ih =>
    have hk : (k : Int) ≤ 2147483647 := by push_cast at h; omega
    have e : nextFecid (k : Int) = ((k + 1 : Nat) : Int) := by
      unfold nextFecid
      push_cast at h ⊢
      omega
    rw [← e]
    exact AfterRebuild.again rtVia [] _ rtNone [] (stateAfterFlaps (nextFecid k))
      (AfterRebuild.again rtNone [] (stateAfterFlaps k) rtVia [] _ (ih hk) (flap_up k))
      (flap_down k (nextFecid k))

/-- C22, as stated, fails. The counter `maxFecid` is a C++ `int`. After
`initialize` and 2147483647 appearances and disappearances of the route to
10.2.0.0/16, which are calls of `rebuildFecList`, the FEC list is empty and
`maxFecid` is 2147483647. When the route appears once more, `++maxFecid` gives
-2147483648: the new FEC has an id that is not between 1 and `maxFecid` and
is below every id given before. -/
theorem fecid_wraps_counterexample :
    AfterRebuild ipv4Ext rtNone [] (stateAfterFlaps 2147483647)
    ∧ (stateAfterFlaps 2147483647).fecList = []
    ∧ (stateAfterFlaps 2147483647).maxFecid = 2147483647
    ∧ rebuildFecList ipv4Ext rtVia [] (stateAfterFlaps 2147483647)
        = Except.ok { stateAfterFlaps 2147483647 with
            fecList := [⟨-2147483648, 167903232, 16, 167772163⟩], maxFecid := -2147483648 } :=
  ⟨flaps_reachable 2147483647 (by norm_num), rfl, rfl, rfl⟩

/-- C22, amended. In every state reached by `initialize` and any number of
further calls of `rebuildFecList` that keep the counter within the range of
`int` (none runs `++maxFecid` at 2147483647): the ids of the FECs of the FEC
list are pairwise distinct and lie between 1 and `maxFecid`. After
`initialize` the ids in use are exactly 1 up to `maxFecid`, so the first id
given is 1. A further such call adds to `maxFecid`, which bounds every id
given so far, the number of FECs it creates; a FEC of its list either
carries the id and key of a FEC of the previous list or has an id above the
previous `maxFecid`; and the ids it gives are the ones following the
previous `maxFecid`, one by one. The
id of a FEC that a call removes is in no FEC list after any number of further
such calls. -/
theorem fecid_unique_monotone (x : Ext) (rt : RoutingTable) (ift : InterfaceTable) (s : State)
    (h : AfterRebuildInRange x rt ift s) :
    (s.fecList.map (fun f => f.fecid)).Nodup
    ∧ (∀ f ∈ s.fecList, 1 ≤ f.fecid ∧ f.fecid ≤ s.maxFecid)
    ∧ (∀ rt0 ift0 s0, counterInRange x rt0 ift0 State.empty →
        initializeStage3 x rt0 ift0 = Except.ok s0 →
        ∀ k, 1 ≤ k → k ≤ s0.maxFecid → ∃ f ∈ s0.fecList, f.fecid = k)
    ∧ (∀ rt1 ift1 s1, counterInRange x rt1 ift1 s →
        rebuildFecList x rt1 ift1 s = Except.ok s1 →
        s1.maxFecid = s.maxFecid + fecsCreated x rt1 ift1 s.fecList
        ∧ (∀ f ∈ s1.fecList, (∃ g ∈ s.fecList, g.fecid = f.fecid ∧ fecKey g = fecKey f)
              ∨ s.maxFecid < f.fecid)
        ∧ (∀ k, s.maxFecid < k → k ≤ s1.maxFecid → ∃ f ∈ s1.fecList, f.fecid = k)
        ∧ (∀ s2, Relation.ReflTransGen (rebuildsInRange x) s1 s2 →
            ∀ g ∈ s.fecList, (∀ f ∈ s1.fecList, f.fecid ≠ g.fecid) →
              ∀ f ∈ s2.fecList, f.fecid ≠ g.fecid)) := by
  obtain ⟨hn, hb, h0⟩ := afterRebuildInRange_idsInRange x rt ift s h
  dsimp only at hn hb h0
  rw [List.append_nil] at hn hb
  refine ⟨hn, hb, ?_, ?_⟩
  · intro rt0 ift0 s0 hr0 hi k hk1 hk2
    exact (rebuildFecList_ids x rt0 ift0 _ s0 hi (le_refl _) hr0).2.2.2.1 k
      (by simp [State.empty]; omega) hk2
  · intro rt1 ift1 s1 hr1 h1
    obtain ⟨_, h2, h3, h4, _⟩ := rebuildFecList_ids x rt1 ift1 s s1 h1 h0 hr1
    obtain ⟨_, _, _, hcount⟩ := rebuildFecList_steps x rt1 ift1 s s1 h1 h0 hr1
    refine ⟨hcount, fun f hf => (h3 f hf).imp id (fun hc => hc.1), h4, ?_⟩
    intro s2 hs2 g hg hgone f hf hfg
    obtain ⟨h5, h6⟩ := rebuilds_ids x hs2 (le_trans h0 h2)
    rcases h6 f hf with ⟨g1, hg1, hid, _⟩ | hnew
    · exact hgone g1 hg1 (hid.trans hfg)
    · have := (hb g hg).2
      omega

theorem fecid_unique_monotone_witness :
    AfterRebuildInRange ipv4Ext rtTwoRoutes iftOne
      { stateTwoRoutes with sent := [Output.nextHello] }
    ∧ ({ stateTwoRoutes with sent := [Output.nextHello] } : State).fecList.map (fun f => f.fecid)
        = [3, 1, 2]
    ∧ (({ stateTwoRoutes with sent := [Output.nextHello] } : State).fecList.map
        (fun f => f.fecid)).Nodup
    ∧ (∀ f ∈ ({ stateTwoRoutes with sent := [Output.nextHello] } : State).fecList,
        1 ≤ f.fecid ∧ f.fecid ≤ 3) :=
  ⟨AfterRebuildInRange.init _ _ _ (by unfold counterInRange; decide) rfl, rfl,
   (fecid_unique_monotone ipv4Ext rtTwoRoutes iftOne _
      (AfterRebuildInRange.init _ _ _ (by unfold counterInRange; decide) rfl)).1,
   (fecid_unique_monotone ipv4Ext rtTwoRoutes iftOne _
      (AfterRebuildInRange.init _ _ _ (by unfold counterInRange; decide) rfl)).2.1⟩


/-! ### C28: pending requests and the FEC list -/

theorem pendingStep_of_same (s s1 : State) (h1 : s1.fecList = s.fecList)
    (h2 : s1.maxFecid = s.maxFecid) (h3 : s1.pending = s.pending) : pendingStep s s1 :=
  ⟨h1, h2, fun _ hq => Or.inl (h3 ▸ hq)⟩

theorem processLABEL_REQUEST_pending (x : Ext) (rt : RoutingTable) (ift : InterfaceTable)
    (packet : LDPPacket) (s s1 : State)
    (h : processLABEL_REQUEST x rt ift packet s = Except.ok s1) : pendingStep s s1 := by
  unfold processLABEL_REQUEST at h
  dsimp only at h
  split at h
  · split at h
    · cases h
    · cases h; exact pendingStep_of_same _ _ rfl rfl rfl
  · rename_i it hfind
    split at h
    · cases h
    · split at h
      · cases h
      · split at h
        · split at h
          · cases h
          · cases h; exact pendingStep_of_same _ _ rfl rfl rfl
        · split at h
          · split at h
            · cases h
            · cases h; exact pendingStep_of_same _ _ rfl rfl rfl
          · cases h
            refine ⟨rfl, rfl, ?_⟩
            intro q hq
            rcases List.mem_append.mp hq with hq | hq
            · exact Or.inl hq
            · simp only [List.mem_singleton] at hq
              subst hq
              exact Or.inr ⟨it, List.mem_of_find?_eq_some hfind, rfl⟩

theorem processLABEL_MAPPING_pending (x : Ext) (rt : RoutingTable) (ift : InterfaceTable)
    (packet : LDPPacket) (s s1 : State)
    (h : processLABEL_MAPPING x rt ift packet s = Except.ok s1) : pendingStep s s1 := by
  unfold processLABEL_MAPPING at h
  dsimp only at h
  split at h
  · cases h
  · split at h
    · cases h
    · split at h
      · cases h
      · split at h
        · cases h
        · rename_i pend up lt1 out hr
          cases h
          obtain ⟨h1, _⟩ := answerPending_ok _ _ _ _ _ _ _ _ _ _ _ _ _ hr
          refine ⟨rfl, rfl, ?_⟩
          intro q hq
          dsimp only at hq
          rw [h1] at hq
          exact Or.inl (List.mem_filter.mp hq).1

theorem processLDPPacketFromTCP_pending (x : Ext) (rt : RoutingTable) (ift : InterfaceTable)
    (pkt : LDPPacket) (s s1 : State)
    (h : processLDPPacketFromTCP x rt ift pkt s = Except.ok s1) : pendingStep s s1 := by
  unfold processLDPPacketFromTCP at h
  split at h
  · cases h
  · cases h
  · cases h
  · exact processLABEL_MAPPING_pending _ _ _ _ _ _ h
  · exact processLABEL_REQUEST_pending _ _ _ _ _ _ h
  · obtain ⟨_, h2, h3, h4, _⟩ := processLABEL_WITHDRAW_frame _ _ _ _ _ _ h
    exact pendingStep_of_same _ _ h2 h4 h3
  · obtain ⟨_, h2, _, h4, h5, _⟩ := processLABEL_RELEASE_frame _ _ _ h
    exact pendingStep_of_same _ _ h2 h5 h4
  · obtain ⟨out, rfl⟩ := processNOTIFICATION_ok _ _ _ _ _ _ h
    exact pendingStep_of_same _ _ rfl rfl rfl
  · cases h

theorem socketProcessMessage_pending (x : Ext) (rt : RoutingTable) (ift : InterfaceTable)
    (i : Nat) (sock : TCPSocket) (kind : TcpIndication) (s s1 : State)
    (h : socketProcessMessage x rt ift i sock kind s = Except.ok s1) : pendingStep s s1 := by
  unfold socketProcessMessage at h
  split at h
  · unfold socketEstablished at h
    split at h
    · cases h
    · obtain ⟨⟨_, _, h3, _⟩, h5, h6⟩ := updateFecList_frame _ _ _ _ _ _ h
      exact pendingStep_of_same _ _ h5 h6 h3
  · exact processLDPPacketFromTCP_pending _ _ _ _ _ _ h
  · cases h
  · cases h
  · cases h

/-- An event other than a change of the routing table leaves the FEC list and
`maxFecid` alone, and only adds pending requests for FECs of the list. -/
theorem handle_pending (x : Ext) (rt : RoutingTable) (ift : InterfaceTable) (ev : Event)
    (s s1 : State) (h : handle x rt ift ev s = Except.ok s1) :
    rebuildFecList x rt ift s = Except.ok s1 ∨ pendingStep s s1 := by
  cases ev with
  | routingTableChanged => exact Or.inl h
  | sendHello allRouters =>
    simp only [handle, sendHello, Except.ok.injEq] at h
    subst h
    exact Or.inr (pendingStep_of_same _ _ rfl rfl rfl)
  | helloTimeout msg =>
    obtain ⟨i, p, sa, hp, hupd, rfl⟩ := processHelloTimeout_ok x rt ift msg s s1 h
    obtain ⟨⟨_, _, h3, _⟩, h5, h6⟩ := updateFecList_frame _ _ _ _ _ _ hupd
    exact Or.inr (pendingStep_of_same _ _ h5 h6 h3)
  | notifyRetry pkt =>
    obtain ⟨out, rfl⟩ := processNOTIFICATION_ok _ _ _ _ _ _ h
    exact Or.inr (pendingStep_of_same _ _ rfl rfl rfl)
  | hello msg =>
    simp only [handle, Except.ok.injEq] at h
    subst h
    right
    unfold processLDPHello
    dsimp only
    split
    · exact pendingStep_of_same _ _ rfl rfl rfl
    · split
      · split
        · exact pendingStep_of_same _ _ rfl rfl rfl
        · exact pendingStep_of_same _ _ rfl rfl rfl
      · exact pendingStep_of_same _ _ rfl rfl rfl
  | tcp msg =>
    right
    simp only [handle] at h
    unfold processMessageFromTCP at h
    split at h
    · exact socketProcessMessage_pending _ _ _ _ _ _ _ _ h
    · dsimp only at h
      split at h
      · cases h; exact pendingStep_of_same _ _ rfl rfl rfl
      · split at h
        · cases h; exact pendingStep_of_same _ _ rfl rfl rfl
        · split at h
          · cases h; exact pendingStep_of_same _ _ rfl rfl rfl
          · have h2 := socketProcessMessage_pending _ _ _ _ _ _ _ _ h
            exact h2

/-- What any event does to `pending`: a pending request was pending before or
is for the id of a FEC of the FEC list. -/
theorem handle_pending_origin (x : Ext) (rt : RoutingTable) (ift : InterfaceTable) (ev : Event)
    (s s1 : State) (h : handle x rt ift ev s = Except.ok s1) :
    ∀ q ∈ s1.pending, q ∈ s.pending ∨ ∃ f ∈ s.fecList, f.fecid = q.fecid := by
  intro q hq
  rcases handle_pending x rt ift ev s s1 h with h2 | h2
  · rw [(rebuildFecList_frame x rt ift s s1 h2).2.2.1] at hq
    exact Or.inl hq
  · exact h2.2.2 q hq

theorem reachable_recordedForFec (x : Ext) (s : State) (h : Reachable x s) :
    ∀ q ∈ s.pending, recordedForFec x s q := by
  induction h with
  | empty => intro q hq; simp [State.empty] at hq
  | init rt ift s h0 =>
    intro q hq
    rw [(rebuildFecList_frame x rt ift _ s h0).2.2.1] at hq
    simp [State.empty] at hq
  | step rt ift ev s s1 hs h1 ih =>
    intro q hq
    rcases handle_pending_origin x rt ift ev s s1 h1 q hq with hq0 | hf
    · obtain ⟨s0, hr0, hsteps, hf⟩ := ih q hq0
      exact ⟨s0, hr0, hsteps.tail ⟨rt, ift, ev, h1⟩, hf⟩
    · exact ⟨s, hs, Relation.ReflTransGen.single ⟨rt, ift, ev, h1⟩, hf⟩

/-- C28, as stated, fails. Router 10.0.0.1 holds the pending request of
10.0.0.2 for FEC 1 (10.2.0.0/16). When the route disappears, `rebuildFecList`
deprecates FEC 1 and leaves the request in `pending`: the FEC list is empty
and `pending` still refers to FEC id 1. -/
theorem pending_outlives_fec_counterexample :
    Reachable ipv4Ext (afterRun ipv4Ext requestedOnce)
    ∧ (afterRun ipv4Ext requestedOnce).fecList = [⟨1, 167903232, 16, 167772163⟩]
    ∧ (afterRun ipv4Ext requestedOnce).pending = [⟨1, 167772162⟩]
    ∧ rebuildFecList ipv4Ext rtNone [] (afterRun ipv4Ext requestedOnce)
        = Except.ok (afterRun ipv4Ext requestedThenLost)
    ∧ Reachable ipv4Ext (afterRun ipv4Ext requestedThenLost)
    ∧ (afterRun ipv4Ext requestedThenLost).fecList = []
    ∧ (afterRun ipv4Ext requestedThenLost).pending = [⟨1, 167772162⟩] :=
  ⟨reachable_afterRun ipv4Ext _ (by decide), by decide, by decide, rfl,
   reachable_afterRun ipv4Ext _ (by decide), by decide, by decide⟩

/-- C28, amended. In every reachable state every entry (FEC id, peer) of
`pending` was recorded for a FEC of the FEC list: its FEC id is the id of a
FEC in the FEC list of an earlier state of the run. A request is only put in
`pending` for a FEC that is in the FEC list at that moment (by
`processLABEL_REQUEST`), and `rebuildFecList` leaves `pending` as it is: the
requests for a FEC it deprecates stay. -/
theorem pending_recorded_for_fec (x : Ext) (s : State) (h : Reachable x s) :
    (∀ q ∈ s.pending, ∃ s0, Reachable x s0 ∧ Relation.ReflTransGen (stepsTo x) s0 s
        ∧ ∃ f ∈ s0.fecList, f.fecid = q.fecid)
    ∧ (∀ rt ift s1, rebuildFecList x rt ift s = Except.ok s1 → s1.pending = s.pending)
    ∧ (∀ rt ift ev s1, handle x rt ift ev s = Except.ok s1 →
        ∀ q ∈ s1.pending, q ∈ s.pending ∨ ∃ f ∈ s.fecList, f.fecid = q.fecid) :=
  ⟨reachable_recordedForFec x s h,
   fun rt ift s1 h1 => (rebuildFecList_frame x rt ift s s1 h1).2.2.1,
   fun rt ift ev s1 h1 => handle_pending_origin x rt ift ev s s1 h1⟩

theorem pending_recorded_for_fec_witness :
    Reachable ipv4Ext (afterRun ipv4Ext requestedThenLost)
    ∧ (afterRun ipv4Ext requestedThenLost).pending = [⟨1, 167772162⟩]
    ∧ (∀ q ∈ (afterRun ipv4Ext requestedThenLost).pending,
        ∃ s0, Reachable ipv4Ext s0
          ∧ Relation.ReflTransGen (stepsTo ipv4Ext) s0 (afterRun ipv4Ext requestedThenLost)
          ∧ ∃ f ∈ s0.fecList, f.fecid = q.fecid) :=
  ⟨reachable_afterRun ipv4Ext _ (by decide), by decide,
   (pending_recorded_for_fec ipv4Ext _ (reachable_afterRun ipv4Ext _ (by decide))).1⟩


/-! ### C27: downstream bindings of a deprecated FEC -/

/-- C27 fails on the code. After `lspUp`, `fecDown` holds (FEC 1, 10.0.0.3,
label 100). A routing table without the route deprecates FEC 1:
`rebuildFecList` sends the LABEL_RELEASE for label 100 to 10.0.0.3 and leaves
the binding in `fecDown`, which then refers to a FEC id that is not in the
FEC list. -/
theorem downstream_binding_after_release :
    Reachable ipv4Ext (afterRun ipv4Ext routeLost)
    ∧ (afterRun ipv4Ext lspUp).fecDown = [⟨1, 167772163, 100⟩]
    ∧ rebuildFecList ipv4Ext rtNone [] (afterRun ipv4Ext lspUp)
        = Except.ok (afterRun ipv4Ext routeLost)
    ∧ (afterRun ipv4Ext routeLost).sent = (afterRun ipv4Ext lspUp).sent ++
        [Output.tcp 167772163
           { type := LDPType.LABEL_RELEASE, senderAddress := 167772161,
             receiverAddress := 167772163, fec := ⟨167903232, 16⟩, label := 100, status := 0 },
         Output.tcp 167772162
           { type := LDPType.LABEL_WITHDRAW, senderAddress := 167772161,
             receiverAddress := 167772162, fec := ⟨167903232, 16⟩, label := 1, status := 0 }]
    ∧ (afterRun ipv4Ext routeLost).fecList = []
    ∧ (afterRun ipv4Ext routeLost).fecDown = [⟨1, 167772163, 100⟩] :=
  ⟨reachable_afterRun ipv4Ext _ (by decide), by decide, rfl, by decide, by decide, by decide⟩

/-! ### C29: the host FEC of a local interface -/

/-- C29 fails on the code. After `initialize` with the host route 10.1.0.1/32
by way of the gateway 10.0.0.3, FEC 1 is (10.1.0.1, 32) with next hop
10.0.0.3. Then the route disappears and the interface ppp0 with address
10.1.0.1 and output port 0 is there: the loop over the interfaces finds FEC
1 in the old list and pushes it as it is, so the FEC list holds no entry for
(10.1.0.1, 32) with next hop 10.1.0.1. The same happens when the interface
is there from the start: `initialize` then makes FEC 1 for the route and FEC
2, with next hop 10.1.0.1, for the interface; when the route disappears the
interface loop finds FEC 1 first, keeps it, and FEC 2 is deprecated. -/
theorem host_fec_keeps_stale_next_hop :
    initializeStage3 ipv4Ext rtHost [] = Except.ok stateHostRoute
    ∧ iftOne = [⟨0, 167837697, "ppp0"⟩]
    ∧ rebuildFecList ipv4Ext rtNone iftOne stateHostRoute = Except.ok stateHostRoute
    ∧ AfterRebuild ipv4Ext rtNone iftOne stateHostRoute
    ∧ Reachable ipv4Ext stateHostRoute
    ∧ stateHostRoute.fecList = [⟨1, 167837697, 32, 167772163⟩]
    ∧ (¬ ∃ f ∈ stateHostRoute.fecList,
        f.addr = 167837697 ∧ f.length = 32 ∧ f.nextHop = 167837697)
    ∧ initializeStage3 ipv4Ext rtHost iftOne = Except.ok
        { stateHostRoute with
          fecList := [⟨1, 167837697, 32, 167772163⟩, ⟨2, 167837697, 32, 167837697⟩]
          maxFecid := 2 }
    ∧ rebuildFecList ipv4Ext rtNone iftOne
        { stateHostRoute with
          fecList := [⟨1, 167837697, 32, 167772163⟩, ⟨2, 167837697, 32, 167837697⟩]
          maxFecid := 2 }
        = Except.ok { stateHostRoute with maxFecid := 2 } :=
  ⟨rfl, rfl, rfl,
   AfterRebuild.again rtHost [] stateHostRoute rtNone iftOne stateHostRoute
     (AfterRebuild.init _ _ _ rfl) rfl,
   Reachable.init rtHost [] _ rfl, rfl, by decide, rfl, rfl⟩

/-! ### C25: the FECs of the routing entries -/

theorem updateFecListEntry_withFecList (x : Ext) (rt : RoutingTable) (ift : InterfaceTable)
    (f : fec_t) (l : List fec_t) (m : Int) (s : State) :
    updateFecListEntry x rt ift f (withFecList l m s)
      = (updateFecListEntry x rt ift f s).map (withFecList l m) := by
  unfold updateFecListEntry withFecList
  dsimp only
  split
  · rfl
  · split
    · rfl
    · split
      · split
        · rfl
        · rfl
      · rfl

theorem reconcileAll_withFecList (x : Ext) (rt : RoutingTable) (ift : InterfaceTable)
    (l : List fec_t) (m : Int) :
    ∀ (fs : List fec_t) (s : State),
      reconcileAll x rt ift fs (withFecList l m s)
        = (reconcileAll x rt ift fs s).map (withFecList l m) := by
  intro fs
  induction fs with
  | nil => intro s; rfl
  | cons f rest ih =>
    intro s
    unfold reconcileAll
    rw [updateFecListEntry_withFecList]
    cases updateFecListEntry x rt ift f s with
    | error e => rfl
    | ok s1 => exact ih s1

theorem findFecEntry_erase_other (l : List fec_t) (addr addr1 : IPAddress)
    (length length1 : Int) (hne : ¬ (addr1 = addr ∧ length1 = length)) :
    findFecEntry (eraseFecEntry l addr length) addr1 length1 = findFecEntry l addr1 length1 := by
  rw [findFecEntry_eq, findFecEntry_eq, filter_eraseFecEntry_other _ _ _ _ _ hne]

theorem routeFecs_keys (x : Ext) (old : List fec_t) :
    ∀ (es : List RoutingEntry) (m : Int),
      (routeFecs x old m es).map fecKey
        = (es.filter (fun re => !x.isMulticast re.host)).map
            (fun re => (re.host, re.netmaskLength)) := by
  intro es
  induction es with
  | nil => intro m; rfl
  | cons re rest ih =>
    intro m
    unfold routeFecs
    split
    · rename_i hm
      simp only [List.filter_cons, hm, Bool.not_true, Bool.false_eq_true, ↓reduceIte, ih]
    · rename_i hm
      simp only [Bool.not_eq_true] at hm
      split
      · simp only [List.filter_cons, hm, Bool.not_false, ↓reduceIte, List.map_cons, ih, fecKey]
      · rename_i it hfind
        obtain ⟨hka, hkl⟩ := findFecEntry_key _ _ _ _ hfind
        simp only [List.filter_cons, hm, Bool.not_false, ↓reduceIte, List.map_cons, ih, fecKey,
          hka, hkl]

theorem routeFecs_congr (x : Ext) (old old1 : List fec_t) :
    ∀ (es : List RoutingEntry) (m : Int), sameLookups x old old1 es →
      routeFecs x old1 m es = routeFecs x old m es
      ∧ maxFecidAfterRoutes x old1 m es = maxFecidAfterRoutes x old m es := by
  intro es
  induction es with
  | nil => intro m _; exact ⟨rfl, rfl⟩
  | cons re rest ih =>
    intro m h
    have hrest : sameLookups x old old1 rest := fun r hr hm => h r (by simp [hr]) hm
    unfold routeFecs maxFecidAfterRoutes
    by_cases hm : x.isMulticast re.host = true
    · simp only [hm, ↓reduceIte]
      exact ih m hrest
    · simp only [Bool.not_eq_true] at hm
      simp only [hm, Bool.false_eq_true, ↓reduceIte, h re (by simp) hm]
      cases findFecEntry old re.host re.netmaskLength with
      | none =>
        dsimp only
        exact ⟨by rw [(ih (nextFecid m) hrest).1], (ih (nextFecid m) hrest).2⟩
      | some it =>
        dsimp only
        exact ⟨by rw [(ih m hrest).1], (ih m hrest).2⟩

theorem needsReconcile_congr (x : Ext) (old old1 : List fec_t) (es : List RoutingEntry)
    (m : Int) (h : sameLookups x old old1 es) :
    (routeFecs x old m es).filter (needsReconcile old1)
      = (routeFecs x old m es).filter (needsReconcile old) := by
  apply List.filter_congr
  intro f hf
  have hk : fecKey f ∈ (routeFecs x old m es).map fecKey := List.mem_map_of_mem _ hf
  rw [routeFecs_keys] at hk
  obtain ⟨re, hre, hkey⟩ := List.mem_map.mp hk
  simp only [List.mem_filter, Bool.not_eq_true'] at hre
  simp only [fecKey, Prod.mk.injEq] at hkey
  unfold needsReconcile
  rw [← hkey.1, ← hkey.2, h re hre.1 hre.2]

theorem sameLookups_erase (x : Ext) (old : List fec_t) (re : RoutingEntry)
    (rest : List RoutingEntry)
    (hk : (((re :: rest).filter (fun re => !x.isMulticast re.host)).map
            (fun re => (re.host, re.netmaskLength))).Nodup)
    (hm : x.isMulticast re.host = false) :
    sameLookups x old (eraseFecEntry old re.host re.netmaskLength) rest := by
  intro r hr hmr
  apply findFecEntry_erase_other
  intro ⟨h1, h2⟩
  simp only [List.filter_cons, hm, Bool.not_false, ↓reduceIte, List.map_cons,
    List.nodup_cons] at hk
  apply hk.1
  rw [← h1, ← h2]
  exact List.mem_map_of_mem (fun re : RoutingEntry => (re.host, re.netmaskLength))
    (List.mem_filter.mpr ⟨hr, by simp [hmr]⟩)

theorem withFecList_fecList (l : List fec_t) (m : Int) (s : State) :
    (withFecList l m s).fecList = l := rfl

theorem withFecList_maxFecid (l : List fec_t) (m : Int) (s : State) :
    (withFecList l m s).maxFecid = m := rfl

theorem withFecList_twice (l l1 : List fec_t) (m m1 : Int) (s : State) :
    withFecList l1 m1 (withFecList l m s) = withFecList l1 m1 s := rfl

theorem except_map_map {ε α β γ : Type} (f : α → β) (g : β → γ) (r : Except ε α) :
    Except.map g (Except.map f r) = Except.map (fun a => g (f a)) r := by
  cases r <;> rfl

/-- The loop of `rebuildFecList` over the routing entries, when their keys are
pairwise distinct and their next hops specified: it runs reconciliation, in
the order of the routing entries, for the FECs that are new or have another
next hop, and pushes the FEC of every non-multicast routing entry. -/
theorem rebuildRoutes_plan (x : Ext) (rt : RoutingTable) (ift : InterfaceTable) :
    ∀ (es : List RoutingEntry) (old : List fec_t) (s : State),
      ((es.filter (fun re => !x.isMulticast re.host)).map
          (fun re => (re.host, re.netmaskLength))).Nodup →
      (∀ re ∈ es, x.isMulticast re.host = false → isUnspecified (routeNextHop re) = false) →
      rebuildRoutes x rt ift es old s
        = (reconcileAll x rt ift
            ((routeFecs x old s.maxFecid es).filter (needsReconcile old)) s).map
            (fun t => (oldAfterRoutes x old es,
              withFecList (s.fecList ++ routeFecs x old s.maxFecid es)
                (maxFecidAfterRoutes x old s.maxFecid es) t)) := by
  intro es
  induction es with
  | nil =>
    intro old s _ _
    simp only [rebuildRoutes, routeFecs, List.filter_nil, reconcileAll, oldAfterRoutes,
      maxFecidAfterRoutes, List.append_nil, Except.map, withFecList]
  | cons re rest ih =>
    intro old s hk hu
    have hurest : ∀ r ∈ rest, x.isMulticast r.host = false →
        isUnspecified (routeNextHop r) = false := fun r hr => hu r (by simp [hr])
    by_cases hm : x.isMulticast re.host = true
    · have hk1 : ((rest.filter (fun re => !x.isMulticast re.host)).map
          (fun re => (re.host, re.netmaskLength))).Nodup := by
        simpa [List.filter_cons, hm] using hk
      unfold rebuildRoutes routeFecs oldAfterRoutes maxFecidAfterRoutes
      simp only [hm, ↓reduceIte]
      exact ih old s hk1 hurest
    · simp only [Bool.not_eq_true] at hm
      have hk1 : ((rest.filter (fun re => !x.isMulticast re.host)).map
          (fun re => (re.host, re.netmaskLength))).Nodup := by
        have := hk
        simp only [List.filter_cons, hm, Bool.not_false, ↓reduceIte, List.map_cons,
          List.nodup_cons] at this
        exact this.2
      have hsame := sameLookups_erase x old re rest hk hm
      have hun := hu re (by simp) hm
      unfold rebuildRoutes routeFecs oldAfterRoutes maxFecidAfterRoutes
      simp only [hm, Bool.false_eq_true, ↓reduceIte, hun]
      cases hfind : findFecEntry old re.host re.netmaskLength with
      | none =>
        dsimp only
        have hneed : needsReconcile old
            ⟨nextFecid s.maxFecid, re.host, re.netmaskLength, routeNextHop re⟩ = true := by
          unfold needsReconcile
          simp only [hfind]
        simp only [List.filter_cons, hneed, ↓reduceIte, reconcileAll,
          eraseFecEntry_none _ _ _ hfind]
        have e1 : ({ s with maxFecid := nextFecid s.maxFecid } : State)
            = withFecList s.fecList (nextFecid s.maxFecid) s := rfl
        rw [e1, updateFecListEntry_withFecList]
        cases updateFecListEntry x rt ift
            ⟨nextFecid s.maxFecid, re.host, re.netmaskLength, routeNextHop re⟩ s with
        | error e => rfl
        | ok t =>
          simp only [Except.map]
          have e2 : ({ withFecList s.fecList (nextFecid s.maxFecid) t with
                fecList := (withFecList s.fecList (nextFecid s.maxFecid) t).fecList ++
                  [⟨nextFecid s.maxFecid, re.host, re.netmaskLength, routeNextHop re⟩] } : State)
              = withFecList (s.fecList ++
                  [⟨nextFecid s.maxFecid, re.host, re.netmaskLength, routeNextHop re⟩])
                  (nextFecid s.maxFecid) t := rfl
          rw [e2, ih old _ hk1 hurest, reconcileAll_withFecList, except_map_map]
          simp only [withFecList_fecList, withFecList_maxFecid, withFecList_twice,
            List.append_assoc, List.singleton_append]
          generalize reconcileAll x rt ift _ t = r
          cases r <;> rfl
      | some it =>
        dsimp only
        obtain ⟨hka, hkl⟩ := findFecEntry_key _ _ _ _ hfind
        have hneed : needsReconcile old { it with nextHop := routeNextHop re }
            = (it.nextHop != routeNextHop re) := by
          unfold needsReconcile
          simp only [hka, hkl, hfind]
        simp only [List.filter_cons, hneed]
        by_cases hnh : (it.nextHop != routeNextHop re) = true
        · simp only [hnh, ↓reduceIte, reconcileAll]
          cases hupd : updateFecListEntry x rt ift { it with nextHop := routeNextHop re } s with
          | error e => rfl
          | ok t =>
            obtain ⟨_, hla, hma⟩ := updateFecListEntry_frame _ _ _ _ _ _ hupd
            dsimp only
            have e2 : ({ t with fecList := t.fecList ++ [{ it with nextHop := routeNextHop re }] }
                  : State)
                = withFecList (s.fecList ++ [{ it with nextHop := routeNextHop re }])
                    s.maxFecid t := by
              rw [hla, ← hma]
              rfl
            rw [e2, ih _ _ hk1 hurest, reconcileAll_withFecList, except_map_map]
            simp only [withFecList_fecList, withFecList_maxFecid, withFecList_twice,
              List.append_assoc, List.singleton_append, (routeFecs_congr x old _ rest _ hsame).1,
              (routeFecs_congr x old _ rest _ hsame).2, needsReconcile_congr x old _ rest _ hsame]
        · simp only [Bool.not_eq_true] at hnh
          simp only [hnh, Bool.false_eq_true, ↓reduceIte]
          have hnh1 : it.nextHop = routeNextHop re := by simpa using hnh
          have e2 : ({ s with fecList := s.fecList ++ [it] } : State)
              = withFecList (s.fecList ++ [it]) s.maxFecid s := rfl
          have e3 : ({ it with nextHop := routeNextHop re } : fec_t) = it := by
            rw [← hnh1]
          rw [e2, ih _ _ hk1 hurest, reconcileAll_withFecList, except_map_map, e3]
          simp only [withFecList_fecList, withFecList_maxFecid, withFecList_twice,
            List.append_assoc, List.singleton_append, (routeFecs_congr x old _ rest _ hsame).1,
            (routeFecs_congr x old _ rest _ hsame).2, needsReconcile_congr x old _ rest _ hsame]

theorem forall₂_mem_left {α β : Type} {R : α → β → Prop} :
    ∀ {l1 : List α} {l2 : List β}, List.Forall₂ R l1 l2 → ∀ a ∈ l1, ∃ b ∈ l2, R a b := by
  intro l1 l2 h
  induction h with
  | nil => intro a ha; simp at ha
  | cons hab _ ih =>
    intro a ha
    rcases List.mem_cons.mp ha with rfl | ha
    · exact ⟨_, by simp, hab⟩
    · obtain ⟨b, hb, hr⟩ := ih a ha
      exact ⟨b, by simp [hb], hr⟩

theorem forall₂_and_left {α β : Type} {R : α → β → Prop} {P : α → Prop} :
    ∀ {l1 : List α} {l2 : List β}, List.Forall₂ R l1 l2 → (∀ a ∈ l1, P a) →
      List.Forall₂ (fun a b => R a b ∧ P a) l1 l2 := by
  intro l1 l2 h
  induction h with
  | nil => intro _; exact List.Forall₂.nil
  | cons hab _ ih =>
    intro hp
    exact List.Forall₂.cons ⟨hab, hp _ (by simp)⟩ (ih (fun a ha => hp a (by simp [ha])))

/-- The FEC of each non-multicast routing entry: its key and next hop are those
of the entry; it has the id of the FEC found in the previous list; and it
needs reconciliation when it was not found or was found with another next
hop. -/
theorem routeFecs_spec (x : Ext) (old : List fec_t) :
    ∀ (es : List RoutingEntry) (m : Int),
      List.Forall₂
          (fun (R : RoutingEntry) (f : fec_t) =>
            f.addr = R.host ∧ f.length = R.netmaskLength ∧ f.nextHop = routeNextHop R
            ∧ (∀ g, findFecEntry old R.host R.netmaskLength = some g →
                f.fecid = g.fecid ∧ needsReconcile old f = (g.nextHop != f.nextHop))
            ∧ (findFecEntry old R.host R.netmaskLength = none →
                needsReconcile old f = true))
          (es.filter (fun re => !x.isMulticast re.host)) (routeFecs x old m es) := by
  intro es
  induction es with
  | nil => intro m; exact List.Forall₂.nil
  | cons re rest ih =>
    intro m
    unfold routeFecs
    by_cases hm : x.isMulticast re.host = true
    · simp only [hm, ↓reduceIte, List.filter_cons, Bool.not_true, Bool.false_eq_true]
      exact ih m
    · simp only [Bool.not_eq_true] at hm
      simp only [hm, Bool.false_eq_true, ↓reduceIte, List.filter_cons, Bool.not_false]
      cases hfind : findFecEntry old re.host re.netmaskLength with
      | none =>
        dsimp only
        refine List.Forall₂.cons ?_ (ih (nextFecid m))
        refine ⟨rfl, rfl, rfl, fun g hg => (by rw [hfind] at hg; cases hg), fun _ => ?_⟩
        unfold needsReconcile
        simp only [hfind]
      | some it =>
        dsimp only
        obtain ⟨hka, hkl⟩ := findFecEntry_key _ _ _ _ hfind
        refine List.Forall₂.cons ?_ (ih m)
        refine ⟨hka, hkl, rfl, ?_, fun hn => (by rw [hfind] at hn; cases hn)⟩
        intro g hg
        rw [hfind] at hg
        injection hg with hg
        subst hg
        refine ⟨rfl, ?_⟩
        unfold needsReconcile
        simp only [hka, hkl, hfind]

/-- In a list of pairwise distinct keys, a FEC is the only one with its key. -/
theorem filter_hasKey_of_nodup :
    ∀ (l : List fec_t), (l.map fecKey).Nodup → ∀ f ∈ l,
      l.filter (hasKey f.addr f.length) = [f] := by
  intro l
  induction l with
  | nil => intro _ f hf; simp at hf
  | cons a rest ih =>
    intro hn f hf
    rw [List.map_cons, List.nodup_cons] at hn
    rcases List.mem_cons.mp hf with rfl | hf
    · have hself : hasKey f.addr f.length f = true := by simp [hasKey]
      rw [List.filter_cons, hself]
      simp only [↓reduceIte, List.cons.injEq, true_and, List.filter_eq_nil_iff]
      intro g hg hk
      apply hn.1
      simp only [hasKey, Bool.and_eq_true, beq_iff_eq] at hk
      have : fecKey g = fecKey f := by simp [fecKey, hk.1, hk.2]
      rw [← this]
      exact List.mem_map_of_mem fecKey hg
    · have ha : hasKey f.addr f.length a = false := by
        cases hq : hasKey f.addr f.length a
        · rfl
        · exfalso
          apply hn.1
          simp only [hasKey, Bool.and_eq_true, beq_iff_eq] at hq
          have : fecKey a = fecKey f := by simp [fecKey, hq.1, hq.2]
          rw [this]
          exact List.mem_map_of_mem fecKey hf
      rw [List.filter_cons, ha]
      exact ih hn.2 f hf

/-- C25, as stated, fails. The routing table of router 10.0.0.1 holds the one
host route 10.1.0.1/32 by way of 10.0.0.3 and the previous FEC list is empty,
so the keys are pairwise distinct; the interface ppp0 has the address
10.1.0.1. The call of `rebuildFecList` in `initialize` pushes FEC 1 for the
route and FEC 2 for the interface: the resulting list holds a FEC with the
key of the route whose next hop, 10.1.0.1, is not the gateway of the route. -/
theorem route_key_of_interface_counterexample :
    ((unicastRoutes ipv4Ext rtHost).map (fun re => (re.host, re.netmaskLength))).Nodup
    ∧ unicastRoutes ipv4Ext rtHost = [⟨167837697, 32, 167772163, RouteType.REMOTE⟩]
    ∧ routeNextHop ⟨167837697, 32, 167772163, RouteType.REMOTE⟩ = 167772163
    ∧ rebuildFecList ipv4Ext rtHost iftOne { State.empty with sent := [Output.nextHello] }
        = Except.ok { State.empty with
            fecList := [⟨1, 167837697, 32, 167772163⟩, ⟨2, 167837697, 32, 167837697⟩]
            maxFecid := 2
            sent := [Output.nextHello] } :=
  ⟨by decide, by decide, by decide, rfl⟩

/-- C25, amended. A call of `rebuildFecList` with routing entries of pairwise
distinct (host, netmask length), none of which is the host key (address, 32)
of a valid interface. The FECs of the non-multicast routing entries are those
of `routeFecs`, one per entry R: it is the only FEC of the resulting FEC list
with the key of R, and its next hop is R.host if R is DIRECT and R.gateway
otherwise; if the previous list has a FEC with the key of R it keeps the id
of the first such FEC, and otherwise it is a new FEC, whose id is above the
previous `maxFecid` as long as the counter stays within the range of `int`.
Every other FEC of the resulting list is the host FEC of an interface.
Reconciliation is run, in the order of the routing entries, for exactly the
FECs that are new or whose next hop differs from the one in the previous
list: the bindings, the pending requests, the peers and the log up to the
messages of the deprecation are those that these reconciliations leave. -/
theorem rebuildFecList_routes (x : Ext) (rt : RoutingTable) (ift : InterfaceTable)
    (s s1 : State)
    (hk : ((unicastRoutes x rt).map (fun re => (re.host, re.netmaskLength))).Nodup)
    (hi : ∀ R ∈ unicastRoutes x rt, ∀ ie ∈ validInterfaces ift,
      ¬ (ie.inetAddress = R.host ∧ R.netmaskLength = 32))
    (h : rebuildFecList x rt ift s = Except.ok s1) :
    List.Forall₂
      (fun (R : RoutingEntry) (f : fec_t) =>
        s1.fecList.filter (fun g => g.length == R.netmaskLength && g.addr == R.host) = [f]
        ∧ f.addr = R.host ∧ f.length = R.netmaskLength ∧ f.nextHop = routeNextHop R
        ∧ (∀ g, findFecEntry s.fecList R.host R.netmaskLength = some g →
            f.fecid = g.fecid ∧ needsReconcile s.fecList f = (g.nextHop != f.nextHop))
        ∧ (findFecEntry s.fecList R.host R.netmaskLength = none →
            needsReconcile s.fecList f = true
            ∧ (0 ≤ s.maxFecid → counterInRange x rt ift s →
                s.maxFecid < f.fecid ∧ f.fecid ≤ s1.maxFecid)))
      (unicastRoutes x rt) (routeFecs x s.fecList s.maxFecid rt.entries)
    ∧ (∀ f1 ∈ s1.fecList, f1 ∈ routeFecs x s.fecList s.maxFecid rt.entries
        ∨ ∃ ie ∈ validInterfaces ift, f1.addr = ie.inetAddress ∧ f1.length = 32)
    ∧ ∃ sR out,
        reconcileAll x rt ift
          ((routeFecs x s.fecList s.maxFecid rt.entries).filter (needsReconcile s.fecList)) s
          = Except.ok sR
        ∧ s1.fecUp = sR.fecUp ∧ s1.fecDown = sR.fecDown ∧ s1.pending = sR.pending
        ∧ s1.myPeers = sR.myPeers ∧ s1.sent = sR.sent ++ out := by
  have hids := fun h0 hr => (rebuildFecList_ids x rt ift s s1 h h0 hr).2.2.1
  obtain ⟨old1, sa, sb, h1, h2, rfl⟩ := rebuildFecList_ok x rt ift s s1 h
  obtain ⟨_, F0, _, hF0⟩ := rebuildRoutes_ok x rt ift _ _ _ _ _ h1
  have hu : ∀ re ∈ rt.entries, x.isMulticast re.host = false →
      isUnspecified (routeNextHop re) = false := by
    intro re hre hm
    obtain ⟨f, _, hr⟩ := forall₂_mem_left hF0 re (List.mem_filter.mpr ⟨hre, by simp [hm]⟩)
    exact hr.2.2.2
  have hplan := rebuildRoutes_plan x rt ift rt.entries s.fecList { s with fecList := [] } hk hu
  have e0 : ({ s with fecList := [] } : State) = withFecList [] s.maxFecid s := rfl
  rw [h1, e0, reconcileAll_withFecList, except_map_map] at hplan
  simp only [withFecList_fecList, withFecList_maxFecid, withFecList_twice,
    List.nil_append] at hplan
  cases hrec : reconcileAll x rt ift
      ((routeFecs x s.fecList s.maxFecid rt.entries).filter (needsReconcile s.fecList)) s with
  | error e => rw [hrec] at hplan; cases hplan
  | ok sR =>
    rw [hrec] at hplan
    simp only [Except.map, Except.ok.injEq, Prod.mk.injEq] at hplan
    obtain ⟨rfl, rfl⟩ := hplan
    obtain ⟨hfb, hup, _, hsent, G, hG, hRG⟩ := rebuildInterfaces_ok ift
      (oldAfterRoutes x s.fecList rt.entries)
      (withFecList (routeFecs x s.fecList s.maxFecid rt.entries)
        (maxFecidAfterRoutes x s.fecList s.maxFecid rt.entries) sR)
    obtain ⟨lt1, out, rfl⟩ := removeDeprecated_ok rt _ _ _ h2
    rw [withFecList_fecList] at hG
    have hperm : (x.stdSort
        (rebuildInterfaces ift (oldAfterRoutes x s.fecList rt.entries)
          (withFecList (routeFecs x s.fecList s.maxFecid rt.entries)
            (maxFecidAfterRoutes x s.fecList s.maxFecid rt.entries) sR)).2.fecList).Perm
        (routeFecs x s.fecList s.maxFecid rt.entries ++ G) := by
      refine (x.stdSort_perm _).trans ?_
      rw [hG]
    have hmem : ∀ f, f ∈ x.stdSort
        (rebuildInterfaces ift (oldAfterRoutes x s.fecList rt.entries)
          (withFecList (routeFecs x s.fecList s.maxFecid rt.entries)
            (maxFecidAfterRoutes x s.fecList s.maxFecid rt.entries) sR)).2.fecList
        ↔ f ∈ routeFecs x s.fecList s.maxFecid rt.entries ∨ f ∈ G := by
      intro f
      rw [hperm.mem_iff, List.mem_append]
    have hspec := routeFecs_spec x s.fecList rt.entries s.maxFecid
    have hkeys : ((routeFecs x s.fecList s.maxFecid rt.entries).map fecKey).Nodup := by
      rw [routeFecs_keys]
      exact hk
    refine ⟨?_, ?_, sR, out, rfl, hup, hfb.2.1, hfb.2.2.1, hfb.1, ?_⟩
    · have hspec1 := forall₂_and_right (forall₂_and_left hspec
          (P := fun R => R ∈ unicastRoutes x rt) (fun R hR => hR))
        (P := fun f => f ∈ routeFecs x s.fecList s.maxFecid rt.entries) (fun f hf => hf)
      refine hspec1.imp ?_
      intro R f ⟨⟨⟨a1, a2, a3, a4, a5⟩, aR⟩, a6⟩
      have hone : (x.stdSort
          (rebuildInterfaces ift (oldAfterRoutes x s.fecList rt.entries)
            (withFecList (routeFecs x s.fecList s.maxFecid rt.entries)
              (maxFecidAfterRoutes x s.fecList s.maxFecid rt.entries) sR)).2.fecList).filter
            (fun g => g.length == R.netmaskLength && g.addr == R.host) = [f] := by
        have hp2 := hperm.filter (fun g => g.length == R.netmaskLength && g.addr == R.host)
        rw [List.filter_append] at hp2
        have hF1 : (routeFecs x s.fecList s.maxFecid rt.entries).filter
            (fun g => g.length == R.netmaskLength && g.addr == R.host) = [f] := by
          have := filter_hasKey_of_nodup _ hkeys f a6
          rw [a1, a2] at this
          exact this
        have hG1 : G.filter (fun g => g.length == R.netmaskLength && g.addr == R.host) = [] := by
          rw [List.filter_eq_nil_iff]
          intro g hg hkey
          simp only [Bool.and_eq_true, beq_iff_eq] at hkey
          obtain ⟨ie, hie, hr⟩ := forall₂_mem_right hRG g hg
          exact hi R aR ie hie ⟨hr.1.symm.trans hkey.2, hkey.1.symm.trans hr.2⟩
        rw [hF1, hG1, List.append_nil] at hp2
        exact List.perm_singleton.mp hp2
      refine ⟨hone, a1, a2, a3, a4, fun hn => ⟨a5 hn, fun h0 hr => ?_⟩⟩
      rcases hids h0 hr f ((hmem f).mpr (Or.inl a6)) with ⟨g, hg, _, hgk⟩ | hnew
      · exfalso
        unfold findFecEntry at hn
        rw [List.find?_eq_none] at hn
        apply hn g hg
        simp only [fecKey, Prod.mk.injEq] at hgk
        simp [hgk.1, hgk.2, a1, a2]
      · exact hnew
    · intro f1 hf1
      rcases (hmem f1).mp hf1 with hf | hf
      · exact Or.inl hf
      · obtain ⟨ie, hie, hr⟩ := forall₂_mem_right hRG f1 hf
        exact Or.inr ⟨ie, hie, hr.1, hr.2⟩
    · exact congrArg (fun l => l ++ out) hsent

theorem rebuildFecList_routes_witness :
    ((unicastRoutes ipv4Ext rtViaUp).map (fun re => (re.host, re.netmaskLength))).Nodup
    ∧ rebuildFecList ipv4Ext rtViaUp [] (afterRun ipv4Ext lspUp)
        = Except.ok (afterRun ipv4Ext nextHopChanged)
    ∧ (afterRun ipv4Ext lspUp).fecList = [⟨1, 167903232, 16, 167772163⟩]
    ∧ (afterRun ipv4Ext nextHopChanged).fecList = [⟨1, 167903232, 16, 167772162⟩]
    ∧ ∃ sR out,
        reconcileAll ipv4Ext rtViaUp [] [⟨1, 167903232, 16, 167772162⟩] (afterRun ipv4Ext lspUp)
          = Except.ok sR
        ∧ (afterRun ipv4Ext nextHopChanged).fecUp = sR.fecUp
        ∧ (afterRun ipv4Ext nextHopChanged).sent = sR.sent ++ out :=
  ⟨by decide, rfl, by decide, by decide,
   (rebuildFecList_routes ipv4Ext rtViaUp [] (afterRun ipv4Ext lspUp)
      (afterRun ipv4Ext nextHopChanged) (by decide) (by decide) rfl).2.2.imp
    (fun sR h => h.imp (fun out h1 => ⟨h1.1, h1.2.1, h1.2.2.2.2.2⟩))⟩


/-! ### C26: the messages for deprecated FECs -/

theorem releaseDownstream_ok (rt : RoutingTable) (myPeers : List peer_info) (it : fec_t) :
    ∀ (l : List fec_bind_t) (out : List Output),
      releaseDownstream rt myPeers it l = Except.ok out →
      out = (l.filter (fun d => d.fecid == it.fecid)).map (fun d =>
        Output.tcp d.peer
            { type := LDPType.LABEL_RELEASE, senderAddress := rt.routerId,
              receiverAddress := d.peer, fec := ⟨it.addr, it.length⟩,
              label := d.label, status := 0 }) := by
  intro l
  induction l with
  | nil =>
    intro out h
    simp only [releaseDownstream, Except.ok.injEq] at h
    subst h
    rfl
  | cons d rest ih =>
    intro out h
    unfold releaseDownstream at h
    split at h
    · rename_i hne
      have hne1 : (d.fecid == it.fecid) = false := by simpa using hne
      rw [ih out h]
      simp [List.filter_cons, hne1]
    · rename_i hne
      have heq : (d.fecid == it.fecid) = true := by simpa using hne
      split at h
      · cases h
      · rename_i m hm
        split at h
        · cases h
        · rename_i out1 hrec
          cases h
          obtain ⟨rfl, _⟩ := sendToPeer_eq_ok _ _ _ _ hm
          rw [ih out1 hrec]
          simp [List.filter_cons, heq, mapping]

theorem removeLibEntry_not_installed (lt : LIBTable) (k k1 : Int)
    (h : k1 = k ∨ lt.installed k1 = false) : (removeLibEntry lt k).installed k1 = false := by
  unfold removeLibEntry LIBTable.installed at *
  simp only [List.any_eq_false, List.mem_filter, bne_iff_ne, ne_eq, beq_iff_eq, and_imp]
  intro e he hne
  rcases h with rfl | h
  · exact hne
  · simp only [List.any_eq_false, beq_iff_eq] at h
    exact h e he

theorem withdrawUpstream_ok (rt : RoutingTable) (myPeers : List peer_info) (it : fec_t) :
    ∀ (l : List fec_bind_t) (lt lt1 : LIBTable) (out : List Output),
      withdrawUpstream rt myPeers it l lt = Except.ok (lt1, out) →
      out = (l.filter (fun u => u.fecid == it.fecid)).map (fun u =>
        Output.tcp u.peer
            { type := LDPType.LABEL_WITHDRAW, senderAddress := rt.routerId,
              receiverAddress := u.peer, fec := ⟨it.addr, it.length⟩,
              label := u.label, status := 0 })
      ∧ (∀ k, lt.installed k = false → lt1.installed k = false)
      ∧ (∀ u ∈ l, u.fecid = it.fecid → lt1.installed u.label = false) := by
  intro l
  induction l with
  | nil =>
    intro lt lt1 out h
    simp only [withdrawUpstream, Except.ok.injEq, Prod.mk.injEq] at h
    obtain ⟨rfl, rfl⟩ := h
    exact ⟨rfl, fun k hk => hk, fun u hu => by simp at hu⟩
  | cons u rest ih =>
    intro lt lt1 out h
    unfold withdrawUpstream at h
    split at h
    · rename_i hne
      have hne1 : (u.fecid == it.fecid) = false := by simpa using hne
      obtain ⟨h1, h2, h3⟩ := ih _ _ _ h
      refine ⟨by rw [h1]; simp [List.filter_cons, hne1], h2, ?_⟩
      intro v hv hk
      rcases List.mem_cons.mp hv with rfl | hv
      · simp [hk] at hne1
      · exact h3 v hv hk
    · rename_i hne
      have heq : (u.fecid == it.fecid) = true := by simpa using hne
      split at h
      · cases h
      · rename_i m hm
        split at h
        · cases h
        · rename_i lt2 out1 hrec
          cases h
          obtain ⟨rfl, _⟩ := sendToPeer_eq_ok _ _ _ _ hm
          obtain ⟨h1, h2, h3⟩ := ih _ _ _ hrec
          refine ⟨by rw [h1]; simp [List.filter_cons, heq, mapping],
            fun k hk => h2 k (removeLibEntry_not_installed _ _ _ (Or.inr hk)), ?_⟩
          intro v hv hk
          rcases List.mem_cons.mp hv with rfl | hv
          · exact h2 _ (removeLibEntry_not_installed _ _ _ (Or.inl rfl))
          · exact h3 v hv hk

/-- The loop over the deprecated FECs: for each of them in turn, the releases
for its downstream bindings and the withdraws for its upstream bindings are
logged, and the LIB entries of those upstream bindings are removed. -/
theorem removeDeprecated_detail (rt : RoutingTable) :
    ∀ (D : List fec_t) (s s1 : State), removeDeprecated rt D s = Except.ok s1 →
      ∃ lt1, s1 = { s with lt := lt1, sent := s.sent ++ D.flatMap (deprecationMessages rt s) }
        ∧ (∀ k, s.lt.installed k = false → lt1.installed k = false)
        ∧ (∀ f ∈ D, ∀ u ∈ s.fecUp, u.fecid = f.fecid → lt1.installed u.label = false) := by
  intro D
  induction D with
  | nil =>
    intro s s1 h
    simp only [removeDeprecated, Except.ok.injEq] at h
    subst h
    exact ⟨s.lt, by simp, fun k hk => hk, fun f hf => by simp at hf⟩
  | cons it rest ih =>
    intro s s1 h
    unfold removeDeprecated at h
    split at h
    · cases h
    · rename_i out1 h1
      split at h
      · cases h
      · rename_i lt2 out2 h2
        obtain ⟨lt1, rfl, h3, h4⟩ := ih _ _ h
        have e1 := releaseDownstream_ok _ _ _ _ _ h1
        obtain ⟨e2, h5, h6⟩ := withdrawUpstream_ok _ _ _ _ _ _ _ h2
        refine ⟨lt1, ?_, fun k hk => h3 k (h5 k hk), ?_⟩
        · simp only [List.flatMap_cons, deprecationMessages, e1, e2, List.append_assoc]
          rfl
        · intro f hf u hu hk
          rcases List.mem_cons.mp hf with rfl | hf
          · exact h3 _ (h6 u hu hk)
          · exact h4 f hf u hu hk

/-- The messages that one reconciliation logs are messages of reconciliation of
its FEC. -/
theorem updateFecListEntry_log (x : Ext) (rt : RoutingTable) (ift : InterfaceTable)
    (f : fec_t) (s s1 : State) (h : updateFecListEntry x rt ift f s = Except.ok s1) :
    ∃ out, s1.sent = s.sent ++ out ∧ ∀ m ∈ out, reconcileMessage rt f m := by
  by_cases hq : (peerSocketSoft s.myPeers f.nextHop).isNone = true
      ∨ (findFecBind s.fecDown f.fecid f.nextHop).isSome = true
  · exact ⟨[], by rw [updateFecListEntry_silent x rt ift f s s1 hq h]; simp, by simp⟩
  · have he : connected s.myPeers f.nextHop = true := by
      unfold connected
      cases hp : peerSocketSoft s.myPeers f.nextHop with
      | none => exact absurd (Or.inl (by rw [hp]; rfl)) hq
      | some sk => rfl
    have hd : findFecBind s.fecDown f.fecid f.nextHop = none := by
      cases hp : findFecBind s.fecDown f.fecid f.nextHop with
      | none => rfl
      | some d => exact absurd (Or.inr (by rw [hp]; rfl)) hq
    rw [(updateFecListEntry_request x rt ift f s he hd).1 s1 h]
    refine ⟨_, List.append_assoc _ _ _, ?_⟩
    intro m hm
    rcases List.mem_append.mp hm with hm | hm
    · obtain ⟨u, _, rfl⟩ := List.mem_map.mp hm
      exact Or.inl ⟨u.peer, u.label, rfl⟩
    · simp only [List.mem_singleton] at hm
      exact Or.inr hm

theorem reconcileAll_log (x : Ext) (rt : RoutingTable) (ift : InterfaceTable) :
    ∀ (fs : List fec_t) (s sR : State), reconcileAll x rt ift fs s = Except.ok sR →
      ∃ pre, sR.sent = s.sent ++ pre ∧ ∀ m ∈ pre, ∃ g ∈ fs, reconcileMessage rt g m := by
  intro fs
  induction fs with
  | nil =>
    intro s sR h
    simp only [reconcileAll, Except.ok.injEq] at h
    subst h
    exact ⟨[], by simp, by simp⟩
  | cons f rest ih =>
    intro s sR h
    unfold reconcileAll at h
    split at h
    · cases h
    · rename_i sa hupd
      obtain ⟨out, h1, h2⟩ := updateFecListEntry_log x rt ift f s sa hupd
      obtain ⟨pre, h3, h4⟩ := ih sa sR h
      refine ⟨out ++ pre, by rw [h3, h1, List.append_assoc], ?_⟩
      intro m hm
      rcases List.mem_append.mp hm with hm | hm
      · exact ⟨f, by simp, h2 m hm⟩
      · obtain ⟨g, hg, hr⟩ := h4 m hm
        exact ⟨g, by simp [hg], hr⟩

theorem rebuildRoutes_log (x : Ext) (rt : RoutingTable) (ift : InterfaceTable) :
    ∀ (es : List RoutingEntry) (old : List fec_t) (s : State) (old1 : List fec_t) (s1 : State),
      rebuildRoutes x rt ift es old s = Except.ok (old1, s1) →
      ∃ pre, s1.sent = s.sent ++ pre := by
  intro es
  induction es with
  | nil =>
    intro old s old1 s1 h
    simp only [rebuildRoutes, Except.ok.injEq, Prod.mk.injEq] at h
    obtain ⟨_, rfl⟩ := h
    exact ⟨[], by simp⟩
  | cons re rest ih =>
    intro old s old1 s1 h
    unfold rebuildRoutes at h
    split at h
    · exact ih _ _ _ _ h
    · dsimp only at h
      split at h
      · cases h
      · split at h
        · split at h
          · cases h
          · rename_i sa hupd
            obtain ⟨up, lt1, out, rfl⟩ := updateFecListEntry_ok _ _ _ _ _ _ hupd
            obtain ⟨pre, hp⟩ := ih _ _ _ _ h
            exact ⟨out ++ pre, by rw [hp]; simp⟩
        · split at h
          · split at h
            · cases h
            · rename_i sa hupd
              obtain ⟨up, lt1, out, rfl⟩ := updateFecListEntry_ok _ _ _ _ _ _ hupd
              obtain ⟨pre, hp⟩ := ih _ _ _ _ h
              exact ⟨out ++ pre, by rw [hp]; simp⟩
          · obtain ⟨pre, hp⟩ := ih _ _ _ _ h
            exact ⟨pre, hp⟩

/-- The loop of `rebuildFecList` over routing entries of pairwise distinct
keys leaves the state that the reconciliations of the new FECs and of the
FECs with another next hop leave, with the FEC list and `maxFecid` it built. -/
theorem rebuildRoutes_reconciled (x : Ext) (rt : RoutingTable) (ift : InterfaceTable)
    (s : State) (old1 : List fec_t) (sa : State)
    (hk : ((unicastRoutes x rt).map (fun re => (re.host, re.netmaskLength))).Nodup)
    (h1 : rebuildRoutes x rt ift rt.entries s.fecList { s with fecList := [] }
            = Except.ok (old1, sa)) :
    ∃ sR, reconcileAll x rt ift
        ((routeFecs x s.fecList s.maxFecid rt.entries).filter (needsReconcile s.fecList)) s
        = Except.ok sR
      ∧ sa = withFecList (routeFecs x s.fecList s.maxFecid rt.entries)
          (maxFecidAfterRoutes x s.fecList s.maxFecid rt.entries) sR := by
  obtain ⟨_, F0, _, hF0⟩ := rebuildRoutes_ok x rt ift _ _ _ _ _ h1
  have hu : ∀ re ∈ rt.entries, x.isMulticast re.host = false →
      isUnspecified (routeNextHop re) = false := by
    intro re hre hm
    obtain ⟨f, _, hr⟩ := forall₂_mem_left hF0 re (List.mem_filter.mpr ⟨hre, by simp [hm]⟩)
    exact hr.2.2.2
  have hplan := rebuildRoutes_plan x rt ift rt.entries s.fecList { s with fecList := [] } hk hu
  have e0 : ({ s with fecList := [] } : State) = withFecList [] s.maxFecid s := rfl
  rw [h1, e0, reconcileAll_withFecList, except_map_map] at hplan
  simp only [withFecList_fecList, withFecList_maxFecid, withFecList_twice,
    List.nil_append] at hplan
  cases hrec : reconcileAll x rt ift
      ((routeFecs x s.fecList s.maxFecid rt.entries).filter (needsReconcile s.fecList)) s with
  | error e => rw [hrec] at hplan; cases hplan
  | ok sR =>
    rw [hrec] at hplan
    simp only [Except.map, Except.ok.injEq, Prod.mk.injEq] at hplan
    exact ⟨sR, rfl, hplan.2⟩

theorem releaseDownstream_total (rt : RoutingTable) (myPeers : List peer_info) (it : fec_t) :
    ∀ l : List fec_bind_t, (∀ d ∈ l, d.fecid = it.fecid → connected myPeers d.peer = true) →
      ∃ out, releaseDownstream rt myPeers it l = Except.ok out := by
  intro l
  induction l with
  | nil => intro _; exact ⟨[], rfl⟩
  | cons d rest ih =>
    intro hc
    obtain ⟨out, ho⟩ := ih (fun v hv => hc v (by simp [hv]))
    unfold releaseDownstream
    split
    · exact ⟨out, ho⟩
    · rename_i hne
      have heq : d.fecid = it.fecid := by simpa using hne
      simp only [sendMapping, sendToPeer_ok _ _ _ (hc d (by simp) heq), ho]
      exact ⟨_, rfl⟩

theorem withdrawUpstream_total (rt : RoutingTable) (myPeers : List peer_info) (it : fec_t) :
    ∀ (l : List fec_bind_t) (lt : LIBTable),
      (∀ u ∈ l, u.fecid = it.fecid → connected myPeers u.peer = true) →
      ∃ r, withdrawUpstream rt myPeers it l lt = Except.ok r := by
  intro l
  induction l with
  | nil => intro lt _; exact ⟨_, rfl⟩
  | cons u rest ih =>
    intro lt hc
    have hrest : ∀ v ∈ rest, v.fecid = it.fecid → connected myPeers v.peer = true :=
      fun v hv => hc v (by simp [hv])
    unfold withdrawUpstream
    split
    · exact ih lt hrest
    · rename_i hne
      have heq : u.fecid = it.fecid := by simpa using hne
      obtain ⟨r, hr⟩ := ih (removeLibEntry lt u.label) hrest
      simp only [sendMapping, sendToPeer_ok _ _ _ (hc u (by simp) heq), hr]
      exact ⟨_, rfl⟩

/-- The loop over the deprecated FECs runs to the end when there is a session
to the peer of every binding of a deprecated FEC. -/
theorem removeDeprecated_total (rt : RoutingTable) :
    ∀ (D : List fec_t) (s : State),
      (∀ f ∈ D, ∀ d ∈ s.fecDown, d.fecid = f.fecid → connected s.myPeers d.peer = true) →
      (∀ f ∈ D, ∀ u ∈ s.fecUp, u.fecid = f.fecid → connected s.myPeers u.peer = true) →
      ∃ s1, removeDeprecated rt D s = Except.ok s1 := by
  intro D
  induction D with
  | nil => intro s _ _; exact ⟨s, rfl⟩
  | cons it rest ih =>
    intro s hd hu
    obtain ⟨out1, h1⟩ := releaseDownstream_total rt s.myPeers it s.fecDown (hd it (by simp))
    obtain ⟨⟨lt2, out2⟩, h2⟩ := withdrawUpstream_total rt s.myPeers it s.fecUp s.lt
      (hu it (by simp))
    unfold removeDeprecated
    simp only [h1, h2]
    exact ih _ (fun f hf => hd f (by simp [hf])) (fun f hf => hu f (by simp [hf]))

/-- C26, as stated, fails. After `lspUp`, FEC 1 (10.2.0.0/16, next hop
10.0.0.3) has the upstream binding (FEC 1, 10.0.0.2, label 1). The gateway of
the route changes to 10.0.0.2: `rebuildFecList` carries FEC 1 over with the
new next hop and reconciles it, which sends the LABEL_WITHDRAW of label 1 to
10.0.0.2, a message for a binding of a FEC that is carried over. -/
theorem carried_over_withdraw_counterexample :
    Reachable ipv4Ext (afterRun ipv4Ext lspUp)
    ∧ (afterRun ipv4Ext lspUp).fecList = [⟨1, 167903232, 16, 167772163⟩]
    ∧ (afterRun ipv4Ext lspUp).fecUp = [⟨1, 167772162, 1⟩]
    ∧ rebuildFecList ipv4Ext rtViaUp [] (afterRun ipv4Ext lspUp)
        = Except.ok (afterRun ipv4Ext nextHopChanged)
    ∧ (afterRun ipv4Ext nextHopChanged).fecList = [⟨1, 167903232, 16, 167772162⟩]
    ∧ (afterRun ipv4Ext nextHopChanged).sent = (afterRun ipv4Ext lspUp).sent ++
        [Output.tcp 167772162
            { type := LDPType.LABEL_WITHDRAW, senderAddress := rtViaUp.routerId,
              receiverAddress := 167772162, fec := ⟨167903232, 16⟩, label := 1, status := 0 },
         Output.tcp 167772162
             { type := LDPType.LABEL_REQUEST, senderAddress := rtViaUp.routerId,
               receiverAddress := 167772162, fec := ⟨167903232, 16⟩, label := 0, status := 0 }] :=
  ⟨reachable_afterRun ipv4Ext _ (by decide), by decide, by decide, rfl, by decide, by decide⟩

theorem oldAfterRoutes_sublist (x : Ext) :
    ∀ (es : List RoutingEntry) (old : List fec_t), (oldAfterRoutes x old es).Sublist old := by
  intro es
  induction es with
  | nil => intro old; exact List.Sublist.refl _
  | cons re rest ih =>
    intro old
    unfold oldAfterRoutes
    split
    · exact ih old
    · exact (ih _).trans (List.eraseP_sublist _)

theorem oldAfterInterfaces_sublist :
    ∀ (ifs : List InterfaceEntry) (old : List fec_t),
      (oldAfterInterfaces old ifs).Sublist old := by
  intro ifs
  induction ifs with
  | nil => intro old; exact List.Sublist.refl _
  | cons ie rest ih =>
    intro old
    unfold oldAfterInterfaces
    split
    · exact ih old
    · exact (ih _).trans (List.eraseP_sublist _)

/-- C26, amended. A call of `rebuildFecList` runs to the end when its loop over
the routing entries does and there is then a session to the peer of every
binding. When `rebuildFecList` runs to the end, the deprecated FECs are the
FECs left in the local copy of the previous list after the two loops (when
the ids of the previous list are pairwise distinct and between 1 and
`maxFecid`, and the counter stays within the range of `int`: the FECs of the
previous list whose id is not in the new list). The log is then the previous
log, then the messages `pre` of the loop over the routing entries, then for
each deprecated FEC `f` in turn one LABEL_RELEASE with the label of the
binding and the FEC (f.addr, f.length), sent to the peer of the binding, for
each downstream binding with FEC id f.id, and one such LABEL_WITHDRAW for
each upstream binding with FEC id f.id; afterwards the LIB has no entry for
the label of any of those upstream bindings. When the keys of the routing
entries are pairwise distinct, every message of `pre` is a message of
reconciliation, a LABEL_WITHDRAW or the LABEL_REQUEST, of a FEC of the new
list that was not in the previous list or was there with another next hop:
no LABEL_RELEASE, and nothing for a FEC carried over with its next hop. -/
theorem rebuildFecList_deprecation (x : Ext) (rt : RoutingTable) (ift : InterfaceTable)
    (s : State) :
    (∀ old1 sa,
      rebuildRoutes x rt ift rt.entries s.fecList { s with fecList := [] } = Except.ok (old1, sa) →
      (∀ d ∈ sa.fecDown, connected sa.myPeers d.peer = true) →
      (∀ u ∈ sa.fecUp, connected sa.myPeers u.peer = true) →
      ∃ s1, rebuildFecList x rt ift s = Except.ok s1)
    ∧ ∀ s1, rebuildFecList x rt ift s = Except.ok s1 →
      (deprecatedFecs x rt ift s.fecList).Sublist s.fecList
      ∧ ((s.fecList.map (fun f => f.fecid)).Nodup →
          (∀ f ∈ s.fecList, 1 ≤ f.fecid ∧ f.fecid ≤ s.maxFecid) → 0 ≤ s.maxFecid →
          counterInRange x rt ift s →
          ∀ f ∈ s.fecList,
            (f ∈ deprecatedFecs x rt ift s.fecList ↔ ∀ g ∈ s1.fecList, g.fecid ≠ f.fecid))
      ∧ (∀ f ∈ deprecatedFecs x rt ift s.fecList, ∀ u ∈ s1.fecUp, u.fecid = f.fecid →
          s1.lt.installed u.label = false)
      ∧ ∃ pre : List Output,
          s1.sent = s.sent ++ pre ++ (deprecatedFecs x rt ift s.fecList).flatMap (fun f =>
            (s1.fecDown.filter (fun d => d.fecid == f.fecid)).map (fun d =>
              Output.tcp d.peer
                { type := LDPType.LABEL_RELEASE, senderAddress := rt.routerId,
                  receiverAddress := d.peer, fec := ⟨f.addr, f.length⟩, label := d.label,
                  status := 0 })
            ++ (s1.fecUp.filter (fun u => u.fecid == f.fecid)).map (fun u =>
              Output.tcp u.peer
                { type := LDPType.LABEL_WITHDRAW, senderAddress := rt.routerId,
                  receiverAddress := u.peer, fec := ⟨f.addr, f.length⟩, label := u.label,
                  status := 0 }))
          ∧ (((unicastRoutes x rt).map (fun re => (re.host, re.netmaskLength))).Nodup →
              ∀ m ∈ pre, ∃ g ∈ s1.fecList, needsReconcile s.fecList g = true
                ∧ ((∃ peer label, m = Output.tcp peer
                      { type := LDPType.LABEL_WITHDRAW, senderAddress := rt.routerId,
                        receiverAddress := peer, fec := ⟨g.addr, g.length⟩, label := label,
                        status := 0 })
                  ∨ m = Output.tcp g.nextHop
                      { type := LDPType.LABEL_REQUEST, senderAddress := rt.routerId,
                        receiverAddress := g.nextHop, fec := ⟨g.addr, g.length⟩, label := 0,
                        status := 0 })) := by
  constructor
  · intro old1 sa h1 hd hu
    obtain ⟨⟨hp, hdn, _, _⟩, hup, _, _, _⟩ := rebuildInterfaces_ok ift old1 sa
    obtain ⟨sb, hsb⟩ := removeDeprecated_total rt (rebuildInterfaces ift old1 sa).1
      (rebuildInterfaces ift old1 sa).2
      (fun f _ d hdm _ => by rw [hp]; rw [hdn] at hdm; exact hd d hdm)
      (fun f _ u hum _ => by rw [hp]; rw [hup] at hum; exact hu u hum)
    unfold rebuildFecList
    simp only [h1, hsb]
    exact ⟨_, rfl⟩
  intro s1 h
  have hids := fun h0 hr => (rebuildFecList_ids x rt ift s s1 h h0 hr).2.2.2.2
  obtain ⟨old1, sa, sb, h1, h2, rfl⟩ := rebuildFecList_ok x rt ift s s1 h
  obtain ⟨pre, hpre⟩ := rebuildRoutes_log x rt ift _ _ _ _ _ h1
  obtain ⟨_, hup, _, hsent, G, hG, _⟩ := rebuildInterfaces_ok ift old1 sa
  obtain ⟨lt1, rfl, _, hlib⟩ := removeDeprecated_detail rt _ _ _ h2
  have hD : (rebuildInterfaces ift old1 sa).1 = deprecatedFecs x rt ift s.fecList := by
    rw [(rebuildInterfaces_steps ift old1 sa).1, (rebuildRoutes_steps x rt ift _ _ _ _ _ h1).1]
    rfl
  rw [hD] at hlib
  have hmem : ∀ g, g ∈ x.stdSort (rebuildInterfaces ift old1 sa).2.fecList
      ↔ g ∈ (rebuildInterfaces ift old1 sa).2.fecList :=
    fun g => (x.stdSort_perm _).mem_iff
  refine ⟨?_, ?_, hlib, pre, ?_, ?_⟩
  · exact (oldAfterInterfaces_sublist _ _).trans (oldAfterRoutes_sublist x _ _)
  · intro hn hb h0 hr
    exact hids h0 hr ⟨by simpa using hn, by simpa using hb, h0⟩
  · show (rebuildInterfaces ift old1 sa).2.sent ++ _ = _
    rw [hsent, hpre, hD]
    rfl
  · intro hk m hm
    obtain ⟨sR, hrec, rfl⟩ := rebuildRoutes_reconciled x rt ift s old1 sa hk h1
    obtain ⟨pre1, hp1, hp2⟩ := reconcileAll_log x rt ift _ _ _ hrec
    have hpp : pre = pre1 := by
      have : s.sent ++ pre = s.sent ++ pre1 := by
        rw [← hpre, ← hp1]
        rfl
      exact List.append_cancel_left this
    rw [hpp] at hm
    obtain ⟨g, hg, hr⟩ := hp2 m hm
    obtain ⟨hgF, hneed⟩ := List.mem_filter.mp hg
    refine ⟨g, (hmem g).mpr ?_, hneed, hr⟩
    rw [hG]
    exact List.mem_append_left _ hgF

theorem rebuildFecList_deprecation_witness :
    rebuildFecList ipv4Ext rtNone [] (afterRun ipv4Ext lspUp)
        = Except.ok (afterRun ipv4Ext routeLost)
    ∧ (afterRun ipv4Ext lspUp).fecList = [⟨1, 167903232, 16, 167772163⟩]
    ∧ (afterRun ipv4Ext routeLost).fecList = []
    ∧ deprecatedFecs ipv4Ext rtNone [] (afterRun ipv4Ext lspUp).fecList
        = [⟨1, 167903232, 16, 167772163⟩]
    ∧ (afterRun ipv4Ext routeLost).sent = (afterRun ipv4Ext lspUp).sent ++
        [Output.tcp 167772163
           { type := LDPType.LABEL_RELEASE, senderAddress := 167772161,
             receiverAddress := 167772163, fec := ⟨167903232, 16⟩, label := 100, status := 0 },
         Output.tcp 167772162
           { type := LDPType.LABEL_WITHDRAW, senderAddress := 167772161,
             receiverAddress := 167772162, fec := ⟨167903232, 16⟩, label := 1, status := 0 }]
    ∧ (deprecatedFecs ipv4Ext rtNone [] (afterRun ipv4Ext lspUp).fecList).Sublist
        (afterRun ipv4Ext lspUp).fecList
    ∧ (∀ f ∈ deprecatedFecs ipv4Ext rtNone [] (afterRun ipv4Ext lspUp).fecList,
        ∀ u ∈ (afterRun ipv4Ext routeLost).fecUp, u.fecid = f.fecid →
          (afterRun ipv4Ext routeLost).lt.installed u.label = false) :=
  ⟨rfl, by decide, by decide, by decide, by decide,
   ((rebuildFecList_deprecation ipv4Ext rtNone [] (afterRun ipv4Ext lspUp)).2
      (afterRun ipv4Ext routeLost) rfl).1,
   ((rebuildFecList_deprecation ipv4Ext rtNone [] (afterRun ipv4Ext lspUp)).2
      (afterRun ipv4Ext routeLost) rfl).2.2.1⟩

end LDP
